import Mathlib

/-!
# Suspend/resume task engine: `TaskExecutor`, `StackProcessor` and the storage adapters

A shallow embedding of `src/core/task-executor.js`, `src/core/stack-processor.js`,
`src/adapters/sqlite.js` and `src/adapters/supabase.js`.

* JavaScript values are the type `JsVal`; `JSON.stringify` and `JSON.parse` are the
  platform functions the source calls, written out over lists of characters.
* The database is a `Store`: three tables of rows.  Every storage method is a function
  `Store → Store × Except JsError α`: the store after the call, and what the call
  returned or threw.
* A task body (the `code` handed to `new Function`) is a `Prog`: the tree of what the
  body does with `__callHostTool__` and how it ends.
-/

/-! ## JavaScript values -/

/-- JavaScript values exchanged between task bodies, the service client and the store.
Numbers are the integers; functions and symbols are not modelled. An object is the
list of its own properties in enumeration order. -/
inductive JsVal where
  | undefined
  | null
  | bool (b : Bool)
  | num (n : Int)
  | str (s : String)
  | arr (xs : List JsVal)
  | obj (fs : List (String × JsVal))

instance : Inhabited JsVal := ⟨JsVal.undefined⟩

/-- A thrown `Error` object: its `message` and its `stack`. -/
structure JsError where
  message : String
  stack : String
deriving DecidableEq, Repr

/-- The double quote character. -/
def dquote : Char := Char.ofNat 34

/-- The backslash character. -/
def backslash : Char := Char.ofNat 92

/-- Decimal digit `d` as a character. -/
def digitChar (d : Nat) : Char := Char.ofNat (48 + d)

/-- Decimal digits of `n`, most significant first, in front of `acc`. -/
def natDigitsAux : Nat → Nat → List Char → List Char
  | 0, _, acc => acc
  | f + 1, n, acc =>
    if n < 10 then digitChar n :: acc
    else natDigitsAux f (n / 10) (digitChar (n % 10) :: acc)

/-- Decimal numeral of a natural number. -/
def natDigits (n : Nat) : List Char := natDigitsAux (n + 1) n []

/-- Decimal numeral of an integer, as `Number.prototype.toString` prints it. -/
def intDigits : Int → List Char
  | Int.ofNat n => natDigits n
  | Int.negSucc n => '-' :: natDigits (n + 1)

/-- Lower-case hexadecimal digit. -/
def hexDigit (d : Nat) : Char :=
  if d < 10 then Char.ofNat (48 + d) else Char.ofNat (87 + d)

/-- Truthiness of a value (`ToBoolean`). -/
def JsVal.truthy : JsVal → Bool
  | .undefined => false
  | .null => false
  | .bool b => b
  | .num n => n != 0
  | .str s => s != ""
  | .arr _ => true
  | .obj _ => true

/-- String coercion (`ToString`) of a value, as a list of characters. -/
def JsVal.toChars : JsVal → List Char
  | .undefined => "undefined".toList
  | .null => "null".toList
  | .bool b => if b then "true".toList else "false".toList
  | .num n => intDigits n
  | .str s => s.toList
  | .arr xs => arrChars xs
  | .obj _ => "[object Object]".toList
where
  /-- Elements of an array joined by commas; `null` and `undefined` print as nothing. -/
  arrChars : List JsVal → List Char
    | [] => []
    | x :: rest =>
      let here := match x with
        | .undefined => []
        | .null => []
        | y => JsVal.toChars y
      match rest with
      | [] => here
      | _ :: _ => here ++ ',' :: arrChars rest

/-- String coercion (`ToString`) of a value. -/
def JsVal.toJSString (v : JsVal) : String := String.mk v.toChars

/-- Property read `v[key]` on a value that is not `null` or `undefined`: own properties
of objects; other values have none of the names used here. -/
def JsVal.get (v : JsVal) (key : String) : JsVal :=
  match v with
  | .obj fs => match fs.find? (fun kv => kv.1 == key) with
    | some kv => kv.2
    | none => .undefined
  | _ => .undefined

mutual
/-- Equality test on values. -/
def JsVal.beq : JsVal → JsVal → Bool
  | .undefined, .undefined => true
  | .null, .null => true
  | .bool a, .bool b => a == b
  | .num a, .num b => a == b
  | .str a, .str b => a == b
  | .arr xs, .arr ys => JsVal.beqElems xs ys
  | .obj fs, .obj gs => JsVal.beqMembers fs gs
  | _, _ => false
/-- Equality test on lists of values. -/
def JsVal.beqElems : List JsVal → List JsVal → Bool
  | [], [] => true
  | x :: xs, y :: ys => JsVal.beq x y && JsVal.beqElems xs ys
  | _, _ => false
/-- Equality test on lists of properties. -/
def JsVal.beqMembers : List (String × JsVal) → List (String × JsVal) → Bool
  | [], [] => true
  | (k, x) :: fs, (l, y) :: gs => k == l && JsVal.beq x y && JsVal.beqMembers fs gs
  | _, _ => false
end

namespace JSON

/-- One character of a string inside a JSON text (`QuoteJSONString`). -/
def escapeChar (c : Char) : List Char :=
  if c = dquote then [backslash, dquote]
  else if c = backslash then [backslash, backslash]
  else if c = Char.ofNat 8 then [backslash, 'b']
  else if c = Char.ofNat 9 then [backslash, 't']
  else if c = Char.ofNat 10 then [backslash, 'n']
  else if c = Char.ofNat 12 then [backslash, 'f']
  else if c = Char.ofNat 13 then [backslash, 'r']
  else if c.toNat < 32 then
    [backslash, 'u', '0', '0', hexDigit (c.toNat / 16), hexDigit (c.toNat % 16)]
  else [c]

/-- Characters of a string with the escapes of a JSON text, without the quotes. -/
def escapeChars : List Char → List Char
  | [] => []
  | c :: cs => escapeChar c ++ escapeChars cs

/-- A string as a JSON string literal. -/
def quote (s : String) : List Char := dquote :: (escapeChars s.toList ++ [dquote])

mutual
/-- JSON text of a value that is not `undefined` (`SerializeJSONProperty`). -/
def ser : JsVal → List Char
  | .undefined => "null".toList
  | .null => "null".toList
  | .bool b => if b then "true".toList else "false".toList
  | .num n => intDigits n
  | .str s => quote s
  | .arr xs => '[' :: (serElems xs ++ [']'])
  | .obj fs => '{' :: (serMembers false fs ++ ['}'])
/-- Elements of an array joined by commas; `undefined` is written `null`. -/
def serElems : List JsVal → List Char
  | [] => []
  | x :: rest =>
    match rest with
    | [] => ser x
    | _ :: _ => ser x ++ ',' :: serElems rest
/-- Members of an object joined by commas; a property whose value is `undefined` is
left out. The flag says whether a member was already written. -/
def serMembers : Bool → List (String × JsVal) → List Char
  | _, [] => []
  | started, (k, v) :: rest =>
    match v with
    | .undefined => serMembers started rest
    | w =>
      (if started then [','] else []) ++ quote k ++ ':' :: (ser w ++ serMembers true rest)
end

/-- The source's `JSON.stringify(v)`: `undefined` has no JSON text, and the call
returns `undefined` (here `none`). -/
def stringify : JsVal → Option String
  | .undefined => none
  | v => some (String.mk (ser v))

/-- JSON white space. -/
def isWs (c : Char) : Bool :=
  c = ' ' || c = Char.ofNat 9 || c = Char.ofNat 10 || c = Char.ofNat 13

/-- Drop leading white space. -/
def skipWs : List Char → List Char
  | [] => []
  | c :: cs => if isWs c then skipWs cs else c :: cs

/-- Value of a hexadecimal digit. -/
def hexVal (c : Char) : Option Nat :=
  if 48 ≤ c.toNat ∧ c.toNat ≤ 57 then some (c.toNat - 48)
  else if 97 ≤ c.toNat ∧ c.toNat ≤ 102 then some (c.toNat - 87)
  else if 65 ≤ c.toNat ∧ c.toNat ≤ 70 then some (c.toNat - 55)
  else none

/-- The character written as a u-escape with four hexadecimal digits. Escapes of
surrogate code units are not modelled and are refused. -/
def hex4 (a b c d : Char) : Option Char :=
  match hexVal a, hexVal b, hexVal c, hexVal d with
  | some x, some y, some z, some w =>
    let n := ((x * 16 + y) * 16 + z) * 16 + w
    if n.isValidChar then some (Char.ofNat n) else none
  | _, _, _, _ => none

/-- The character a one-letter escape stands for. -/
def unescape (e : Char) : Option Char :=
  if e = dquote then some dquote
  else if e = backslash then some backslash
  else if e = '/' then some '/'
  else if e = 'b' then some (Char.ofNat 8)
  else if e = 't' then some (Char.ofNat 9)
  else if e = 'n' then some (Char.ofNat 10)
  else if e = 'f' then some (Char.ofNat 12)
  else if e = 'r' then some (Char.ofNat 13)
  else none

/-- Read a string literal after its opening quote: the characters of the string and
what follows the closing quote. -/
def parseChars : List Char → Option (List Char × List Char)
  | [] => none
  | c :: cs =>
    if c = dquote then some ([], cs)
    else if c = backslash then
      match cs with
      | [] => none
      | e :: cs1 =>
        if e = 'u' then
          match cs1 with
          | a :: b :: x :: d :: cs2 =>
            match hex4 a b x d with
            | some ch => (parseChars cs2).map (fun r => (ch :: r.1, r.2))
            | none => none
          | _ => none
        else
          match unescape e with
          | some ch => (parseChars cs1).map (fun r => (ch :: r.1, r.2))
          | none => none
    else if c.toNat < 32 then none
    else (parseChars cs).map (fun r => (c :: r.1, r.2))

/-- Decimal digit test. -/
def isDigit (c : Char) : Bool := 48 ≤ c.toNat && c.toNat ≤ 57

/-- Read a run of decimal digits onto the accumulator. -/
def readDigits : List Char → Nat → Nat × List Char
  | [], a => (a, [])
  | c :: cs, a =>
    if isDigit c then readDigits cs (a * 10 + (c.toNat - 48)) else (a, c :: cs)

/-- The integer part of a JSON number: a single zero, or a run of digits that does
not start with zero. -/
def parseNat : List Char → Option (Nat × List Char)
  | [] => none
  | c :: cs =>
    if c = '0' then some (0, cs)
    else if isDigit c then some (readDigits cs (c.toNat - 48))
    else none

/-- The end of a JSON number whose integer part is `n`. Fractions and exponents are
outside the modelled numbers and are refused. -/
def endNumber (n : Int) (rest : List Char) : Option (JsVal × List Char) :=
  match rest with
  | [] => some (.num n, rest)
  | c :: _ => if c = '.' || c = 'e' || c = 'E' then none else some (.num n, rest)

/-- A JSON number. -/
def parseNumber (cs : List Char) : Option (JsVal × List Char) :=
  match cs with
  | [] => none
  | c :: cs1 =>
    if c = '-' then
      match parseNat cs1 with
      | none => none
      | some (n, rest) => endNumber (-(n : Int)) rest
    else
      match parseNat (c :: cs1) with
      | none => none
      | some (n, rest) => endNumber (n : Int) rest

/-- The literals `null`, `true`, `false`, or a number. -/
def parseAtom (cs : List Char) : Option (JsVal × List Char) :=
  if "null".toList.isPrefixOf cs then some (.null, cs.drop 4)
  else if "true".toList.isPrefixOf cs then some (.bool true, cs.drop 4)
  else if "false".toList.isPrefixOf cs then some (.bool false, cs.drop 5)
  else parseNumber cs

/-- Define property `k` of an object under construction: a repeated name keeps its
place and takes the later value. -/
def setProp (fs : List (String × JsVal)) (k : String) (v : JsVal) : List (String × JsVal) :=
  if fs.any (fun kv => kv.1 == k) then fs.map (fun kv => if kv.1 == k then (k, v) else kv)
  else fs ++ [(k, v)]

mutual
/-- Read one JSON value; the first argument bounds the depth of the calls. -/
def parseValue : Nat → List Char → Option (JsVal × List Char)
  | 0, _ => none
  | f + 1, cs =>
    match skipWs cs with
    | [] => none
    | c :: r =>
      if c = '[' then
        match skipWs r with
        | [] => none
        | c1 :: r1 =>
          if c1 = ']' then some (.arr [], r1)
          else (parseElements f r).map (fun p => (.arr p.1, p.2))
      else if c = '{' then
        match skipWs r with
        | [] => none
        | c1 :: r1 =>
          if c1 = '}' then some (.obj [], r1)
          else (parseMembers f r []).map (fun p => (.obj p.1, p.2))
      else if c = dquote then (parseChars r).map (fun p => (.str (String.mk p.1), p.2))
      else parseAtom (c :: r)
/-- Read the elements of a non-empty array up to and including the closing bracket. -/
def parseElements : Nat → List Char → Option (List JsVal × List Char)
  | 0, _ => none
  | f + 1, cs =>
    match parseValue f cs with
    | none => none
    | some (v, r) =>
      match skipWs r with
      | [] => none
      | c :: r1 =>
        if c = ',' then (parseElements f r1).map (fun p => (v :: p.1, p.2))
        else if c = ']' then some ([v], r1)
        else none
/-- Read the members of a non-empty object up to and including the closing brace. -/
def parseMembers : Nat → List Char → List (String × JsVal) →
    Option (List (String × JsVal) × List Char)
  | 0, _, _ => none
  | f + 1, cs, acc =>
    match skipWs cs with
    | [] => none
    | c :: r =>
      if c = dquote then
        match parseChars r with
        | none => none
        | some (k, r1) =>
          match skipWs r1 with
          | [] => none
          | c2 :: r2 =>
            if c2 = ':' then
              match parseValue f r2 with
              | none => none
              | some (v, r3) =>
                match skipWs r3 with
                | [] => none
                | c3 :: r4 =>
                  if c3 = ',' then parseMembers f r4 (setProp acc (String.mk k) v)
                  else if c3 = '}' then some (setProp acc (String.mk k) v, r4)
                  else none
            else none
      else none
end

/-- What may follow a value inside a JSON text written by `ser`: nothing, a comma, or a
closing bracket or brace. -/
def Sep (rest : List Char) : Prop :=
  ∀ c tl, rest = c :: tl → c = ',' ∨ c = ']' ∨ c = '}'

/-- The `SyntaxError` that `JSON.parse` throws; the text of its message is the
engine's and is not modelled further. -/
def syntaxError : JsError := ⟨"Unexpected token in JSON", "SyntaxError"⟩

/-- The source's `JSON.parse(text)`. The numbers of the model are the integers: a
numeral with a fraction or an exponent, and a u-escape of a surrogate, are refused here
where the engine accepts them. Statements about a text that is not written by
`JSON.stringify` keep to the texts of `JSON.modelled`. -/
def parse (text : String) : Except JsError JsVal :=
  match parseValue (2 * text.length + 2) text.toList with
  | none => .error syntaxError
  | some (v, rest) => if skipWs rest = [] then .ok v else .error syntaxError

end JSON

/-- A value as it arrives after being sent as JSON text (the request body of the
Supabase client): inside arrays `undefined` becomes `null`, inside objects a property
whose value is `undefined` is dropped. -/
def JsVal.wire : JsVal → JsVal
  | .undefined => .null
  | .null => .null
  | .bool b => .bool b
  | .num n => .num n
  | .str s => .str s
  | .arr xs => .arr (wireElems xs)
  | .obj fs => .obj (wireMembers fs)
where
  /-- Elements of an array as they arrive. -/
  wireElems : List JsVal → List JsVal
    | [] => []
    | x :: rest => JsVal.wire x :: wireElems rest
  /-- Members of an object as they arrive. -/
  wireMembers : List (String × JsVal) → List (String × JsVal)
    | [] => []
    | (k, v) :: rest =>
      match v with
      | .undefined => wireMembers rest
      | w => (k, JsVal.wire w) :: wireMembers rest

/-- `JSON.stringify(v)` as a JavaScript value: a string, or `undefined`. -/
def JSON.stringifyVal (v : JsVal) : JsVal :=
  match JSON.stringify v with
  | some t => .str t
  | none => .undefined

/-! ## Records and the store -/

/-- A task run: a row of table `task_runs`, or the object an adapter returns for it.
The columns `created_at` and `updated_at` hold wall-clock time and are not modelled. -/
structure TaskRun where
  id : Nat
  task_identifier : String
  status : String
  input : JsVal
  result : JsVal
  error : JsVal

/-- A stack run: a row of table `stack_runs`, or the object an adapter returns for it.
`parent_stack_run_id` is `none` for SQL `NULL`. -/
structure StackRun where
  id : Nat
  task_run_id : Nat
  parent_stack_run_id : Option Nat
  operation : String
  status : String
  input : JsVal
  result : JsVal
  error : JsVal
  suspended_at : JsVal
  resume_payload : JsVal

/-- A task function: a row of table `task_functions`. -/
structure TaskFunction where
  id : Nat
  identifier : String
  code : String
  metadata : JsVal

/-- The database. Rows are kept in insertion order, which is the order of their
`created_at`. `stack_seq` is the largest id ever given to a stack run (the
`AUTOINCREMENT` counter). -/
structure Store where
  task_runs : List TaskRun
  stack_runs : List StackRun
  task_functions : List TaskFunction
  stack_seq : Nat

/-- The argument of `createStackRun`: the properties the engine passes. A property that
is left out is `undefined` (`none` for the parent). -/
structure StackRunData where
  task_run_id : Nat
  parent_stack_run_id : Option Nat := none
  operation : String
  status : String
  input : JsVal
  result : JsVal := .undefined
  error : JsVal := .undefined

/-- The `updates` argument of `updateTaskRun`: for each property, `none` when the
object has no such key, `some v` when it has the key with value `v`. -/
structure TaskRunUpdates where
  status : Option String := none
  result : Option JsVal := none
  error : Option JsVal := none

/-- The `updates` argument of `updateStackRun`, read like `TaskRunUpdates`. -/
structure StackRunUpdates where
  status : Option String := none
  result : Option JsVal := none
  error : Option JsVal := none
  resume_payload : Option JsVal := none

/-- The id the database gives the next stack run: one more than every id in the table
and than every id given before. -/
def Store.nextStackRunId (s : Store) : Nat :=
  (s.stack_runs.foldl (fun m r => max m r.id) s.stack_seq) + 1

/-- The interface of `StorageAdapter` that the executor and the processor use. Every
method takes the store and gives the store after the call and what the call returned
or threw. -/
structure StorageAdapter where
  createStackRun : StackRunData → Store → Store × Except JsError StackRun
  getStackRun : Nat → Store → Store × Except JsError (Option StackRun)
  updateStackRun : Nat → StackRunUpdates → Store → Store × Except JsError (Option StackRun)
  getPendingStackRuns : Store → Store × Except JsError (List StackRun)
  getTaskRun : Nat → Store → Store × Except JsError (Option TaskRun)
  updateTaskRun : Nat → TaskRunUpdates → Store → Store × Except JsError (Option TaskRun)
  getTaskFunction : String → Store → Store × Except JsError (Option TaskFunction)

/-! ## The SQLite adapter (`src/adapters/sqlite.js`) -/

namespace SQLiteAdapter

/-- The `TypeError` of the driver for a parameter it cannot bind. -/
def bindError : JsError :=
  ⟨"SQLite3 can only bind numbers, strings, bigints, buffers, and null", "TypeError"⟩

/-- The error of an insert whose `task_run_id` names no task run
(`task_run_id INTEGER NOT NULL REFERENCES task_runs(id)`). -/
def foreignKeyError : JsError := ⟨"FOREIGN KEY constraint failed", "SqliteError"⟩

/-- A statement parameter as a `TEXT` column receives it: strings as they are, `null`
and `undefined` as `NULL`, a number as its numeral; booleans and objects cannot be
bound. -/
def bind : JsVal → Except JsError JsVal
  | .undefined => .ok .null
  | .null => .ok .null
  | .str t => .ok (.str t)
  | .num n => .ok (.str (String.mk (intDigits n)))
  | _ => .error bindError

/-- The callback of `keys.map` in `updateTaskRun` and `updateStackRun`: `null` stays,
an object is written as JSON text, every other value is passed as it is. -/
def updateValue : JsVal → JsVal
  | .null => .null
  | .arr xs => JSON.stringifyVal (.arr xs)
  | .obj fs => JSON.stringifyVal (.obj fs)
  | w => w

/-- The parameter bound for an optional key of an `updates` object. -/
def bindUpdate : Option JsVal → Except JsError (Option JsVal)
  | none => .ok none
  | some v => (bind (updateValue v)).map some

/-- The expression `col ? JSON.parse(col) : null` of the row parsers. -/
def parseColumn (col : JsVal) : Except JsError JsVal :=
  if col.truthy then JSON.parse col.toJSString else .ok .null

/-- The expression `v ? JSON.stringify(v) : null` of the inserts. -/
def stringifyColumn (v : JsVal) : JsVal :=
  if v.truthy then JSON.stringifyVal v else .null

/-- The source's `_parseTaskRun`. -/
def _parseTaskRun (row : TaskRun) : Except JsError TaskRun :=
  match parseColumn row.input with
  | .error e => .error e
  | .ok input =>
    match parseColumn row.result with
    | .error e => .error e
    | .ok result =>
      match parseColumn row.error with
      | .error e => .error e
      | .ok error => .ok { row with input := input, result := result, error := error }

/-- The source's `_parseStackRun`. -/
def _parseStackRun (row : StackRun) : Except JsError StackRun :=
  match parseColumn row.input with
  | .error e => .error e
  | .ok input =>
    match parseColumn row.result with
    | .error e => .error e
    | .ok result =>
      match parseColumn row.error with
      | .error e => .error e
      | .ok error =>
        match parseColumn row.resume_payload with
        | .error e => .error e
        | .ok payload =>
          .ok { row with input := input, result := result, error := error,
                         resume_payload := payload }

/-- The source's `_getTaskRunById`. -/
def _getTaskRunById (id : Nat) (s : Store) : Except JsError (Option TaskRun) :=
  match s.task_runs.find? (fun r => r.id == id) with
  | none => .ok none
  | some row => (_parseTaskRun row).map some

/-- The source's `_getStackRunById`. -/
def _getStackRunById (id : Nat) (s : Store) : Except JsError (Option StackRun) :=
  match s.stack_runs.find? (fun r => r.id == id) with
  | none => .ok none
  | some row => (_parseStackRun row).map some

/-- The source's `getTaskRun`. -/
def getTaskRun (id : Nat) (s : Store) : Store × Except JsError (Option TaskRun) :=
  (s, _getTaskRunById id s)

/-- The source's `getStackRun`. -/
def getStackRun (id : Nat) (s : Store) : Store × Except JsError (Option StackRun) :=
  (s, _getStackRunById id s)

/-- The `UPDATE task_runs SET ... WHERE id = ?` of `updateTaskRun` on one row. -/
def setTaskRun (id : Nat) (status : Option String) (result error : Option JsVal)
    (r : TaskRun) : TaskRun :=
  if r.id == id then
    { r with status := status.getD r.status, result := result.getD r.result,
             error := error.getD r.error }
  else r

/-- The source's `updateTaskRun`: the values are bound (a value that cannot be bound
throws before anything is written), the row is updated, and the row is read back. -/
def updateTaskRun (id : Nat) (updates : TaskRunUpdates) (s : Store) :
    Store × Except JsError (Option TaskRun) :=
  match bindUpdate updates.result with
  | .error e => (s, .error e)
  | .ok result =>
    match bindUpdate updates.error with
    | .error e => (s, .error e)
    | .ok error =>
      let rows := s.task_runs.map (setTaskRun id updates.status result error)
      let s1 := { s with task_runs := rows }
      (s1, _getTaskRunById id s1)

/-- The `UPDATE stack_runs SET ... WHERE id = ?` of `updateStackRun` on one row. -/
def setStackRun (id : Nat) (status : Option String) (result error payload : Option JsVal)
    (r : StackRun) : StackRun :=
  if r.id == id then
    { r with status := status.getD r.status, result := result.getD r.result,
             error := error.getD r.error, resume_payload := payload.getD r.resume_payload }
  else r

/-- The source's `updateStackRun`. -/
def updateStackRun (id : Nat) (updates : StackRunUpdates) (s : Store) :
    Store × Except JsError (Option StackRun) :=
  match bindUpdate updates.result with
  | .error e => (s, .error e)
  | .ok result =>
    match bindUpdate updates.error with
    | .error e => (s, .error e)
    | .ok error =>
      match bindUpdate updates.resume_payload with
      | .error e => (s, .error e)
      | .ok payload =>
        let rows := s.stack_runs.map (setStackRun id updates.status result error payload)
        let s1 := { s with stack_runs := rows }
        (s1, _getStackRunById id s1)

/-- The source's `createStackRun`: `parent_stack_run_id || null`, `status || 'pending'`,
and `v ? JSON.stringify(v) : null` for `input`, `result` and `error`; the new row gets
the next id and is read back. An insert whose `task_run_id` names no task run is
refused: the driver enforces foreign keys. -/
def createStackRun (stackRun : StackRunData) (s : Store) : Store × Except JsError StackRun :=
  match bind (stringifyColumn stackRun.input) with
  | .error e => (s, .error e)
  | .ok input =>
    match bind (stringifyColumn stackRun.result) with
    | .error e => (s, .error e)
    | .ok result =>
      match bind (stringifyColumn stackRun.error) with
      | .error e => (s, .error e)
      | .ok error =>
        if s.task_runs.any (fun t => t.id == stackRun.task_run_id) then
          let row : StackRun :=
            { id := s.nextStackRunId,
              task_run_id := stackRun.task_run_id,
              parent_stack_run_id := stackRun.parent_stack_run_id.filter (fun p => p != 0),
              operation := stackRun.operation,
              status := if stackRun.status != "" then stackRun.status else "pending",
              input := input,
              result := result,
              error := error,
              suspended_at := .null,
              resume_payload := .null }
          ({ s with stack_runs := s.stack_runs ++ [row], stack_seq := row.id },
            _parseStackRun row)
        else (s, .error foreignKeyError)

/-- The callback `rows.map(r => this._parseStackRun(r))`: the first row that does not
parse throws. -/
def parseStackRuns : List StackRun → Except JsError (List StackRun)
  | [] => .ok []
  | row :: rows =>
    match _parseStackRun row with
    | .error e => .error e
    | .ok r =>
      match parseStackRuns rows with
      | .error e => .error e
      | .ok rs => .ok (r :: rs)

/-- The source's `getPendingStackRuns`:
`WHERE status IN ('pending', 'suspended_waiting_child') ORDER BY created_at ASC`,
every row parsed. -/
def getPendingStackRuns (s : Store) : Store × Except JsError (List StackRun) :=
  (s, parseStackRuns (s.stack_runs.filter
        (fun r => r.status == "pending" || r.status == "suspended_waiting_child")))

/-- The source's `getTaskFunction`. -/
def getTaskFunction (identifier : String) (s : Store) :
    Store × Except JsError (Option TaskFunction) :=
  match s.task_functions.find? (fun f => f.identifier == identifier) with
  | none => (s, .ok none)
  | some row =>
    match parseColumn row.metadata with
    | .error e => (s, .error e)
    | .ok metadata => (s, .ok (some { row with metadata := metadata }))

/-- The SQLite adapter as a `StorageAdapter`. -/
def storage : StorageAdapter where
  createStackRun := createStackRun
  getStackRun := getStackRun
  updateStackRun := updateStackRun
  getPendingStackRuns := getPendingStackRuns
  getTaskRun := getTaskRun
  updateTaskRun := updateTaskRun
  getTaskFunction := getTaskFunction

end SQLiteAdapter

/-! ## The Supabase adapter (`src/adapters/supabase.js`) -/

namespace SupabaseAdapter

/-- The error of `.single()` when the request matched no row (code `PGRST116`). -/
def noRowsError : JsError :=
  ⟨"JSON object requested, multiple (or no) rows returned", "PGRST116"⟩

/-- The error of an insert whose `task_run_id` names no task run. -/
def foreignKeyError : JsError :=
  ⟨"insert or update on table violates foreign key constraint", "23503"⟩

/-- The value a column takes from a property of the request body: a property whose
value is `undefined` is not sent and leaves the column as it was. -/
def sent (old : JsVal) : JsVal → JsVal
  | .undefined => old
  | v => v.wire

/-- The value a column takes from an optional key of an `updates` object. -/
def sentUpdate (old : JsVal) : Option JsVal → JsVal
  | none => old
  | some v => sent old v

/-- Modelled from the spec: the tables of the Supabase project are not in the source;
they are taken to have the columns of the stack run record, an id given by the
database and the owning task run as a foreign key. The source's `createStackRun`:
`insert(stackRun).select().single()`. -/
def createStackRun (stackRun : StackRunData) (s : Store) : Store × Except JsError StackRun :=
  if s.task_runs.any (fun t => t.id == stackRun.task_run_id) then
    let row : StackRun :=
      { id := s.nextStackRunId,
        task_run_id := stackRun.task_run_id,
        parent_stack_run_id := stackRun.parent_stack_run_id,
        operation := stackRun.operation,
        status := stackRun.status,
        input := sent .null stackRun.input,
        result := sent .null stackRun.result,
        error := sent .null stackRun.error,
        suspended_at := .null,
        resume_payload := .null }
    ({ s with stack_runs := s.stack_runs ++ [row], stack_seq := row.id }, .ok row)
  else (s, .error foreignKeyError)

/-- The source's `getStackRun`: the row, or `null` when there is none. -/
def getStackRun (id : Nat) (s : Store) : Store × Except JsError (Option StackRun) :=
  (s, .ok (s.stack_runs.find? (fun r => r.id == id)))

/-- The update of `updateStackRun` on one row. -/
def setStackRun (id : Nat) (updates : StackRunUpdates) (r : StackRun) : StackRun :=
  if r.id == id then
    { r with status := updates.status.getD r.status,
             result := sentUpdate r.result updates.result,
             error := sentUpdate r.error updates.error,
             resume_payload := sentUpdate r.resume_payload updates.resume_payload }
  else r

/-- The source's `updateStackRun`: `update(updates).eq('id', id).select().single()`;
the error of `.single()` is thrown when no row has the id. -/
def updateStackRun (id : Nat) (updates : StackRunUpdates) (s : Store) :
    Store × Except JsError (Option StackRun) :=
  let rows := s.stack_runs.map (setStackRun id updates)
  let s1 := { s with stack_runs := rows }
  match s1.stack_runs.find? (fun r => r.id == id) with
  | none => (s1, .error noRowsError)
  | some row => (s1, .ok (some row))

/-- The source's `getPendingStackRuns`:
`.in('status', ['pending', 'suspended_waiting_child']).order('created_at')`. -/
def getPendingStackRuns (s : Store) : Store × Except JsError (List StackRun) :=
  (s, .ok (s.stack_runs.filter
        (fun r => r.status == "pending" || r.status == "suspended_waiting_child")))

/-- The source's `getTaskRun`. -/
def getTaskRun (id : Nat) (s : Store) : Store × Except JsError (Option TaskRun) :=
  (s, .ok (s.task_runs.find? (fun r => r.id == id)))

/-- The update of `updateTaskRun` on one row. -/
def setTaskRun (id : Nat) (updates : TaskRunUpdates) (r : TaskRun) : TaskRun :=
  if r.id == id then
    { r with status := updates.status.getD r.status,
             result := sentUpdate r.result updates.result,
             error := sentUpdate r.error updates.error }
  else r

/-- The source's `updateTaskRun`. -/
def updateTaskRun (id : Nat) (updates : TaskRunUpdates) (s : Store) :
    Store × Except JsError (Option TaskRun) :=
  let rows := s.task_runs.map (setTaskRun id updates)
  let s1 := { s with task_runs := rows }
  match s1.task_runs.find? (fun r => r.id == id) with
  | none => (s1, .error noRowsError)
  | some row => (s1, .ok (some row))

/-- The source's `getTaskFunction`. -/
def getTaskFunction (identifier : String) (s : Store) :
    Store × Except JsError (Option TaskFunction) :=
  (s, .ok (s.task_functions.find? (fun f => f.identifier == identifier)))

/-- The Supabase adapter as a `StorageAdapter`. -/
def storage : StorageAdapter where
  createStackRun := createStackRun
  getStackRun := getStackRun
  updateStackRun := updateStackRun
  getPendingStackRuns := getPendingStackRuns
  getTaskRun := getTaskRun
  updateTaskRun := updateTaskRun
  getTaskFunction := getTaskFunction

end SupabaseAdapter

/-! ## Task bodies -/

/-- What a task body does when it is run once. The body is the `code` compiled by
`new Function('__callHostTool__', 'resumePayload', code)`:

* `ret v`: the body returns `v` (or a promise that resolves to `v`);
* `throw e`: the body throws the `Error` object `e` (or returns a promise that rejects
  with it); a body that throws a value of another kind is outside the model;
* `callHostTool serviceName methodPath args k`: the body calls
  `__callHostTool__(serviceName, methodPath, args)`. The call creates the child stack
  run when it is made and its promise always rejects; `k err` is what the body does
  from there, `err` being the error the promise rejects with. For a body that returns
  the promise of the call, and so ends with its rejection, `k` is `fun err => throw err`.
  A body that catches the rejection, and a body that does not wait for the promise and
  goes on (a dropped promise, or a second call started before the first has rejected,
  as in `Promise.all`), is another `k`. Calls run one after the other: the model has no
  interleaving. -/
inductive Prog where
  | ret (v : JsVal)
  | throw (e : JsError)
  | callHostTool (serviceName methodPath : String) (args : JsVal) (k : JsError → Prog)

/-- The meaning of task code: what the compiled function does for each value of
`resumePayload`. The JavaScript engine is a parameter of the model. -/
abbrev JsEngine := String → JsVal → Prog

/-- The object `context.suspensionData`. -/
structure SuspensionData where
  taskRunId : Nat
  childStackRunId : Nat
  serviceName : String
  methodPath : String
  args : JsVal

/-- The execution context object built by `execute` and `resume`. `stackRun` is
`none` where the object has no such property (in `resume`). -/
structure Context where
  taskRun : TaskRun
  stackRun : Option StackRun
  suspended : Bool
  suspensionData : Option SuspensionData

/-- What `execute` and `resume` return: `{ success: true, result }` or
`{ suspended: true, suspensionData }`. -/
inductive ExecResult where
  | success (result : JsVal)
  | suspended (suspensionData : Option SuspensionData)

/-- The error `new Error('TASK_SUSPENDED')`. -/
def suspendedError : JsError := ⟨"TASK_SUSPENDED", "Error: TASK_SUSPENDED"⟩

/-- The text `JSON.stringify({ message: error.message, stack: error.stack })`. -/
def errorJSON (e : JsError) : JsVal :=
  JSON.stringifyVal (.obj [("message", .str e.message), ("stack", .str e.stack)])

/-- The text `JSON.stringify({ message: error.message })`. -/
def messageJSON (e : JsError) : JsVal :=
  JSON.stringifyVal (.obj [("message", .str e.message)])

/-! ## The task executor (`src/core/task-executor.js`) -/

namespace TaskExecutor

/-- The body of `_executeCode` run on the behaviour of the task code. The closure
`__callHostTool__` creates the child stack run, records `context.suspensionData` and
throws `TASK_SUSPENDED`; when the store throws instead, the body receives that error
and the context is left as it was. -/
def runProg (storage : StorageAdapter) : Prog → Context → Store →
    Store × Context × Except JsError JsVal
  | .ret v, context, s => (s, context, .ok v)
  | .throw e, context, s => (s, context, .error e)
  | .callHostTool serviceName methodPath args k, context, s =>
    match storage.createStackRun
        { task_run_id := context.taskRun.id,
          parent_stack_run_id := context.stackRun.map (fun r => r.id),
          operation := serviceName ++ "." ++ methodPath,
          status := "pending",
          input := .obj [("serviceName", .str serviceName), ("methodPath", .str methodPath),
                         ("args", args)] } s with
    | (s1, .error e) => runProg storage (k e) context s1
    | (s1, .ok childStackRun) =>
      let data : SuspensionData :=
        { taskRunId := context.taskRun.id,
          childStackRunId := childStackRun.id,
          serviceName := serviceName,
          methodPath := methodPath,
          args := args }
      runProg storage (k suspendedError) { context with suspensionData := some data } s1

/-- The source's `_executeCode(code, context, resumePayload)`. -/
def _executeCode (js : JsEngine) (storage : StorageAdapter) (code : String)
    (context : Context) (resumePayload : JsVal) (s : Store) :
    Store × Context × Except JsError JsVal :=
  runProg storage (js code resumePayload) context s

/-- The outer `catch` of `execute`: the task run is stored as failed and the error is
thrown again; an error of the store in the handler takes its place. -/
def executeCatch (storage : StorageAdapter) (taskRun : TaskRun) (error : JsError)
    (s : Store) : Store × Except JsError ExecResult :=
  match storage.updateTaskRun taskRun.id
      { status := some "failed", error := some (errorJSON error) } s with
  | (s1, .error e) => (s1, .error e)
  | (s1, .ok _) => (s1, .error error)

/-- The source's `execute(taskRun, taskCode)`. -/
def execute (js : JsEngine) (storage : StorageAdapter) (taskRun : TaskRun)
    (taskCode : String) (s : Store) : Store × Except JsError ExecResult :=
  match storage.createStackRun
      { task_run_id := taskRun.id,
        operation := "task_init",
        status := "in_progress",
        input := taskRun.input } s with
  | (s1, .error error) => executeCatch storage taskRun error s1
  | (s1, .ok stackRun) =>
    let context : Context :=
      { taskRun := taskRun, stackRun := some stackRun, suspended := false,
        suspensionData := none }
    match _executeCode js storage taskCode context .undefined s1 with
    | (s2, context1, .error error) =>
      if error.message = "TASK_SUSPENDED" then
        (s2, .ok (.suspended context1.suspensionData))
      else executeCatch storage taskRun error s2
    | (s2, _, .ok result) =>
      match storage.updateTaskRun taskRun.id
          { status := some "completed", result := some (JSON.stringifyVal result) } s2 with
      | (s3, .error error) => executeCatch storage taskRun error s3
      | (s3, .ok _) => (s3, .ok (.success result))

/-- The outer `catch` of `resume`. -/
def resumeCatch (storage : StorageAdapter) (taskRun : TaskRun) (error : JsError)
    (s : Store) : Store × Except JsError ExecResult :=
  match storage.updateTaskRun taskRun.id
      { status := some "failed", error := some (messageJSON error) } s with
  | (s1, .error e) => (s1, .error e)
  | (s1, .ok _) => (s1, .error error)

/-- The source's `resume(taskRun, resumePayload, taskCode)`. -/
def resume (js : JsEngine) (storage : StorageAdapter) (taskRun : TaskRun)
    (resumePayload : JsVal) (taskCode : String) (s : Store) :
    Store × Except JsError ExecResult :=
  let context : Context :=
    { taskRun := taskRun, stackRun := none, suspended := false, suspensionData := none }
  match _executeCode js storage taskCode context resumePayload s with
  | (s2, context1, .error error) =>
    if error.message = "TASK_SUSPENDED" then
      (s2, .ok (.suspended context1.suspensionData))
    else resumeCatch storage taskRun error s2
  | (s2, _, .ok result) =>
    match storage.updateTaskRun taskRun.id
        { status := some "completed", result := some (JSON.stringifyVal result) } s2 with
    | (s3, .error error) => resumeCatch storage taskRun error s3
    | (s3, .ok _) => (s3, .ok (.success result))

end TaskExecutor

/-! ## The stack processor (`src/core/stack-processor.js`) -/

/-- A value that reaches the `catch` of `processStackRun`: an `Error` object (thrown by
the store, by the executor or by the service client), or any other value that the
service client rejects with (`null`, `undefined`, a string, a plain object). -/
inductive Thrown where
  | err (e : JsError)
  | val (v : JsVal)

/-- The service client: what `serviceClient.call(serviceName, method, params)` returns
or throws. The transport is outside the engine, and the constructor of
`StackProcessor` takes any object as service client, so a call may reject with any
value. -/
abbrev ServiceClient := JsVal → JsVal → JsVal → Except Thrown JsVal

/-- One call made to the service client. -/
structure HostCall where
  serviceName : JsVal
  methodPath : JsVal
  args : JsVal

/-- The store together with the calls made to the service client so far, oldest
first. The list of calls is kept to state which calls a dispatch pass makes. -/
structure World where
  store : Store
  calls : List HostCall

namespace StackProcessor

/-- The `TypeError` of `const { serviceName, methodPath, args } = input` when `input`
is `null` or `undefined`. -/
def destructureError : JsError :=
  ⟨"Cannot destructure property 'serviceName' of 'input' as it is null.", "TypeError"⟩

/-- The source's `const { serviceName, methodPath, args } = input`. -/
def destructure : JsVal → Except JsError (JsVal × JsVal × JsVal)
  | .undefined => .error destructureError
  | .null => .error destructureError
  | input => .ok (input.get "serviceName", input.get "methodPath", input.get "args")

/-- The truthiness test `if (stackRun.parent_stack_run_id)`. -/
def hasParent (stackRun : StackRun) : Bool :=
  match stackRun.parent_stack_run_id with
  | none => false
  | some p => p != 0

/-- The expression `childStackRun.result ? JSON.parse(childStackRun.result) : null`. -/
def resumePayloadOf (childStackRun : StackRun) : Except JsError JsVal :=
  if childStackRun.result.truthy then JSON.parse childStackRun.result.toJSString
  else .ok .null

/-- The source's `_resumeParentTask(childStackRun)`. It is called only for a stack run
with a parent id; a `null` id names no row. -/
def _resumeParentTask (js : JsEngine) (storage : StorageAdapter) (childStackRun : StackRun)
    (s : Store) : Store × Except JsError Unit :=
  match childStackRun.parent_stack_run_id with
  | none => (s, .ok ())
  | some parentId =>
    match storage.getStackRun parentId s with
    | (s1, .error e) => (s1, .error e)
    | (s1, .ok none) => (s1, .ok ())
    | (s1, .ok (some parentStackRun)) =>
      match storage.getTaskRun childStackRun.task_run_id s1 with
      | (s2, .error e) => (s2, .error e)
      | (s2, .ok none) => (s2, .ok ())
      | (s2, .ok (some taskRun)) =>
        match storage.updateStackRun parentStackRun.id
            { status := some "suspended_waiting_child",
              resume_payload := some
                (JSON.stringifyVal (.obj [("result", childStackRun.result)])) } s2 with
        | (s3, .error e) => (s3, .error e)
        | (s3, .ok _) =>
          match storage.getTaskFunction taskRun.task_identifier s3 with
          | (s4, .error e) => (s4, .error e)
          | (s4, .ok none) => (s4, .ok ())
          | (s4, .ok (some taskFunction)) =>
            match resumePayloadOf childStackRun with
            | .error e => (s4, .error e)
            | .ok resumePayload =>
              match TaskExecutor.resume js storage taskRun resumePayload taskFunction.code s4 with
              | (s5, .error e) => (s5, .error e)
              | (s5, .ok _) => (s5, .ok ())

/-- The `TypeError` of reading the property `message` of `null` or `undefined`. -/
def nullPropertyError : JsError :=
  ⟨"Cannot read properties of null (reading 'message')", "TypeError"⟩

/-- The expression `JSON.stringify(\x7b message: error.message, stack: error.stack \x7d)` in
the `catch` of `processStackRun`, for the caught value `error`: reading a property of
`null` or `undefined` throws; every other value that is not an `Error` has the
properties it has (none, for a string or a number). -/
def thrownJSON : Thrown → Except JsError JsVal
  | .err e => .ok (errorJSON e)
  | .val .null => .error nullPropertyError
  | .val .undefined => .error nullPropertyError
  | .val v => .ok (JSON.stringifyVal (.obj [("message", v.get "message"), ("stack", v.get "stack")]))

/-- The `try` block of `processStackRun`. -/
def processStackRunTry (js : JsEngine) (storage : StorageAdapter) (client : ServiceClient)
    (stackRun : StackRun) (w : World) : World × Except Thrown Unit :=
  if stackRun.status == "in_progress" then (w, .ok ())
  else
    match storage.updateStackRun stackRun.id { status := some "in_progress" } w.store with
    | (s1, .error e) => ({ w with store := s1 }, .error (.err e))
    | (s1, .ok _) =>
      match destructure stackRun.input with
      | .error e => ({ w with store := s1 }, .error (.err e))
      | .ok (serviceName, methodPath, args) =>
        let calls := w.calls ++ [{ serviceName := serviceName, methodPath := methodPath,
                                   args := args }]
        match client serviceName methodPath args with
        | .error thrown => ({ store := s1, calls := calls }, .error thrown)
        | .ok result =>
          match storage.updateStackRun stackRun.id
              { status := some "completed", result := some (JSON.stringifyVal result) } s1 with
          | (s2, .error e) => ({ store := s2, calls := calls }, .error (.err e))
          | (s2, .ok _) =>
            if hasParent stackRun then
              match _resumeParentTask js storage stackRun s2 with
              | (s3, r) => ({ store := s3, calls := calls }, r.mapError Thrown.err)
            else ({ store := s2, calls := calls }, .ok ())

/-- The source's `processStackRun(stackRun)`: the `try` block, and the `catch` that
stores the stack run as failed. An error thrown inside the `catch` (by the property
reads or by the store) is thrown by `processStackRun`. -/
def processStackRun (js : JsEngine) (storage : StorageAdapter) (client : ServiceClient)
    (stackRun : StackRun) (w : World) : World × Except JsError Unit :=
  match processStackRunTry js storage client stackRun w with
  | (w1, .ok _) => (w1, .ok ())
  | (w1, .error error) =>
    match thrownJSON error with
    | .error e => (w1, .error e)
    | .ok text =>
      match storage.updateStackRun stackRun.id
          { status := some "failed", error := some text } w1.store with
      | (s2, .error e) => ({ w1 with store := s2 }, .error e)
      | (s2, .ok _) => ({ w1 with store := s2 }, .ok ())

/-- The loop `for (const stackRun of pending) await this.processStackRun(stackRun)`. -/
def processAll (js : JsEngine) (storage : StorageAdapter) (client : ServiceClient) :
    List StackRun → World → World × Except JsError Unit
  | [], w => (w, .ok ())
  | stackRun :: rest, w =>
    match processStackRun js storage client stackRun w with
    | (w1, .error e) => (w1, .error e)
    | (w1, .ok _) => processAll js storage client rest w1

/-- The source's `processPending()`. -/
def processPending (js : JsEngine) (storage : StorageAdapter) (client : ServiceClient)
    (w : World) : World × Except JsError Unit :=
  match storage.getPendingStackRuns w.store with
  | (s1, .error e) => ({ w with store := s1 }, .error e)
  | (s1, .ok pending) => processAll js storage client pending { w with store := s1 }

end StackProcessor

/-! ## The two adapters side by side, and the shape of a body -/

/-- The storage adapters of the repository. -/
inductive Adapter where
  | sqlite
  | supabase
deriving DecidableEq, Repr

/-- The storage methods of an adapter. -/
def Adapter.storage : Adapter → StorageAdapter
  | .sqlite => SQLiteAdapter.storage
  | .supabase => SupabaseAdapter.storage

/-- What `createStackRun` writes into a JSON column for the property value `v`: the
SQLite adapter writes `v ? JSON.stringify(v) : null`, the Supabase adapter sends `v`. -/
def Adapter.column : Adapter → JsVal → JsVal
  | .sqlite, v => SQLiteAdapter.stringifyColumn v
  | .supabase, v => SupabaseAdapter.sent .null v

/-- The row that `createStackRun` inserts for the argument `d` when the database gives
it the id `id`. -/
def Adapter.insertedRow (A : Adapter) (d : StackRunData) (id : Nat) : StackRun :=
  { id := id,
    task_run_id := d.task_run_id,
    parent_stack_run_id :=
      match A with
      | .sqlite => d.parent_stack_run_id.filter (fun p => p != 0)
      | .supabase => d.parent_stack_run_id,
    operation := d.operation,
    status :=
      match A with
      | .sqlite => if d.status != "" then d.status else "pending"
      | .supabase => d.status,
    input := A.column d.input,
    result := A.column d.result,
    error := A.column d.error,
    suspended_at := .null,
    resume_payload := .null }

/-- The store with one more stack run. -/
def Store.insert (s : Store) (row : StackRun) : Store :=
  { s with stack_runs := s.stack_runs ++ [row], stack_seq := row.id }

/-- The argument of `createStackRun` in `execute`: the root stack run of a task run. -/
def rootData (taskRun : TaskRun) : StackRunData :=
  { task_run_id := taskRun.id, operation := "task_init", status := "in_progress",
    input := taskRun.input }

/-- The argument of `createStackRun` in `__callHostTool__`. -/
def childData (taskRunId : Nat) (parent : Option Nat) (serviceName methodPath : String)
    (args : JsVal) : StackRunData :=
  { task_run_id := taskRunId,
    parent_stack_run_id := parent,
    operation := serviceName ++ "." ++ methodPath,
    status := "pending",
    input := .obj [("serviceName", .str serviceName), ("methodPath", .str methodPath),
                   ("args", args)] }

/-- One host call of a body: service name, method path and arguments. -/
structure Call where
  serviceName : String
  methodPath : String
  args : JsVal

/-- The host calls a body makes, in order, when every call is rejected with
`TASK_SUSPENDED` (the store does not fail). -/
def Prog.calls : Prog → List Call
  | .ret _ => []
  | .throw _ => []
  | .callHostTool serviceName methodPath args k =>
    ⟨serviceName, methodPath, args⟩ :: (k suspendedError).calls

/-- How a body ends when every host call is rejected with `TASK_SUSPENDED`: the value
it returns or the error it throws. -/
def Prog.ending : Prog → Except JsError JsVal
  | .ret v => .ok v
  | .throw e => .error e
  | .callHostTool _ _ _ k => (k suspendedError).ending

/-- A body whose first host call, if it makes one, ends it: the body returns or throws
without a host call, or it makes one host call and ends by throwing whatever error the
call rejects with. That is a body that returns (or awaits) the promise of its first host
call, does not catch the rejection and does nothing after the call. A body that catches
the rejection, or that goes on without waiting for the promise, is not of this kind. -/
def Prog.EndsAtFirstCall : Prog → Prop
  | .ret _ => True
  | .throw _ => True
  | .callHostTool _ _ _ k => ∀ e, k e = .throw e

/-- The first host call of a body, as a list: empty when the body returns or throws
without a host call. -/
def Prog.firstCall : Prog → List Call
  | .ret _ => []
  | .throw _ => []
  | .callHostTool serviceName methodPath args _ => [⟨serviceName, methodPath, args⟩]

/-- The rows of the child stack runs for a list of host calls, the first with id `id`. -/
def Adapter.childRows (A : Adapter) (taskRunId : Nat) (parent : Option Nat) :
    Nat → List Call → List StackRun
  | _, [] => []
  | id, c :: cs =>
    A.insertedRow (childData taskRunId parent c.serviceName c.methodPath c.args) id
      :: A.childRows taskRunId parent (id + 1) cs

/-- The suspension data recorded for the last host call of a list, the first call
having the child id `id`; `init` when the list is empty. -/
def lastSuspension (taskRunId : Nat) (init : Option SuspensionData) :
    Nat → List Call → Option SuspensionData
  | _, [] => init
  | id, c :: cs =>
    lastSuspension taskRunId (some ⟨taskRunId, id, c.serviceName, c.methodPath, c.args⟩)
      (id + 1) cs

/-- The row of task run `id` in the store. -/
def Store.taskRun? (s : Store) (id : Nat) : Option TaskRun :=
  s.task_runs.find? (fun r => r.id == id)

/-- The row of stack run `id` in the store. -/
def Store.stackRun? (s : Store) (id : Nat) : Option StackRun :=
  s.stack_runs.find? (fun r => r.id == id)

/-- The store with more stack runs, inserted one after the other. -/
def Store.insertAll (s : Store) (rows : List StackRun) : Store :=
  rows.foldl Store.insert s

/-- A task run row after an update of its status and, where given, of the texts of its
`result` and `error` columns; rows with another id are left as they are. -/
def TaskRun.updated (id : Nat) (status : String) (result error : Option String)
    (r : TaskRun) : TaskRun :=
  if r.id == id then
    { r with status := status,
             result := (result.map JsVal.str).getD r.result,
             error := (error.map JsVal.str).getD r.error }
  else r

/-- A stack run row after an update of its status and, where given, of the texts of
its `result`, `error` and `resume_payload` columns; rows with another id are left as
they are. -/
def StackRun.updated (id : Nat) (status : String) (result error payload : Option String)
    (r : StackRun) : StackRun :=
  if r.id == id then
    { r with status := status,
             result := (result.map JsVal.str).getD r.result,
             error := (error.map JsVal.str).getD r.error,
             resume_payload := (payload.map JsVal.str).getD r.resume_payload }
  else r

/-- A task run row after `updateTaskRun(id, \x7b status: 'completed', result: undefined \x7d)`:
the SQLite adapter writes `NULL` into `result` (the driver binds `undefined` as `NULL`),
the Supabase adapter does not send the property and leaves the column as it is. -/
def Adapter.completedWithoutResult (A : Adapter) (id : Nat) (r : TaskRun) : TaskRun :=
  if r.id == id then
    match A with
    | .sqlite => { r with status := "completed", result := .null }
    | .supabase => { r with status := "completed" }
  else r

/-- The store with every task run row replaced by its image. -/
def Store.mapTaskRuns (s : Store) (f : TaskRun → TaskRun) : Store :=
  { s with task_runs := s.task_runs.map f }

/-- The store with every stack run row replaced by its image. -/
def Store.mapStackRuns (s : Store) (f : StackRun → StackRun) : Store :=
  { s with stack_runs := s.stack_runs.map f }

/-- The store after `execute` has created the root stack run of the task run and the
body `p` has made its host calls. -/
def Adapter.afterBody (A : Adapter) (taskRun : TaskRun) (p : Prog) (s : Store) : Store :=
  (s.insert (A.insertedRow (rootData taskRun) s.nextStackRunId)).insertAll
    (A.childRows taskRun.id (some s.nextStackRunId) (s.nextStackRunId + 1) p.calls)

/-- The store after the body `p`, run by `resume`, has made its host calls. -/
def Adapter.afterResumedBody (A : Adapter) (taskRun : TaskRun) (p : Prog) (s : Store) : Store :=
  s.insertAll (A.childRows taskRun.id none s.nextStackRunId p.calls)

/-- The store holds task run `id` and the adapter can read it: `getTaskRun(id)` returns
a record. -/
def Adapter.ReadableTask (A : Adapter) (s : Store) (id : Nat) : Prop :=
  ∃ t, (A.storage.getTaskRun id s).2 = .ok (some t)

/-- The store holds stack run `id` and the adapter can read it: `getStackRun(id)`
returns a record. -/
def Adapter.ReadableStack (A : Adapter) (s : Store) (id : Nat) : Prop :=
  ∃ r, (A.storage.getStackRun id s).2 = .ok (some r)

/-- The JSON text of a value that has one. -/
def JSON.text (v : JsVal) : String := String.mk (JSON.ser v)

/-- The text `JSON.stringify({ message: error.message, stack: error.stack })`. -/
def errorText (e : JsError) : String :=
  JSON.text (.obj [("message", .str e.message), ("stack", .str e.stack)])

/-- The text that the `catch` of `processStackRun` stores for a caught value that is not
`null` or `undefined`. -/
def thrownText : Thrown → String
  | .err e => errorText e
  | .val v => JSON.text (.obj [("message", v.get "message"), ("stack", v.get "stack")])

/-- The text `JSON.stringify({ message: error.message })`. -/
def messageText (e : JsError) : String :=
  JSON.text (.obj [("message", .str e.message)])

/-- The invariant of a task run after one call of `execute` or `resume` with outcome
`out`: when the call completed the task run, its row has status `completed`, a result
and no error; when the call threw, its row has status `failed`, an error and no result;
when the call suspended, the row is the row `before`. A column is set when it is not
`NULL`. -/
def ExactlyOneSet (out : Store × Except JsError ExecResult) (id : Nat) (before : TaskRun) :
    Prop :=
  match out.2 with
  | .ok (.success _) =>
    ∃ r, out.1.taskRun? id = some r ∧ r.status = "completed" ∧ r.result ≠ .null
      ∧ r.error = .null
  | .error _ =>
    ∃ r, out.1.taskRun? id = some r ∧ r.status = "failed" ∧ r.error ≠ .null
      ∧ r.result = .null
  | .ok (.suspended _) => out.1.taskRun? id = some before

/-! ## The keystore (`setKeystore`, `getKeystore`, `deleteKeystore`) -/

/-- The largest integer `n` such that `n` and every smaller natural number is a
JavaScript number: `Number.MAX_SAFE_INTEGER`. -/
def maxSafeInteger : Nat := 9007199254740991

/-- A property name that begins with a digit. The names that are array indices are
among them, and an object enumerates those first, whatever the order in which they were
written; objects with such names are left out of the representable values. -/
def indexLike (k : String) : Bool :=
  match k.toList with
  | [] => false
  | c :: _ => JSON.isDigit c

mutual
/-- A value that JSON text represents and that `JSON.parse` gives back from the text:
`undefined` occurs nowhere in it, its numbers are integers that JavaScript represents
exactly, and no object has two properties of the same name or a property name that
begins with a digit. -/
def JsVal.representable : JsVal → Bool
  | .undefined => false
  | .num n => decide (n.natAbs ≤ maxSafeInteger)
  | .arr xs => JsVal.representableElems xs
  | .obj fs => JsVal.representableMembers fs
  | _ => true
/-- Every element of the list is representable. -/
def JsVal.representableElems : List JsVal → Bool
  | [] => true
  | x :: rest => JsVal.representable x && JsVal.representableElems rest
/-- Every property value of the list is representable, no name occurs twice and no
name begins with a digit. -/
def JsVal.representableMembers : List (String × JsVal) → Bool
  | [] => true
  | (k, v) :: rest =>
    JsVal.representable v && !(rest.any (fun m => m.1 == k)) && !(indexLike k)
      && JsVal.representableMembers rest
end

namespace JSON

/-- The text cannot begin a JSON value: after leading white space it is empty, or its
first character is none of the double quote, `[`, the opening brace, `-` and the digits.
`JSON.parse` then has only the words `true`, `false` and `null` to recognise. -/
def startsPlain (text : String) : Bool :=
  match skipWs text.toList with
  | [] => true
  | c :: _ => !(c == dquote || c == '[' || c == '{' || c == '-' || isDigit c)

/-- No digit of the text is directly followed by `.`, `e` or `E`, and no backslash by
`u`: the text holds no numeral with a fraction or an exponent and no u-escape. -/
def plainNumerals : List Char → Bool
  | a :: b :: rest =>
    !((isDigit a && (b == '.' || b == 'e' || b == 'E')) || (a == backslash && b == 'u'))
      && plainNumerals (b :: rest)
  | _ => true

/-- A text on which the modelled `JSON.parse` decides as the engine does whether it is
JSON text. The model has the integers for numbers and refuses a numeral with a fraction
or an exponent, and a u-escape of a surrogate, which the engine accepts; a text of this
kind reaches neither. -/
def modelled (text : String) : Bool :=
  startsPlain text || plainNumerals text.toList

end JSON

/-- A row of table `keystore`: the key and the `value` column. -/
structure KeystoreRow where
  key : String
  value : JsVal

/-- The table `keystore`, rows in insertion order. No method of the runs reads or
writes it, so it is kept apart from `Store`. -/
abbrev Keystore := List KeystoreRow

/-- The expression `typeof value === 'string' ? value : JSON.stringify(value)` of
`setKeystore`. -/
def keystoreText : JsVal → JsVal
  | .str s => .str s
  | v => JSON.stringifyVal v

/-- The statement `try { return JSON.parse(text) } catch (e) { return text }` of
`getKeystore`. -/
def keystoreValue (value : JsVal) : JsVal :=
  match JSON.parse value.toJSString with
  | .ok v => v
  | .error _ => value

namespace SQLiteAdapter

/-- The error of the constraint `value TEXT NOT NULL`. -/
def notNullError : JsError := ⟨"NOT NULL constraint failed: keystore.value", "SqliteError"⟩

/-- The source's `setKeystore`: `INSERT OR REPLACE INTO keystore (key, value)`; a row
with the same key is replaced (`key TEXT NOT NULL UNIQUE`), and `NULL`, which the driver
binds for `undefined`, is refused (`value TEXT NOT NULL`). -/
def setKeystore (key : String) (value : JsVal) (t : Keystore) :
    Keystore × Except JsError Unit :=
  match bind (keystoreText value) with
  | .error e => (t, .error e)
  | .ok .null => (t, .error notNullError)
  | .ok valueStr => (t.filter (fun r => r.key != key) ++ [⟨key, valueStr⟩], .ok ())

/-- The source's `getKeystore`: `null` when no row has the key. -/
def getKeystore (key : String) (t : Keystore) : Keystore × Except JsError JsVal :=
  match t.find? (fun r => r.key == key) with
  | none => (t, .ok .null)
  | some row => (t, .ok (keystoreValue row.value))

/-- The source's `deleteKeystore`: `DELETE FROM keystore WHERE key = ?`. -/
def deleteKeystore (key : String) (t : Keystore) : Keystore × Except JsError Unit :=
  (t.filter (fun r => r.key != key), .ok ())

end SQLiteAdapter

namespace SupabaseAdapter

/-- The source's `setKeystore`: `upsert(\x7bkey, value, updated_at\x7d, \x7bonConflict: 'key'\x7d)`.
A row with the key takes the new value, otherwise a row is added; a `value` that is
`undefined` is not sent. -/
def setKeystore (key : String) (value : JsVal) (t : Keystore) :
    Keystore × Except JsError Unit :=
  if t.any (fun r => r.key == key) then
    (t.map (fun r =>
        if r.key == key then { r with value := sent r.value (keystoreText value) } else r),
      .ok ())
  else (t ++ [⟨key, sent .null (keystoreText value)⟩], .ok ())

/-- The source's `getKeystore`: `.select('value').eq('key', key).single()`; the error of
`.single()` for no row is ignored and `null` is returned. -/
def getKeystore (key : String) (t : Keystore) : Keystore × Except JsError JsVal :=
  match t.find? (fun r => r.key == key) with
  | none => (t, .ok .null)
  | some row => (t, .ok (keystoreValue row.value))

/-- The source's `deleteKeystore`: `.delete().eq('key', key)`. -/
def deleteKeystore (key : String) (t : Keystore) : Keystore × Except JsError Unit :=
  (t.filter (fun r => r.key != key), .ok ())

end SupabaseAdapter

/-- The method `setKeystore` of an adapter. -/
def Adapter.setKeystore : Adapter → String → JsVal → Keystore → Keystore × Except JsError Unit
  | .sqlite => SQLiteAdapter.setKeystore
  | .supabase => SupabaseAdapter.setKeystore

/-- The method `getKeystore` of an adapter. -/
def Adapter.getKeystore : Adapter → String → Keystore → Keystore × Except JsError JsVal
  | .sqlite => SQLiteAdapter.getKeystore
  | .supabase => SupabaseAdapter.getKeystore

/-- The method `deleteKeystore` of an adapter. -/
def Adapter.deleteKeystore : Adapter → String → Keystore → Keystore × Except JsError Unit
  | .sqlite => SQLiteAdapter.deleteKeystore
  | .supabase => SupabaseAdapter.deleteKeystore

/-! ## Rows an adapter can read, and what a storage call may rewrite -/

/-- The adapter can turn the row into the object it returns: the JSON columns of a row
of the SQLite adapter parse; the Supabase adapter returns the row as it is. -/
def Adapter.Parses : Adapter → StackRun → Prop
  | .sqlite, row => ∃ t, SQLiteAdapter._parseStackRun row = .ok t
  | .supabase, _ => True

/-- The stack runs of `s1` are those of `s`, rewritten in place, followed by new rows:
every row keeps its id, a row the adapter can parse stays so, and only rows with an id
in `ids` are rewritten. -/
def Adapter.Step (A : Adapter) (ids : List Nat) (s s1 : Store) : Prop :=
  ∃ (f : StackRun → StackRun) (extra : List StackRun),
    s1.stack_runs = s.stack_runs.map f ++ extra
    ∧ (∀ r, (f r).id = r.id)
    ∧ (∀ r, A.Parses r → A.Parses (f r))
    ∧ (∀ r, r.id ∉ ids → f r = r)

/-- The call to the service client that `processStackRun` makes for a stack run: the
properties `serviceName`, `methodPath` and `args` of its input. -/
def StackProcessor.hostCallOf (stackRun : StackRun) : HostCall :=
  { serviceName := stackRun.input.get "serviceName",
    methodPath := stackRun.input.get "methodPath",
    args := stackRun.input.get "args" }

/-- The world after `processStackRun` on each stack run of a list, in list order. -/
def StackProcessor.afterEach (js : JsEngine) (storage : StorageAdapter)
    (client : ServiceClient) (stackRuns : List StackRun) (w : World) : World :=
  stackRuns.foldl (fun w1 stackRun => (StackProcessor.processStackRun js storage client stackRun w1).1) w

/-! ## A worked scenario

One task run, one registered task function, and the behaviour of a few task codes. -/

namespace Scenario

/-- The task code that returns a literal. -/
def codeDone : String := "return 'done'"

/-- The task code that makes one host call on the first run and returns the resume
value on a resumed run. -/
def codeGet : String :=
  "return resumePayload === undefined ? __callHostTool__('kv', 'get', 'x') : resumePayload"

/-- The task code that catches the error of its host call and returns a value. -/
def codeCatch : String := "return __callHostTool__('kv', 'get', 'x').catch(() => 5)"

/-- The task code that catches the error of its first host call and makes a second. -/
def codeTwice : String :=
  "return __callHostTool__('kv', 'get', 'x').catch(() => __callHostTool__('kv', 'put', 'y'))"

/-- The task code that throws an error. -/
def codeBoom : String := "throw new Error('boom')"

/-- The task code that throws an error with the message of the suspension signal. -/
def codeFake : String := "throw new Error('TASK_SUSPENDED')"

/-- The task code that returns nothing. -/
def codeVoid : String := "return undefined"

/-- The task code that makes a host call on every run. -/
def codeAlways : String := "return __callHostTool__('kv', 'get', 'x')"

/-- The task code that fails on every resumed run: it throws what it is resumed with. -/
def codeStrict : String :=
  "if (resumePayload === undefined) return __callHostTool__('kv', 'get', 'x'); throw new Error('resumed')"

/-- What the JavaScript engine makes of the task codes above. -/
def js : JsEngine := fun code resumePayload =>
  if code = codeDone then .ret (.str "done")
  else if code = codeGet then
    match resumePayload with
    | .undefined => .callHostTool "kv" "get" (.str "x") Prog.throw
    | v => .ret v
  else if code = codeCatch then .callHostTool "kv" "get" (.str "x") (fun _ => .ret (.num 5))
  else if code = codeTwice then
    .callHostTool "kv" "get" (.str "x") (fun _ => .callHostTool "kv" "put" (.str "y") Prog.throw)
  else if code = codeBoom then .throw ⟨"boom", "Error: boom"⟩
  else if code = codeFake then .throw ⟨"TASK_SUSPENDED", "Error: TASK_SUSPENDED"⟩
  else if code = codeVoid then .ret .undefined
  else if code = codeAlways then .callHostTool "kv" "get" (.str "x") Prog.throw
  else if code = codeStrict then
    match resumePayload with
    | .undefined => .callHostTool "kv" "get" (.str "x") Prog.throw
    | _ => .throw ⟨"resumed", "Error: resumed"⟩
  else .throw ⟨"Unexpected end of input", "SyntaxError"⟩

/-- The input of the task run. -/
def input : JsVal := .obj [("key", .str "x")]

/-- The task run of the scenario, as the adapters return it. -/
def taskRun : TaskRun := ⟨1, "t", "pending", input, .null, .null⟩

/-- The store with the row of the task run and a task function registered under its
identifier. -/
def store (A : Adapter) (code : String) : Store :=
  { task_runs := [{ taskRun with input := A.column input }],
    stack_runs := [],
    task_functions := [⟨1, "t", code, .null⟩],
    stack_seq := 0 }

/-- A service client that answers every call with the string `hello`. -/
def helloClient : ServiceClient := fun _ _ _ => .ok (.str "hello")

/-- A service client whose every call fails. -/
def failingClient : ServiceClient :=
  fun _ _ _ => .error (.err ⟨"service down", "Error: service down"⟩)

/-- A service client whose every call rejects with `null`: `Promise.reject(null)`. -/
def nullClient : ServiceClient := fun _ _ _ => .error (.val .null)

/-- The store after `execute` has run the task code for the task run. -/
def afterExecute (A : Adapter) (code : String) : Store :=
  (TaskExecutor.execute js A.storage taskRun code (store A code)).1

/-- The pending child stack run that `execute` leaves for the host call `kv.get`, as
`getPendingStackRuns` returns it. -/
def child : StackRun :=
  { id := 2, task_run_id := 1, parent_stack_run_id := some 1, operation := "kv.get",
    status := "pending",
    input := .obj [("serviceName", .str "kv"), ("methodPath", .str "get"), ("args", .str "x")],
    result := .null, error := .null, suspended_at := .null, resume_payload := .null }

/-- The store and the calls made after `processStackRun` has dispatched the child. -/
def afterDispatch (A : Adapter) (code : String) (client : ServiceClient) : World :=
  (StackProcessor.processStackRun js A.storage client child ⟨afterExecute A code, []⟩).1

/-- What is looked at in a stack run row. -/
structure StackRow where
  id : Nat
  parent : Option Nat
  operation : String
  status : String
  result : JsVal
  error : JsVal
  resume_payload : JsVal

/-- What is looked at in a task run row. -/
structure TaskRow where
  id : Nat
  status : String
  result : JsVal
  error : JsVal

/-- The stack runs of a store. -/
def stackView (s : Store) : List StackRow :=
  s.stack_runs.map
    (fun r => ⟨r.id, r.parent_stack_run_id, r.operation, r.status, r.result, r.error,
      r.resume_payload⟩)

/-- The task runs of a store. -/
def taskView (s : Store) : List TaskRow :=
  s.task_runs.map (fun t => ⟨t.id, t.status, t.result, t.error⟩)

/-- The stack runs returned by `getPendingStackRuns`, each as (id, operation, status);
`none` when the call throws. -/
def pendingView (A : Adapter) (s : Store) : Option (List (Nat × String × String)) :=
  match (A.storage.getPendingStackRuns s).2 with
  | .ok rows => some (rows.map (fun r => (r.id, r.operation, r.status)))
  | .error _ => none

/-- The second pending child that `execute` leaves for the task code `codeTwice` (the
host call `kv.put`), as `getPendingStackRuns` returns it. -/
def secondChild : StackRun :=
  { id := 3, task_run_id := 1, parent_stack_run_id := some 1, operation := "kv.put",
    status := "pending",
    input := .obj [("serviceName", .str "kv"), ("methodPath", .str "put"), ("args", .str "y")],
    result := .null, error := .null, suspended_at := .null, resume_payload := .null }

/-- The root stack run once the first child has been dispatched, as
`getPendingStackRuns` returns it: the SQLite adapter returns the resume payload parsed,
the Supabase adapter returns the stored text. -/
def waitingRoot (A : Adapter) : StackRun :=
  { id := 1, task_run_id := 1, parent_stack_run_id := none, operation := "task_init",
    status := "suspended_waiting_child", input := input, result := .null, error := .null,
    suspended_at := .null,
    resume_payload :=
      match A with
      | .sqlite => .obj [("result", .null)]
      | .supabase => .str "\x7b\"result\":null\x7d" }

/-- The store and the calls made after the task code `codeTwice` has been executed, its
first child has been dispatched, and the root stack run, which then waits for a child,
has been dispatched as well: the root is stored as completed while its second child is
still pending. -/
def parentDone (A : Adapter) : World :=
  (StackProcessor.processStackRun js A.storage helloClient (waitingRoot A)
    (afterDispatch A codeTwice helloClient)).1

/-- The status stored for stack run `id`, if there is such a row. -/
def statusOf (s : Store) (id : Nat) : Option String :=
  (s.stackRun? id).map (fun r => r.status)

end Scenario

/-! # Theorems -/

/-! ## Decidable equality of values and records -/

mutual
theorem JsVal.beq_iff : (a b : JsVal) → (JsVal.beq a b = true ↔ a = b)
  | .undefined, b => by cases b <;> simp [JsVal.beq]
  | .null, b => by cases b <;> simp [JsVal.beq]
  | .bool a, b => by cases b <;> simp [JsVal.beq]
  | .num a, b => by cases b <;> simp [JsVal.beq]
  | .str a, b => by cases b <;> simp [JsVal.beq]
  | .arr xs, b => by
    cases b <;> simp [JsVal.beq]
    exact JsVal.beqElems_iff xs _
  | .obj fs, b => by
    cases b <;> simp [JsVal.beq]
    exact JsVal.beqMembers_iff fs _
theorem JsVal.beqElems_iff : (xs ys : List JsVal) → (JsVal.beqElems xs ys = true ↔ xs = ys)
  | [], ys => by cases ys <;> simp [JsVal.beqElems]
  | x :: xs, ys => by
    cases ys with
    | nil => simp [JsVal.beqElems]
    | cons y ys => simp [JsVal.beqElems, JsVal.beq_iff x y, JsVal.beqElems_iff xs ys]
theorem JsVal.beqMembers_iff : (fs gs : List (String × JsVal)) →
    (JsVal.beqMembers fs gs = true ↔ fs = gs)
  | [], gs => by cases gs <;> simp [JsVal.beqMembers]
  | (k, x) :: fs, gs => by
    cases gs with
    | nil => simp [JsVal.beqMembers]
    | cons g gs =>
      obtain ⟨l, y⟩ := g
      simp [JsVal.beqMembers, JsVal.beq_iff x y, JsVal.beqMembers_iff fs gs, and_assoc]
end

instance : DecidableEq JsVal := fun a b =>
  decidable_of_iff (JsVal.beq a b = true) (JsVal.beq_iff a b)

instance instDecidableEqExcept {ε α : Type} [DecidableEq ε] [DecidableEq α] :
    DecidableEq (Except ε α)
  | .ok a, .ok b => decidable_of_iff (a = b) (by simp)
  | .error a, .error b => decidable_of_iff (a = b) (by simp)
  | .ok _, .error _ => isFalse (by simp)
  | .error _, .ok _ => isFalse (by simp)

deriving instance DecidableEq for TaskRun, StackRun, TaskFunction, Store, SuspensionData,
  ExecResult, HostCall, World, Call, Scenario.StackRow, Scenario.TaskRow, Thrown

/-! ## `JSON.parse` reads what `JSON.stringify` writes -/

namespace JSON

theorem skipWs_cons_of_not_ws (c : Char) (cs : List Char) (h : isWs c = false) :
    skipWs (c :: cs) = c :: cs := by
  simp [skipWs, h]

theorem hexVal_hexDigit : ∀ d, d < 16 → hexVal (hexDigit d) = some d := by decide

theorem backslash_ne_dquote : backslash ≠ dquote := by decide

theorem parseChars_plain (c : Char) (cs : List Char) (h1 : c ≠ dquote) (h2 : c ≠ backslash)
    (h3 : ¬ c.toNat < 32) :
    parseChars (c :: cs) = (parseChars cs).map (fun r => (c :: r.1, r.2)) := by
  rw [parseChars.eq_def]; simp [h1, h2, h3]

theorem parseChars_escaped (e ch : Char) (cs : List Char) (h1 : e ≠ 'u')
    (h2 : unescape e = some ch) :
    parseChars (backslash :: e :: cs) = (parseChars cs).map (fun r => (ch :: r.1, r.2)) := by
  rw [parseChars.eq_def]; simp [backslash_ne_dquote, h1, h2]

theorem parseChars_hex (a b x d ch : Char) (cs : List Char) (h : hex4 a b x d = some ch) :
    parseChars (backslash :: 'u' :: a :: b :: x :: d :: cs)
      = (parseChars cs).map (fun r => (ch :: r.1, r.2)) := by
  rw [parseChars.eq_def]; simp [backslash_ne_dquote, h]

theorem hex4_control : ∀ n, n < 32 →
    hex4 '0' '0' (hexDigit (n / 16)) (hexDigit (n % 16)) = some (Char.ofNat n) := by decide

theorem parseChars_escapeChar (c : Char) (tl : List Char) :
    parseChars (escapeChar c ++ tl) = (parseChars tl).map (fun r => (c :: r.1, r.2)) := by
  unfold escapeChar
  split_ifs with h1 h2 h3 h4 h5 h6 h7 h8
  · subst h1; exact parseChars_escaped _ _ _ (by decide) (by decide)
  · subst h2; exact parseChars_escaped _ _ _ (by decide) (by decide)
  · subst h3; exact parseChars_escaped _ _ _ (by decide) (by decide)
  · subst h4; exact parseChars_escaped _ _ _ (by decide) (by decide)
  · subst h5; exact parseChars_escaped _ _ _ (by decide) (by decide)
  · subst h6; exact parseChars_escaped _ _ _ (by decide) (by decide)
  · subst h7; exact parseChars_escaped _ _ _ (by decide) (by decide)
  · have h := hex4_control c.toNat h8
    rw [Char.ofNat_toNat] at h
    exact parseChars_hex _ _ _ _ _ _ h
  · exact parseChars_plain _ _ h1 h2 h8

theorem parseChars_escapeChars (s rest : List Char) :
    parseChars (escapeChars s ++ dquote :: rest) = some (s, rest) := by
  induction s with
  | nil => rw [parseChars.eq_def]; simp [escapeChars]
  | cons c cs ih =>
    simp only [escapeChars, List.append_assoc]
    rw [parseChars_escapeChar, ih]
    rfl


theorem digitChar_facts : ∀ d, d < 10 →
    isDigit (digitChar d) = true ∧ (digitChar d).toNat - 48 = d ∧ digitChar d ≠ '-'
      ∧ (d ≠ 0 → digitChar d ≠ '0') := by decide

theorem readDigits_digitChar (d : Nat) (cs : List Char) (a : Nat) (h : d < 10) :
    readDigits (digitChar d :: cs) a = readDigits cs (a * 10 + d) := by
  obtain ⟨h1, h2, -, -⟩ := digitChar_facts d h
  simp [readDigits, h1, h2]

theorem natDigitsAux_spec : ∀ (f n : Nat) (acc : List Char), n < f →
    ∃ d tl, natDigitsAux f n acc = digitChar d :: tl ∧ d < 10 ∧ (n ≠ 0 → d ≠ 0)
      ∧ ∀ rest, readDigits (tl ++ rest) d = readDigits (acc ++ rest) n := by
  intro f
  induction f with
  | zero => intro n acc h; omega
  | succ f ih =>
    intro n acc h
    by_cases hn : n < 10
    · refine ⟨n, acc, ?_, hn, fun h0 => h0, fun rest => rfl⟩
      simp [natDigitsAux, hn]
    · obtain ⟨d, tl, h1, h2, h3, h4⟩ := ih (n / 10) (digitChar (n % 10) :: acc) (by omega)
      refine ⟨d, tl, ?_, h2, fun _ => h3 (by omega), fun rest => ?_⟩
      · simp [natDigitsAux, hn, h1]
      · rw [h4 rest, List.cons_append, readDigits_digitChar _ _ _ (by omega)]
        congr 1
        omega

theorem readDigits_sep (rest : List Char) (n : Nat) (h : Sep rest) :
    readDigits rest n = (n, rest) := by
  cases rest with
  | nil => rfl
  | cons c tl =>
    have hc : isDigit c = false := by
      rcases h c tl rfl with h | h | h <;> subst h <;> decide
    simp [readDigits, hc]

theorem parseNat_natDigits (n : Nat) (rest : List Char) (h : Sep rest) :
    parseNat (natDigits n ++ rest) = some (n, rest) := by
  by_cases hn : n = 0
  · subst hn
    have h0 : natDigits 0 = ['0'] := by decide
    rw [h0]
    simp [parseNat]
  · obtain ⟨d, tl, h1, h2, h3, h4⟩ := natDigitsAux_spec (n + 1) n [] (by omega)
    obtain ⟨g1, g2, -, g4⟩ := digitChar_facts d h2
    unfold natDigits
    rw [h1, List.cons_append, parseNat]
    have hd := g4 (h3 hn)
    simp [hd, g1, g2, h4, readDigits_sep _ _ h]

theorem natDigits_head (n : Nat) : ∃ d tl, natDigits n = digitChar d :: tl ∧ d < 10 := by
  obtain ⟨d, tl, h1, h2, -, -⟩ := natDigitsAux_spec (n + 1) n [] (by omega)
  exact ⟨d, tl, h1, h2⟩


theorem digitChar_not_special : ∀ d, d < 10 →
    isWs (digitChar d) = false ∧ digitChar d ≠ '[' ∧ digitChar d ≠ '{' ∧ digitChar d ≠ dquote
      ∧ digitChar d ≠ 'n' ∧ digitChar d ≠ 't' ∧ digitChar d ≠ 'f' ∧ digitChar d ≠ ']'
      ∧ digitChar d ≠ '}' := by decide

theorem endNumber_sep (rest : List Char) (h : Sep rest) (n : Int) :
    endNumber n rest = some (JsVal.num n, rest) := by
  cases rest with
  | nil => rfl
  | cons c tl =>
    rcases h c tl rfl with h | h | h <;> subst h <;> simp [endNumber]

theorem parseNumber_intDigits (z : Int) (rest : List Char) (h : Sep rest) :
    parseNumber (intDigits z ++ rest) = some (.num z, rest) := by
  cases z with
  | ofNat n =>
    obtain ⟨d, tl, h1, h2⟩ := natDigits_head n
    obtain ⟨-, -, g3, -⟩ := digitChar_facts d h2
    have hp := parseNat_natDigits n rest h
    rw [h1, List.cons_append] at hp
    simp only [intDigits, h1, List.cons_append, parseNumber, g3, if_false, hp]
    exact endNumber_sep rest h _
  | negSucc m =>
    have hp := parseNat_natDigits (m + 1) rest h
    simp only [intDigits, List.cons_append, parseNumber, if_true, hp]
    have : (-((m + 1 : Nat) : Int)) = Int.negSucc m := by
      simp [Int.negSucc_eq]
    rw [this]
    exact endNumber_sep rest h _

theorem parseValue_atom (f : Nat) (c : Char) (r : List Char) (hws : isWs c = false)
    (h1 : c ≠ '[') (h2 : c ≠ '{') (h3 : c ≠ dquote) :
    parseValue (f + 1) (c :: r) = parseAtom (c :: r) := by
  rw [parseValue, skipWs_cons_of_not_ws _ _ hws]
  simp [h1, h2, h3]

theorem parseAtom_number (z : Int) (rest : List Char) (h : Sep rest) :
    parseAtom (intDigits z ++ rest) = some (.num z, rest) := by
  have hn := parseNumber_intDigits z rest h
  cases z with
  | ofNat n =>
    obtain ⟨d, tl, h1, h2⟩ := natDigits_head n
    obtain ⟨-, -, -, -, g5, g6, g7, -, -⟩ := digitChar_not_special d h2
    simp only [intDigits, h1, List.cons_append] at hn ⊢
    simp [parseAtom, List.isPrefixOf, hn, Ne.symm g5, Ne.symm g6, Ne.symm g7]
  | negSucc m =>
    simp only [intDigits, List.cons_append] at hn ⊢
    simp [parseAtom, List.isPrefixOf, hn]

theorem parseValue_number (f : Nat) (z : Int) (rest : List Char) (h : Sep rest) :
    parseValue (f + 1) (intDigits z ++ rest) = some (.num z, rest) := by
  have ha := parseAtom_number z rest h
  cases z with
  | ofNat n =>
    obtain ⟨d, tl, h1, h2⟩ := natDigits_head n
    obtain ⟨g1, g2, g3, g4, -⟩ := digitChar_not_special d h2
    simp only [intDigits, h1, List.cons_append] at ha ⊢
    rw [parseValue_atom _ _ _ g1 g2 g3 g4, ha]
  | negSucc m =>
    simp only [intDigits, List.cons_append] at ha ⊢
    rw [parseValue_atom _ _ _ (by decide) (by decide) (by decide) (by decide), ha]

theorem parseValue_null (f : Nat) (rest : List Char) :
    parseValue (f + 1) ("null".toList ++ rest) = some (.null, rest) := by
  show parseValue (f + 1) ('n' :: ('u' :: 'l' :: 'l' :: rest)) = _
  rw [parseValue_atom _ _ _ (by decide) (by decide) (by decide) (by decide)]
  simp [parseAtom, List.isPrefixOf]

theorem parseValue_true (f : Nat) (rest : List Char) :
    parseValue (f + 1) ("true".toList ++ rest) = some (.bool true, rest) := by
  show parseValue (f + 1) ('t' :: ('r' :: 'u' :: 'e' :: rest)) = _
  rw [parseValue_atom _ _ _ (by decide) (by decide) (by decide) (by decide)]
  simp [parseAtom, List.isPrefixOf]

theorem parseValue_false (f : Nat) (rest : List Char) :
    parseValue (f + 1) ("false".toList ++ rest) = some (.bool false, rest) := by
  show parseValue (f + 1) ('f' :: ('a' :: 'l' :: 's' :: 'e' :: rest)) = _
  rw [parseValue_atom _ _ _ (by decide) (by decide) (by decide) (by decide)]
  simp [parseAtom, List.isPrefixOf]

theorem parseValue_string (f : Nat) (s : String) (rest : List Char) :
    parseValue (f + 1) (quote s ++ rest) = some (.str s, rest) := by
  unfold quote
  rw [parseValue, List.cons_append, skipWs_cons_of_not_ws _ _ (by decide)]
  have h1 : dquote ≠ '[' := by decide
  have h2 : dquote ≠ '{' := by decide
  simp only [h1, h2, if_false, if_true, List.append_assoc, List.singleton_append]
  rw [parseChars_escapeChars]
  rfl


theorem quote_ne_nil (s : String) : quote s ≠ [] := by simp [quote]

theorem quote_length_pos (s : String) : 0 < (quote s).length := by simp [quote]

theorem ser_head (v : JsVal) :
    ∃ c tl, ser v = c :: tl ∧ isWs c = false ∧ c ≠ ']' ∧ c ≠ '}' := by
  cases v with
  | undefined => exact ⟨'n', _, rfl, by decide, by decide, by decide⟩
  | null => exact ⟨'n', _, rfl, by decide, by decide, by decide⟩
  | bool b =>
    cases b
    · exact ⟨'f', _, rfl, by decide, by decide, by decide⟩
    · exact ⟨'t', _, rfl, by decide, by decide, by decide⟩
  | num n =>
    cases n with
    | ofNat m =>
      obtain ⟨d, tl, h1, h2⟩ := natDigits_head m
      obtain ⟨g1, -, -, -, -, -, -, g8, g9⟩ := digitChar_not_special d h2
      exact ⟨_, tl, by simp [ser, intDigits, h1], g1, g8, g9⟩
    | negSucc m => exact ⟨'-', natDigits (m + 1), rfl, by decide, by decide, by decide⟩
  | str s =>
    exact ⟨dquote, escapeChars s.toList ++ [dquote], rfl, by decide, by decide, by decide⟩
  | arr xs => exact ⟨'[', serElems xs ++ [']'], by rw [ser], by decide, by decide, by decide⟩
  | obj fs =>
    exact ⟨'{', serMembers false fs ++ ['}'], by rw [ser], by decide, by decide, by decide⟩

theorem ser_length_pos (v : JsVal) : 0 < (ser v).length := by
  obtain ⟨c, tl, h, -⟩ := ser_head v
  simp [h]

theorem serMembers_true (fs : List (String × JsVal)) :
    serMembers true fs = if serMembers false fs = [] then [] else ',' :: serMembers false fs := by
  induction fs with
  | nil => simp [serMembers]
  | cons kv rest ih =>
    obtain ⟨k, v⟩ := kv
    cases v <;> simp [serMembers, ih, quote]

theorem sep_cons_comma (tl : List Char) : Sep (',' :: tl) := by
  intro c t h; injection h with h1 h2; exact Or.inl h1.symm

theorem sep_cons_bracket (tl : List Char) : Sep (']' :: tl) := by
  intro c t h; injection h with h1 h2; exact Or.inr (Or.inl h1.symm)

theorem sep_cons_brace (tl : List Char) : Sep ('}' :: tl) := by
  intro c t h; injection h with h1 h2; exact Or.inr (Or.inr h1.symm)

theorem sep_nil : Sep [] := by
  intro c t h; cases h


theorem parseValue_array_empty (f : Nat) (rest : List Char) :
    parseValue (f + 1) ('[' :: ']' :: rest) = some (.arr [], rest) := by
  rw [parseValue, skipWs_cons_of_not_ws _ _ (by decide)]
  simp [skipWs_cons_of_not_ws ']' rest (by decide)]

theorem parseValue_array_cons (f : Nat) (c : Char) (tl : List Char) (hws : isWs c = false)
    (hc : c ≠ ']') :
    parseValue (f + 1) ('[' :: c :: tl)
      = (parseElements f (c :: tl)).map (fun p => (.arr p.1, p.2)) := by
  rw [parseValue, skipWs_cons_of_not_ws _ _ (by decide)]
  simp [skipWs_cons_of_not_ws c tl hws, hc]

theorem parseValue_object_empty (f : Nat) (rest : List Char) :
    parseValue (f + 1) ('{' :: '}' :: rest) = some (.obj [], rest) := by
  rw [parseValue, skipWs_cons_of_not_ws _ _ (by decide)]
  simp [skipWs_cons_of_not_ws '}' rest (by decide)]

theorem parseValue_object_cons (f : Nat) (c : Char) (tl : List Char) (hws : isWs c = false)
    (hc : c ≠ '}') :
    parseValue (f + 1) ('{' :: c :: tl)
      = (parseMembers f (c :: tl) []).map (fun p => (.obj p.1, p.2)) := by
  rw [parseValue, skipWs_cons_of_not_ws _ _ (by decide)]
  simp [skipWs_cons_of_not_ws c tl hws, hc]

theorem parseElements_last (f : Nat) (cs : List Char) (v : JsVal) (rest : List Char)
    (h : parseValue f cs = some (v, ']' :: rest)) :
    parseElements (f + 1) cs = some ([v], rest) := by
  rw [parseElements, h]
  simp [skipWs_cons_of_not_ws ']' rest (by decide)]

theorem parseElements_more (f : Nat) (cs : List Char) (v : JsVal) (r : List Char)
    (h : parseValue f cs = some (v, ',' :: r)) :
    parseElements (f + 1) cs = (parseElements f r).map (fun p => (v :: p.1, p.2)) := by
  rw [parseElements, h]
  simp [skipWs_cons_of_not_ws ',' r (by decide)]

theorem parseMembers_last (f : Nat) (k : String) (cs : List Char) (v : JsVal)
    (rest : List Char) (acc : List (String × JsVal))
    (h : parseValue f cs = some (v, '}' :: rest)) :
    parseMembers (f + 1) (quote k ++ ':' :: cs) acc = some (setProp acc k v, rest) := by
  unfold quote
  rw [parseMembers, List.cons_append, skipWs_cons_of_not_ws _ _ (by decide)]
  simp only [if_true, List.append_assoc, List.singleton_append]
  rw [parseChars_escapeChars]
  simp [skipWs_cons_of_not_ws ':' cs (by decide), h,
    skipWs_cons_of_not_ws '}' rest (by decide)]

theorem parseMembers_more (f : Nat) (k : String) (cs : List Char) (v : JsVal)
    (r : List Char) (acc : List (String × JsVal))
    (h : parseValue f cs = some (v, ',' :: r)) :
    parseMembers (f + 1) (quote k ++ ':' :: cs) acc = parseMembers f r (setProp acc k v) := by
  unfold quote
  rw [parseMembers, List.cons_append, skipWs_cons_of_not_ws _ _ (by decide)]
  simp only [if_true, List.append_assoc, List.singleton_append]
  rw [parseChars_escapeChars]
  simp [skipWs_cons_of_not_ws ':' cs (by decide), h,
    skipWs_cons_of_not_ws ',' r (by decide)]


theorem serElems_cons_cons (x y : JsVal) (rest : List JsVal) :
    serElems (x :: y :: rest) = ser x ++ ',' :: serElems (y :: rest) := by
  rw [serElems]

theorem serElems_single (x : JsVal) : serElems [x] = ser x := by
  rw [serElems]

theorem serMembers_cons_undefined (started : Bool) (k : String)
    (fs : List (String × JsVal)) :
    serMembers started ((k, .undefined) :: fs) = serMembers started fs := by
  rw [serMembers]

theorem serMembers_cons_defined (started : Bool) (k : String) (v : JsVal)
    (fs : List (String × JsVal)) (hv : v ≠ .undefined) :
    serMembers started ((k, v) :: fs)
      = (if started then [','] else []) ++ quote k ++ ':' :: (ser v ++ serMembers true fs) := by
  cases v <;> first | exact absurd rfl hv | (rw [serMembers]; exact hv)

theorem serMembers_false_head (fs : List (String × JsVal)) (h : serMembers false fs ≠ []) :
    ∃ tl, serMembers false fs = dquote :: tl := by
  induction fs with
  | nil => exact absurd (by rw [serMembers]) h
  | cons kv rest ih =>
    obtain ⟨k, v⟩ := kv
    by_cases hv : v = .undefined
    · subst hv
      rw [serMembers_cons_undefined] at h ⊢
      exact ih h
    · rw [serMembers_cons_defined _ _ _ _ hv]
      exact ⟨_, by simp [quote]; rfl⟩

mutual
theorem parseValue_ser : (v : JsVal) → ∀ (f : Nat) (rest : List Char),
    2 * (ser v).length ≤ f → Sep rest → ∃ w, parseValue f (ser v ++ rest) = some (w, rest)
  | .undefined, f, rest, hf, _ => by
    obtain ⟨f', rfl⟩ : ∃ f', f = f' + 1 :=
      ⟨f - 1, by have := ser_length_pos .undefined; omega⟩
    exact ⟨_, parseValue_null f' rest⟩
  | .null, f, rest, hf, _ => by
    obtain ⟨f', rfl⟩ : ∃ f', f = f' + 1 :=
      ⟨f - 1, by have := ser_length_pos .null; omega⟩
    exact ⟨_, parseValue_null f' rest⟩
  | .bool b, f, rest, hf, _ => by
    obtain ⟨f', rfl⟩ : ∃ f', f = f' + 1 :=
      ⟨f - 1, by have := ser_length_pos (.bool b); omega⟩
    cases b
    · exact ⟨_, parseValue_false f' rest⟩
    · exact ⟨_, parseValue_true f' rest⟩
  | .num n, f, rest, hf, hs => by
    obtain ⟨f', rfl⟩ : ∃ f', f = f' + 1 :=
      ⟨f - 1, by have := ser_length_pos (.num n); omega⟩
    exact ⟨_, by rw [ser]; exact parseValue_number f' n rest hs⟩
  | .str s, f, rest, hf, _ => by
    obtain ⟨f', rfl⟩ : ∃ f', f = f' + 1 :=
      ⟨f - 1, by have := ser_length_pos (.str s); omega⟩
    exact ⟨_, by rw [ser]; exact parseValue_string f' s rest⟩
  | .arr xs, f, rest, hf, _ => by
    obtain ⟨f', rfl⟩ : ∃ f', f = f' + 1 :=
      ⟨f - 1, by have := ser_length_pos (.arr xs); omega⟩
    rw [ser] at hf ⊢
    by_cases hxs : xs = []
    · subst hxs
      exact ⟨_, parseValue_array_empty f' rest⟩
    · obtain ⟨ws, hws⟩ := parseElements_ser xs hxs f' rest (by
        simp only [List.length_cons, List.length_append, List.length_nil] at hf
        omega)
      obtain ⟨x, xs', rfl⟩ := List.exists_cons_of_ne_nil hxs
      obtain ⟨c, tl, h1, h2, h3, -⟩ := ser_head x
      have hshape : ∃ tl', serElems (x :: xs') = c :: tl' := by
        cases xs' with
        | nil => exact ⟨tl, by rw [serElems_single, h1]⟩
        | cons y ys => exact ⟨_, by rw [serElems_cons_cons, h1]; rfl⟩
      obtain ⟨tl', h4⟩ := hshape
      refine ⟨.arr ws, ?_⟩
      have : '[' :: (serElems (x :: xs') ++ [']']) ++ rest
          = '[' :: c :: (tl' ++ ']' :: rest) := by
        rw [h4]; simp
      rw [this, parseValue_array_cons _ _ _ h2 h3]
      have h5 : c :: (tl' ++ ']' :: rest) = serElems (x :: xs') ++ ']' :: rest := by
        rw [h4]; simp
      rw [h5, hws]
      rfl
  | .obj fs, f, rest, hf, _ => by
    obtain ⟨f', rfl⟩ : ∃ f', f = f' + 1 :=
      ⟨f - 1, by have := ser_length_pos (.obj fs); omega⟩
    rw [ser] at hf ⊢
    by_cases hfs : serMembers false fs = []
    · rw [hfs]
      exact ⟨_, parseValue_object_empty f' rest⟩
    · obtain ⟨out, hout⟩ := parseMembers_ser fs hfs f' [] rest (by
        simp only [List.length_cons, List.length_append, List.length_nil] at hf
        omega)
      obtain ⟨c, tl, h4⟩ := List.exists_cons_of_ne_nil hfs
      have hc : c = dquote := by
        obtain ⟨tl2, h6⟩ := serMembers_false_head fs hfs
        rw [h6] at h4
        injection h4 with h7 _
        exact h7.symm
      subst hc
      refine ⟨.obj out, ?_⟩
      have : '{' :: (serMembers false fs ++ ['}']) ++ rest
          = '{' :: dquote :: (tl ++ '}' :: rest) := by
        rw [h4]; simp
      rw [this, parseValue_object_cons _ _ _ (by decide) (by decide)]
      have h5 : dquote :: (tl ++ '}' :: rest) = serMembers false fs ++ '}' :: rest := by
        rw [h4]; simp
      rw [h5, hout]
      rfl
theorem parseElements_ser : (xs : List JsVal) → xs ≠ [] → ∀ (f : Nat) (rest : List Char),
    2 * (serElems xs).length + 1 ≤ f →
    ∃ ws, parseElements f (serElems xs ++ ']' :: rest) = some (ws, rest)
  | [], h, _, _, _ => absurd rfl h
  | [x], _, f, rest, hf => by
    obtain ⟨f', rfl⟩ : ∃ f', f = f' + 1 := ⟨f - 1, by omega⟩
    rw [serElems_single] at hf ⊢
    obtain ⟨w, hw⟩ := parseValue_ser x f' (']' :: rest) (by omega) (sep_cons_bracket rest)
    exact ⟨[w], parseElements_last _ _ _ _ hw⟩
  | x :: y :: ys, _, f, rest, hf => by
    obtain ⟨f', rfl⟩ : ∃ f', f = f' + 1 := ⟨f - 1, by omega⟩
    rw [serElems_cons_cons] at hf ⊢
    simp only [List.length_cons, List.length_append] at hf
    obtain ⟨w, hw⟩ := parseValue_ser x f' (',' :: (serElems (y :: ys) ++ ']' :: rest))
      (by omega) (sep_cons_comma _)
    obtain ⟨ws, hws⟩ := parseElements_ser (y :: ys) (by simp) f' rest (by omega)
    refine ⟨w :: ws, ?_⟩
    have : (ser x ++ ',' :: serElems (y :: ys)) ++ ']' :: rest
        = ser x ++ ',' :: (serElems (y :: ys) ++ ']' :: rest) := by simp
    rw [this, parseElements_more _ _ _ _ hw, hws]
    rfl
theorem parseMembers_ser : (fs : List (String × JsVal)) → serMembers false fs ≠ [] →
    ∀ (f : Nat) (acc : List (String × JsVal)) (rest : List Char),
    2 * (serMembers false fs).length + 1 ≤ f →
    ∃ out, parseMembers f (serMembers false fs ++ '}' :: rest) acc = some (out, rest)
  | [], h, _, _, _, _ => absurd (by rw [serMembers]) h
  | (k, v) :: fs, h, f, acc, rest, hf => by
    by_cases hv : v = .undefined
    · subst hv
      rw [serMembers_cons_undefined] at h hf ⊢
      exact parseMembers_ser fs h f acc rest hf
    · obtain ⟨f', rfl⟩ : ∃ f', f = f' + 1 := ⟨f - 1, by omega⟩
      rw [serMembers_cons_defined _ _ _ _ hv] at hf ⊢
      simp only [Bool.false_eq_true, if_false, List.nil_append, List.length_cons,
        List.length_append] at hf ⊢
      rw [serMembers_true] at hf ⊢
      by_cases hfs : serMembers false fs = []
      · simp only [hfs, if_true, List.append_nil, List.length_nil] at hf ⊢
        obtain ⟨w, hw⟩ := parseValue_ser v f' ('}' :: rest) (by omega) (sep_cons_brace rest)
        refine ⟨setProp acc k w, ?_⟩
        have : (quote k ++ ':' :: ser v) ++ '}' :: rest
            = quote k ++ ':' :: (ser v ++ '}' :: rest) := by simp
        rw [this]
        exact parseMembers_last _ _ _ _ _ _ hw
      · simp only [hfs, if_false, List.length_cons] at hf ⊢
        obtain ⟨w, hw⟩ := parseValue_ser v f' (',' :: (serMembers false fs ++ '}' :: rest))
          (by omega) (sep_cons_comma _)
        obtain ⟨out, hout⟩ := parseMembers_ser fs hfs f' (setProp acc k w) rest (by omega)
        refine ⟨out, ?_⟩
        have : (quote k ++ ':' :: (ser v ++ ',' :: serMembers false fs)) ++ '}' :: rest
            = quote k ++ ':' :: (ser v ++ ',' :: (serMembers false fs ++ '}' :: rest)) := by
          simp
        rw [this, parseMembers_more _ _ _ _ _ _ hw]
        exact hout
end

theorem parse_ser (v : JsVal) : ∃ w, parse (String.mk (ser v)) = .ok w := by
  obtain ⟨w, hw⟩ := parseValue_ser v (2 * (ser v).length + 2) [] (by omega) sep_nil
  refine ⟨w, ?_⟩
  unfold parse
  simp only [String.length, String.toList, List.append_nil] at hw ⊢
  rw [hw]
  simp [skipWs]

end JSON

/-! ## Ids of new stack runs -/

theorem foldl_max_le (rows : List StackRun) (m : Nat) :
    m ≤ rows.foldl (fun m r => max m r.id) m := by
  induction rows generalizing m with
  | nil => exact Nat.le_refl m
  | cons r rs ih => exact Nat.le_trans (Nat.le_max_left m r.id) (ih _)

theorem foldl_max_mem (rows : List StackRun) (m : Nat) (r : StackRun) (h : r ∈ rows) :
    r.id ≤ rows.foldl (fun m r => max m r.id) m := by
  induction rows generalizing m with
  | nil => cases h
  | cons x rs ih =>
    rcases List.mem_cons.mp h with h | h
    · subst h
      exact Nat.le_trans (Nat.le_max_right m r.id) (foldl_max_le rs _)
    · exact ih _ h

theorem foldl_max_fixed (rows : List StackRun) (m : Nat) (h : ∀ r ∈ rows, r.id ≤ m) :
    rows.foldl (fun m r => max m r.id) m = m := by
  induction rows with
  | nil => rfl
  | cons x rs ih =>
    have hx : x.id ≤ m := h x (List.mem_cons_self _ _)
    simp only [List.foldl_cons, Nat.max_eq_left hx]
    exact ih (fun r hr => h r (List.mem_cons_of_mem _ hr))

theorem id_lt_nextStackRunId (s : Store) (r : StackRun) (h : r ∈ s.stack_runs) :
    r.id < s.nextStackRunId := by
  have := foldl_max_mem s.stack_runs s.stack_seq r h
  unfold Store.nextStackRunId
  omega

theorem nextStackRunId_insert (s : Store) (row : StackRun)
    (h : row.id = s.nextStackRunId) :
    (s.insert row).nextStackRunId = s.nextStackRunId + 1 := by
  have hall : ∀ r ∈ s.stack_runs, r.id ≤ row.id := fun r hr => by
    have := id_lt_nextStackRunId s r hr
    omega
  simp only [Store.nextStackRunId, Store.insert, List.foldl_append, List.foldl_cons,
    List.foldl_nil]
  rw [foldl_max_fixed _ _ hall]
  simp only [Store.nextStackRunId] at h
  omega

theorem insertAll_stack_runs (rows : List StackRun) (s : Store) :
    (s.insertAll rows).stack_runs = s.stack_runs ++ rows := by
  induction rows generalizing s with
  | nil => simp [Store.insertAll]
  | cons r rs ih =>
    have := ih (s.insert r)
    simp only [Store.insertAll, List.foldl_cons] at this ⊢
    rw [this]
    simp [Store.insert]

theorem insertAll_task_runs (rows : List StackRun) (s : Store) :
    (s.insertAll rows).task_runs = s.task_runs := by
  induction rows generalizing s with
  | nil => simp [Store.insertAll]
  | cons r rs ih =>
    have := ih (s.insert r)
    simp only [Store.insertAll, List.foldl_cons] at this ⊢
    rw [this]
    simp [Store.insert]

theorem insertAll_task_functions (rows : List StackRun) (s : Store) :
    (s.insertAll rows).task_functions = s.task_functions := by
  induction rows generalizing s with
  | nil => simp [Store.insertAll]
  | cons r rs ih =>
    have := ih (s.insert r)
    simp only [Store.insertAll, List.foldl_cons] at this ⊢
    rw [this]
    simp [Store.insert]

theorem insertAll_cons (row : StackRun) (rows : List StackRun) (s : Store) :
    s.insertAll (row :: rows) = (s.insert row).insertAll rows := rfl

/-! ## Columns of the SQLite adapter parse -/

namespace SQLiteAdapter

theorem stringifyVal_eq (v : JsVal) (hv : v ≠ .undefined) :
    JSON.stringifyVal v = .str (JSON.text v) := by
  cases v <;> first | exact absurd rfl hv | rfl

theorem parseColumn_text (v : JsVal) : ∃ w, parseColumn (.str (JSON.text v)) = .ok w := by
  obtain ⟨w, hw⟩ := JSON.parse_ser v
  by_cases h : (JsVal.str (JSON.text v)).truthy = true
  · refine ⟨w, ?_⟩
    simp only [parseColumn, h, if_true]
    exact hw
  · exact ⟨.null, by simp only [parseColumn, h]; rfl⟩

theorem truthy_ne_undefined (v : JsVal) (h : v.truthy = true) : v ≠ .undefined := by
  intro hv; subst hv; simp [JsVal.truthy] at h

theorem stringifyColumn_cases (v : JsVal) :
    stringifyColumn v = .null ∨ stringifyColumn v = .str (JSON.text v) := by
  by_cases h : v.truthy = true
  · right
    simp only [stringifyColumn, h, if_true]
    exact stringifyVal_eq v (truthy_ne_undefined v h)
  · left
    simp [stringifyColumn, h]

theorem parseColumn_stringifyColumn (v : JsVal) :
    ∃ w, parseColumn (stringifyColumn v) = .ok w := by
  rcases stringifyColumn_cases v with h | h
  · exact ⟨.null, by rw [h]; rfl⟩
  · rw [h]; exact parseColumn_text v

theorem bind_stringifyColumn (v : JsVal) :
    bind (stringifyColumn v) = .ok (stringifyColumn v) := by
  rcases stringifyColumn_cases v with h | h <;> rw [h] <;> rfl

theorem _parseTaskRun_ok (row : TaskRun) (h1 : ∃ w, parseColumn row.input = .ok w)
    (h2 : ∃ w, parseColumn row.result = .ok w) (h3 : ∃ w, parseColumn row.error = .ok w) :
    ∃ t, _parseTaskRun row = .ok t := by
  obtain ⟨a, ha⟩ := h1
  obtain ⟨b, hb⟩ := h2
  obtain ⟨c, hc⟩ := h3
  exact ⟨{ row with input := a, result := b, error := c },
    by simp only [_parseTaskRun, ha, hb, hc]⟩

theorem _parseTaskRun_inv (row t : TaskRun) (h : _parseTaskRun row = .ok t) :
    (∃ w, parseColumn row.input = .ok w) ∧ (∃ w, parseColumn row.result = .ok w)
      ∧ (∃ w, parseColumn row.error = .ok w) := by
  cases ha : parseColumn row.input with
  | error e => simp [_parseTaskRun, ha] at h
  | ok a =>
    cases hb : parseColumn row.result with
    | error e => simp [_parseTaskRun, ha, hb] at h
    | ok b =>
      cases hc : parseColumn row.error with
      | error e => simp [_parseTaskRun, ha, hb, hc] at h
      | ok c => exact ⟨⟨a, rfl⟩, ⟨b, rfl⟩, ⟨c, rfl⟩⟩

theorem _parseStackRun_ok (row : StackRun) (h1 : ∃ w, parseColumn row.input = .ok w)
    (h2 : ∃ w, parseColumn row.result = .ok w) (h3 : ∃ w, parseColumn row.error = .ok w)
    (h4 : ∃ w, parseColumn row.resume_payload = .ok w) :
    ∃ t, _parseStackRun row = .ok t ∧ t.id = row.id := by
  obtain ⟨a, ha⟩ := h1
  obtain ⟨b, hb⟩ := h2
  obtain ⟨c, hc⟩ := h3
  obtain ⟨d, hd⟩ := h4
  exact ⟨{ row with input := a, result := b, error := c, resume_payload := d },
    by simp only [_parseStackRun, ha, hb, hc, hd], rfl⟩

theorem _parseStackRun_inv (row t : StackRun) (h : _parseStackRun row = .ok t) :
    (∃ w, parseColumn row.input = .ok w) ∧ (∃ w, parseColumn row.result = .ok w)
      ∧ (∃ w, parseColumn row.error = .ok w)
      ∧ (∃ w, parseColumn row.resume_payload = .ok w) := by
  cases ha : parseColumn row.input with
  | error e => simp [_parseStackRun, ha] at h
  | ok a =>
    cases hb : parseColumn row.result with
    | error e => simp [_parseStackRun, ha, hb] at h
    | ok b =>
      cases hc : parseColumn row.error with
      | error e => simp [_parseStackRun, ha, hb, hc] at h
      | ok c =>
        cases hd : parseColumn row.resume_payload with
        | error e => simp [_parseStackRun, ha, hb, hc, hd] at h
        | ok d => exact ⟨⟨a, rfl⟩, ⟨b, rfl⟩, ⟨c, rfl⟩, ⟨d, rfl⟩⟩

end SQLiteAdapter

/-! ## What the storage methods do, for both adapters -/

theorem find?_map_taskRun (f : TaskRun → TaskRun) (hf : ∀ r, (f r).id = r.id)
    (l : List TaskRun) (id : Nat) :
    (l.map f).find? (fun r => r.id == id) = (l.find? (fun r => r.id == id)).map f := by
  induction l with
  | nil => rfl
  | cons x xs ih =>
    by_cases hx : x.id = id
    · simp [List.find?, hf, hx]
    · have hb : (x.id == id) = false := by simpa using hx
      simp [List.find?, hf, hb, ih]

theorem find?_map_stackRun (f : StackRun → StackRun) (hf : ∀ r, (f r).id = r.id)
    (l : List StackRun) (id : Nat) :
    (l.map f).find? (fun r => r.id == id) = (l.find? (fun r => r.id == id)).map f := by
  induction l with
  | nil => rfl
  | cons x xs ih =>
    by_cases hx : x.id = id
    · simp [List.find?, hf, hx]
    · have hb : (x.id == id) = false := by simpa using hx
      simp [List.find?, hf, hb, ih]

theorem taskRun_updated_id (id : Nat) (status : String) (result error : Option String)
    (r : TaskRun) : (TaskRun.updated id status result error r).id = r.id := by
  unfold TaskRun.updated; split <;> rfl

theorem stackRun_updated_id (id : Nat) (status : String) (result error payload : Option String)
    (r : StackRun) : (StackRun.updated id status result error payload r).id = r.id := by
  unfold StackRun.updated; split <;> rfl

theorem readableTask_sqlite (s : Store) (id : Nat) :
    Adapter.sqlite.ReadableTask s id ↔
      ∃ row, s.task_runs.find? (fun r => r.id == id) = some row
        ∧ ∃ t, SQLiteAdapter._parseTaskRun row = .ok t := by
  unfold Adapter.ReadableTask
  simp only [Adapter.storage, SQLiteAdapter.storage, SQLiteAdapter.getTaskRun,
    SQLiteAdapter._getTaskRunById]
  constructor
  · rintro ⟨t, h⟩
    cases hf : s.task_runs.find? (fun r => r.id == id) with
    | none => simp [hf] at h
    | some row =>
      refine ⟨row, rfl, ?_⟩
      simp only [hf] at h
      cases hp : SQLiteAdapter._parseTaskRun row with
      | error e => simp [hp, Except.map] at h
      | ok t' => exact ⟨t', rfl⟩
  · rintro ⟨row, hf, t, ht⟩
    exact ⟨t, by simp [hf, ht, Except.map]⟩

theorem readableTask_supabase (s : Store) (id : Nat) :
    Adapter.supabase.ReadableTask s id ↔
      ∃ row, s.task_runs.find? (fun r => r.id == id) = some row := by
  unfold Adapter.ReadableTask
  simp only [Adapter.storage, SupabaseAdapter.storage, SupabaseAdapter.getTaskRun]
  constructor
  · rintro ⟨t, h⟩
    exact ⟨t, by simpa using h⟩
  · rintro ⟨row, hf⟩
    exact ⟨row, by simp [hf]⟩

theorem readableStack_sqlite (s : Store) (id : Nat) :
    Adapter.sqlite.ReadableStack s id ↔
      ∃ row, s.stack_runs.find? (fun r => r.id == id) = some row
        ∧ ∃ t, SQLiteAdapter._parseStackRun row = .ok t := by
  unfold Adapter.ReadableStack
  simp only [Adapter.storage, SQLiteAdapter.storage, SQLiteAdapter.getStackRun,
    SQLiteAdapter._getStackRunById]
  constructor
  · rintro ⟨t, h⟩
    cases hf : s.stack_runs.find? (fun r => r.id == id) with
    | none => simp [hf] at h
    | some row =>
      refine ⟨row, rfl, ?_⟩
      simp only [hf] at h
      cases hp : SQLiteAdapter._parseStackRun row with
      | error e => simp [hp, Except.map] at h
      | ok t' => exact ⟨t', rfl⟩
  · rintro ⟨row, hf, t, ht⟩
    exact ⟨t, by simp [hf, ht, Except.map]⟩

theorem readableStack_supabase (s : Store) (id : Nat) :
    Adapter.supabase.ReadableStack s id ↔
      ∃ row, s.stack_runs.find? (fun r => r.id == id) = some row := by
  unfold Adapter.ReadableStack
  simp only [Adapter.storage, SupabaseAdapter.storage, SupabaseAdapter.getStackRun]
  constructor
  · rintro ⟨t, h⟩
    exact ⟨t, by simpa using h⟩
  · rintro ⟨row, hf⟩
    exact ⟨row, by simp [hf]⟩

theorem readableTask_row (A : Adapter) (s : Store) (id : Nat) (h : A.ReadableTask s id) :
    ∃ row, s.taskRun? id = some row := by
  cases A
  · obtain ⟨row, hf, _⟩ := (readableTask_sqlite s id).mp h
    exact ⟨row, hf⟩
  · exact (readableTask_supabase s id).mp h

theorem readableTask_any (A : Adapter) (s : Store) (id : Nat) (h : A.ReadableTask s id) :
    s.task_runs.any (fun t => t.id == id) = true := by
  obtain ⟨row, hf⟩ := readableTask_row A s id h
  have hm := List.mem_of_find?_eq_some hf
  have hp := List.find?_some hf
  exact List.any_eq_true.mpr ⟨row, hm, hp⟩

theorem readableTask_congr (A : Adapter) (s s1 : Store) (id : Nat)
    (h : s1.task_runs = s.task_runs) (hr : A.ReadableTask s id) : A.ReadableTask s1 id := by
  cases A
  · rw [readableTask_sqlite] at hr ⊢
    rw [h]; exact hr
  · rw [readableTask_supabase] at hr ⊢
    rw [h]; exact hr

theorem readableStack_congr (A : Adapter) (s s1 : Store) (id : Nat)
    (h : s1.stack_runs = s.stack_runs) (hr : A.ReadableStack s id) : A.ReadableStack s1 id := by
  cases A
  · rw [readableStack_sqlite] at hr ⊢
    rw [h]; exact hr
  · rw [readableStack_supabase] at hr ⊢
    rw [h]; exact hr

theorem createStackRun_spec (A : Adapter) (d : StackRunData) (s : Store)
    (h : s.task_runs.any (fun t => t.id == d.task_run_id) = true) :
    ∃ obj, A.storage.createStackRun d s
        = (s.insert (A.insertedRow d s.nextStackRunId), .ok obj)
      ∧ obj.id = s.nextStackRunId := by
  cases A
  · have hrow : ∃ t, SQLiteAdapter._parseStackRun (Adapter.sqlite.insertedRow d s.nextStackRunId)
        = .ok t ∧ t.id = (Adapter.sqlite.insertedRow d s.nextStackRunId).id :=
      SQLiteAdapter._parseStackRun_ok _ (SQLiteAdapter.parseColumn_stringifyColumn _)
        (SQLiteAdapter.parseColumn_stringifyColumn _)
        (SQLiteAdapter.parseColumn_stringifyColumn _) ⟨.null, rfl⟩
    obtain ⟨t, ht, hid⟩ := hrow
    refine ⟨t, ?_, hid⟩
    simp only [Adapter.storage, SQLiteAdapter.storage, SQLiteAdapter.createStackRun,
      SQLiteAdapter.bind_stringifyColumn, h, if_true]
    exact Prod.ext rfl ht
  · refine ⟨Adapter.supabase.insertedRow d s.nextStackRunId, ?_, rfl⟩
    simp only [Adapter.storage, SupabaseAdapter.storage, SupabaseAdapter.createStackRun, h,
      if_true]
    rfl

theorem sqlite_bindUpdate_str (x : Option String) :
    SQLiteAdapter.bindUpdate (x.map JsVal.str) = .ok (x.map JsVal.str) := by
  cases x <;> rfl

theorem sqlite_setTaskRun_eq (id : Nat) (status : String) (result error : Option String) :
    SQLiteAdapter.setTaskRun id (some status) (result.map JsVal.str) (error.map JsVal.str)
      = TaskRun.updated id status result error := by
  funext r
  simp [SQLiteAdapter.setTaskRun, TaskRun.updated]

theorem supabase_sentUpdate_str (old : JsVal) (x : Option String) :
    SupabaseAdapter.sentUpdate old (x.map JsVal.str) = (x.map JsVal.str).getD old := by
  cases x <;> rfl

theorem supabase_setTaskRun_eq (id : Nat) (status : String) (result error : Option String) :
    SupabaseAdapter.setTaskRun id
        { status := some status, result := result.map JsVal.str, error := error.map JsVal.str }
      = TaskRun.updated id status result error := by
  funext r
  simp [SupabaseAdapter.setTaskRun, TaskRun.updated, supabase_sentUpdate_str]

theorem sqlite_setStackRun_eq (id : Nat) (status : String) (result error payload : Option String) :
    SQLiteAdapter.setStackRun id (some status) (result.map JsVal.str) (error.map JsVal.str)
        (payload.map JsVal.str)
      = StackRun.updated id status result error payload := by
  funext r
  simp [SQLiteAdapter.setStackRun, StackRun.updated]

theorem supabase_setStackRun_eq (id : Nat) (status : String)
    (result error payload : Option String) :
    SupabaseAdapter.setStackRun id
        { status := some status, result := result.map JsVal.str, error := error.map JsVal.str,
          resume_payload := payload.map JsVal.str }
      = StackRun.updated id status result error payload := by
  funext r
  simp [SupabaseAdapter.setStackRun, StackRun.updated, supabase_sentUpdate_str]

theorem parseColumn_getD (x : Option String) (old : JsVal)
    (hx : ∀ t, x = some t → ∃ w, SQLiteAdapter.parseColumn (.str t) = .ok w)
    (hold : ∃ w, SQLiteAdapter.parseColumn old = .ok w) :
    ∃ w, SQLiteAdapter.parseColumn ((x.map JsVal.str).getD old) = .ok w := by
  cases x with
  | none => exact hold
  | some t => exact hx t rfl

theorem updateTaskRun_spec (A : Adapter) (s : Store) (id : Nat) (status : String)
    (result error : Option String) (hread : A.ReadableTask s id)
    (hr : ∀ t, result = some t → ∃ w, SQLiteAdapter.parseColumn (.str t) = .ok w)
    (he : ∀ t, error = some t → ∃ w, SQLiteAdapter.parseColumn (.str t) = .ok w) :
    ∃ obj, A.storage.updateTaskRun id
        { status := some status, result := result.map JsVal.str, error := error.map JsVal.str } s
      = (s.mapTaskRuns (TaskRun.updated id status result error), .ok obj) := by
  cases A
  · obtain ⟨row, hf, t, ht⟩ := (readableTask_sqlite s id).mp hread
    obtain ⟨p1, p2, p3⟩ := SQLiteAdapter._parseTaskRun_inv row t ht
    have hrow : (TaskRun.updated id status result error row)
        = { row with status := status, result := (result.map JsVal.str).getD row.result,
                     error := (error.map JsVal.str).getD row.error } := by
      have := List.find?_some hf
      simp only [TaskRun.updated, this, if_true]
    obtain ⟨t2, ht2⟩ := SQLiteAdapter._parseTaskRun_ok (TaskRun.updated id status result error row)
      (by rw [hrow]; exact p1)
      (by rw [hrow]; exact parseColumn_getD result _ hr p2)
      (by rw [hrow]; exact parseColumn_getD error _ he p3)
    refine ⟨some t2, ?_⟩
    simp only [Adapter.storage, SQLiteAdapter.storage, SQLiteAdapter.updateTaskRun,
      sqlite_bindUpdate_str, sqlite_setTaskRun_eq, SQLiteAdapter._getTaskRunById,
      find?_map_taskRun _ (taskRun_updated_id id status result error), hf, Option.map_some',
      ht2]
    rfl
  · obtain ⟨row, hf⟩ := (readableTask_supabase s id).mp hread
    refine ⟨some (TaskRun.updated id status result error row), ?_⟩
    simp only [Adapter.storage, SupabaseAdapter.storage, SupabaseAdapter.updateTaskRun,
      supabase_setTaskRun_eq,
      find?_map_taskRun _ (taskRun_updated_id id status result error), hf, Option.map_some']
    rfl

theorem updateStackRun_spec (A : Adapter) (s : Store) (id : Nat) (status : String)
    (result error payload : Option String) (hread : A.ReadableStack s id)
    (hr : ∀ t, result = some t → ∃ w, SQLiteAdapter.parseColumn (.str t) = .ok w)
    (he : ∀ t, error = some t → ∃ w, SQLiteAdapter.parseColumn (.str t) = .ok w)
    (hp : ∀ t, payload = some t → ∃ w, SQLiteAdapter.parseColumn (.str t) = .ok w) :
    (∃ obj, A.storage.updateStackRun id
        { status := some status, result := result.map JsVal.str, error := error.map JsVal.str,
          resume_payload := payload.map JsVal.str } s
      = (s.mapStackRuns (StackRun.updated id status result error payload), .ok obj))
      ∧ A.ReadableStack (s.mapStackRuns (StackRun.updated id status result error payload))
          id := by
  cases A
  · obtain ⟨row, hf, t, ht⟩ := (readableStack_sqlite s id).mp hread
    obtain ⟨p1, p2, p3, p4⟩ := SQLiteAdapter._parseStackRun_inv row t ht
    have hrow : (StackRun.updated id status result error payload row)
        = { row with status := status, result := (result.map JsVal.str).getD row.result,
                     error := (error.map JsVal.str).getD row.error,
                     resume_payload := (payload.map JsVal.str).getD row.resume_payload } := by
      have := List.find?_some hf
      simp only [StackRun.updated, this, if_true]
    obtain ⟨t2, ht2, -⟩ := SQLiteAdapter._parseStackRun_ok
      (StackRun.updated id status result error payload row)
      (by rw [hrow]; exact p1)
      (by rw [hrow]; exact parseColumn_getD result _ hr p2)
      (by rw [hrow]; exact parseColumn_getD error _ he p3)
      (by rw [hrow]; exact parseColumn_getD payload _ hp p4)
    have hfind : (s.stack_runs.map (StackRun.updated id status result error payload)).find?
        (fun r => r.id == id) = some (StackRun.updated id status result error payload row) := by
      rw [find?_map_stackRun _ (stackRun_updated_id id status result error payload), hf]
      rfl
    constructor
    · refine ⟨some t2, ?_⟩
      simp only [Adapter.storage, SQLiteAdapter.storage, SQLiteAdapter.updateStackRun,
        sqlite_bindUpdate_str, sqlite_setStackRun_eq, SQLiteAdapter._getStackRunById,
        hfind, ht2]
      rfl
    · exact (readableStack_sqlite _ id).mpr ⟨_, hfind, t2, ht2⟩
  · obtain ⟨row, hf⟩ := (readableStack_supabase s id).mp hread
    have hfind : (s.stack_runs.map (StackRun.updated id status result error payload)).find?
        (fun r => r.id == id) = some (StackRun.updated id status result error payload row) := by
      rw [find?_map_stackRun _ (stackRun_updated_id id status result error payload), hf]
      rfl
    constructor
    · refine ⟨some (StackRun.updated id status result error payload row), ?_⟩
      simp only [Adapter.storage, SupabaseAdapter.storage, SupabaseAdapter.updateStackRun,
        supabase_setStackRun_eq, hfind]
      rfl
    · exact (readableStack_supabase _ id).mpr ⟨_, hfind⟩

/-! ## Running a body -/

theorem insert_task_runs (s : Store) (row : StackRun) :
    (s.insert row).task_runs = s.task_runs := rfl

theorem runProg_spec (A : Adapter) (p : Prog) : ∀ (context : Context) (s : Store),
    s.task_runs.any (fun t => t.id == context.taskRun.id) = true →
    TaskExecutor.runProg A.storage p context s
      = (s.insertAll (A.childRows context.taskRun.id (context.stackRun.map (fun r => r.id))
            s.nextStackRunId p.calls),
         { context with suspensionData :=
            lastSuspension context.taskRun.id context.suspensionData s.nextStackRunId p.calls },
         p.ending) := by
  induction p with
  | ret v => intro context s _; rfl
  | throw e => intro context s _; rfl
  | callHostTool serviceName methodPath args k ih =>
    intro context s hT
    obtain ⟨obj, hc, hid⟩ := createStackRun_spec A
      (childData context.taskRun.id (context.stackRun.map (fun r => r.id)) serviceName
        methodPath args) s hT
    have hnext := nextStackRunId_insert s
      (A.insertedRow (childData context.taskRun.id (context.stackRun.map (fun r => r.id))
        serviceName methodPath args) s.nextStackRunId) rfl
    unfold childData at hc hnext
    rw [TaskExecutor.runProg]
    simp only [hc]
    rw [ih suspendedError _ _ (by rw [insert_task_runs]; exact hT)]
    simp only [Prog.calls, Prog.ending, Adapter.childRows, lastSuspension, insertAll_cons,
      hnext, hid, childData]

theorem childRows_length (A : Adapter) (taskRunId : Nat) (parent : Option Nat) (id : Nat)
    (cs : List Call) : (A.childRows taskRunId parent id cs).length = cs.length := by
  induction cs generalizing id with
  | nil => rfl
  | cons c cs ih => simp [Adapter.childRows, ih]

/-! ## What `execute` and `resume` do, by the way the body ends -/

theorem errorJSON_eq (e : JsError) : errorJSON e = .str (errorText e) := rfl

theorem messageJSON_eq (e : JsError) : messageJSON e = .str (messageText e) := rfl

theorem parseColumn_some_text (v : JsVal) :
    ∀ t, some (JSON.text v) = some t → ∃ w, SQLiteAdapter.parseColumn (.str t) = .ok w := by
  intro t h
  injection h with h
  subst h
  exact SQLiteAdapter.parseColumn_text v

theorem parseColumn_none :
    ∀ t, (none : Option String) = some t → ∃ w, SQLiteAdapter.parseColumn (.str t) = .ok w := by
  intro t h; cases h

theorem afterBody_task_runs (A : Adapter) (T : TaskRun) (p : Prog) (s : Store) :
    (A.afterBody T p s).task_runs = s.task_runs := by
  unfold Adapter.afterBody
  rw [insertAll_task_runs]
  rfl

theorem afterResumedBody_task_runs (A : Adapter) (T : TaskRun) (p : Prog) (s : Store) :
    (A.afterResumedBody T p s).task_runs = s.task_runs := by
  unfold Adapter.afterResumedBody
  rw [insertAll_task_runs]

theorem execute_body (A : Adapter) (js : JsEngine) (T : TaskRun) (code : String) (s : Store)
    (hread : A.ReadableTask s T.id) :
    ∃ obj, A.storage.createStackRun (rootData T) s
        = (s.insert (A.insertedRow (rootData T) s.nextStackRunId), .ok obj)
      ∧ ∃ context1, TaskExecutor._executeCode js A.storage code
          { taskRun := T, stackRun := some obj, suspended := false, suspensionData := none }
          .undefined (s.insert (A.insertedRow (rootData T) s.nextStackRunId))
        = (A.afterBody T (js code .undefined) s, context1, (js code .undefined).ending)
      ∧ context1.suspensionData
          = lastSuspension T.id none (s.nextStackRunId + 1) (js code .undefined).calls := by
  have hany := readableTask_any A s T.id hread
  obtain ⟨obj, hc, hid⟩ := createStackRun_spec A (rootData T) s hany
  refine ⟨obj, hc, ?_⟩
  have hnext := nextStackRunId_insert s (A.insertedRow (rootData T) s.nextStackRunId) rfl
  have hrun := runProg_spec A (js code .undefined)
    { taskRun := T, stackRun := some obj, suspended := false, suspensionData := none }
    (s.insert (A.insertedRow (rootData T) s.nextStackRunId)) hany
  refine ⟨{ taskRun := T, stackRun := some obj, suspended := false,
            suspensionData := lastSuspension T.id none (s.nextStackRunId + 1)
              (js code .undefined).calls }, ?_, rfl⟩
  unfold TaskExecutor._executeCode
  rw [hrun]
  simp only [Option.map_some', hid, hnext, Adapter.afterBody]

theorem executeCatch_spec (A : Adapter) (T : TaskRun) (e : JsError) (s : Store)
    (hread : A.ReadableTask s T.id) :
    TaskExecutor.executeCatch A.storage T e s
      = (s.mapTaskRuns (TaskRun.updated T.id "failed" none (some (errorText e))), .error e) := by
  obtain ⟨obj, h⟩ := updateTaskRun_spec A s T.id "failed" none (some (errorText e)) hread
    parseColumn_none (parseColumn_some_text _)
  have h1 : A.storage.updateTaskRun T.id
      { status := some "failed", error := some (errorJSON e) } s
      = (s.mapTaskRuns (TaskRun.updated T.id "failed" none (some (errorText e))), .ok obj) := h
  simp only [TaskExecutor.executeCatch, h1]

theorem resumeCatch_spec (A : Adapter) (T : TaskRun) (e : JsError) (s : Store)
    (hread : A.ReadableTask s T.id) :
    TaskExecutor.resumeCatch A.storage T e s
      = (s.mapTaskRuns (TaskRun.updated T.id "failed" none (some (messageText e))), .error e) := by
  obtain ⟨obj, h⟩ := updateTaskRun_spec A s T.id "failed" none (some (messageText e)) hread
    parseColumn_none (parseColumn_some_text _)
  have h1 : A.storage.updateTaskRun T.id
      { status := some "failed", error := some (messageJSON e) } s
      = (s.mapTaskRuns (TaskRun.updated T.id "failed" none (some (messageText e))), .ok obj) := h
  simp only [TaskExecutor.resumeCatch, h1]

theorem complete_spec (A : Adapter) (T : TaskRun) (v : JsVal) (s : Store)
    (hread : A.ReadableTask s T.id) (hv : v ≠ .undefined) :
    ∃ obj, A.storage.updateTaskRun T.id
        { status := some "completed", result := some (JSON.stringifyVal v) } s
      = (s.mapTaskRuns (TaskRun.updated T.id "completed" (some (JSON.text v)) none), .ok obj) := by
  obtain ⟨obj, h⟩ := updateTaskRun_spec A s T.id "completed" (some (JSON.text v)) none hread
    (parseColumn_some_text _) parseColumn_none
  rw [SQLiteAdapter.stringifyVal_eq v hv]
  exact ⟨obj, h⟩

theorem complete_void_spec (A : Adapter) (T : TaskRun) (s : Store)
    (hread : A.ReadableTask s T.id) :
    ∃ obj, A.storage.updateTaskRun T.id
        { status := some "completed", result := some (JSON.stringifyVal .undefined) } s
      = (s.mapTaskRuns (A.completedWithoutResult T.id), .ok obj) := by
  cases A
  · obtain ⟨row, hf, t, ht⟩ := (readableTask_sqlite s T.id).mp hread
    obtain ⟨p1, -, p3⟩ := SQLiteAdapter._parseTaskRun_inv row t ht
    have hset : SQLiteAdapter.setTaskRun T.id (some "completed") (some .null) none
        = Adapter.sqlite.completedWithoutResult T.id := by
      funext r
      simp [SQLiteAdapter.setTaskRun, Adapter.completedWithoutResult]
    have hid : ∀ r, (Adapter.sqlite.completedWithoutResult T.id r).id = r.id := by
      intro r; unfold Adapter.completedWithoutResult; split <;> rfl
    have hrow : Adapter.sqlite.completedWithoutResult T.id row
        = { row with status := "completed", result := .null } := by
      have := List.find?_some hf
      simp only [Adapter.completedWithoutResult, this, if_true]
    obtain ⟨t2, ht2⟩ := SQLiteAdapter._parseTaskRun_ok
      (Adapter.sqlite.completedWithoutResult T.id row)
      (by rw [hrow]; exact p1) (by rw [hrow]; exact ⟨.null, rfl⟩) (by rw [hrow]; exact p3)
    refine ⟨some t2, ?_⟩
    have hb : SQLiteAdapter.bindUpdate (some (JSON.stringifyVal .undefined))
        = .ok (some .null) := rfl
    have hn : SQLiteAdapter.bindUpdate none = .ok none := rfl
    simp only [Adapter.storage, SQLiteAdapter.storage, SQLiteAdapter.updateTaskRun, hb, hn,
      hset, SQLiteAdapter._getTaskRunById, find?_map_taskRun _ hid, hf, Option.map_some', ht2]
    rfl
  · obtain ⟨row, hf⟩ := (readableTask_supabase s T.id).mp hread
    have hset : SupabaseAdapter.setTaskRun T.id
          { status := some "completed", result := some (JSON.stringifyVal .undefined) }
        = Adapter.supabase.completedWithoutResult T.id := by
      funext r
      by_cases h : r.id = T.id
      · simp [SupabaseAdapter.setTaskRun, Adapter.completedWithoutResult, h,
          SupabaseAdapter.sentUpdate, SupabaseAdapter.sent, JSON.stringifyVal, JSON.stringify]
      · simp [SupabaseAdapter.setTaskRun, Adapter.completedWithoutResult, h]
    have hid : ∀ r, (Adapter.supabase.completedWithoutResult T.id r).id = r.id := by
      intro r; unfold Adapter.completedWithoutResult; split <;> rfl
    refine ⟨some (Adapter.supabase.completedWithoutResult T.id row), ?_⟩
    simp only [Adapter.storage, SupabaseAdapter.storage, SupabaseAdapter.updateTaskRun, hset,
      find?_map_taskRun _ hid, hf, Option.map_some']
    rfl

theorem execute_suspended (A : Adapter) (js : JsEngine) (T : TaskRun) (code : String)
    (s : Store) (e : JsError) (hread : A.ReadableTask s T.id)
    (hend : (js code .undefined).ending = .error e) (hmsg : e.message = "TASK_SUSPENDED") :
    TaskExecutor.execute js A.storage T code s
      = (A.afterBody T (js code .undefined) s,
          .ok (.suspended
            (lastSuspension T.id none (s.nextStackRunId + 1) (js code .undefined).calls))) := by
  obtain ⟨obj, hc, context1, hrun, hsd⟩ := execute_body A js T code s hread
  have hc1 : A.storage.createStackRun
      { task_run_id := T.id, operation := "task_init", status := "in_progress",
        input := T.input } s = _ := hc
  unfold TaskExecutor.execute
  simp only [hc1, hrun, hend, hmsg, if_true, hsd]

theorem execute_failed (A : Adapter) (js : JsEngine) (T : TaskRun) (code : String)
    (s : Store) (e : JsError) (hread : A.ReadableTask s T.id)
    (hend : (js code .undefined).ending = .error e) (hmsg : e.message ≠ "TASK_SUSPENDED") :
    TaskExecutor.execute js A.storage T code s
      = ((A.afterBody T (js code .undefined) s).mapTaskRuns
            (TaskRun.updated T.id "failed" none (some (errorText e))), .error e) := by
  obtain ⟨obj, hc, context1, hrun, hsd⟩ := execute_body A js T code s hread
  have hc1 : A.storage.createStackRun
      { task_run_id := T.id, operation := "task_init", status := "in_progress",
        input := T.input } s = _ := hc
  have hread2 := readableTask_congr A s _ T.id (afterBody_task_runs A T (js code .undefined) s)
    hread
  unfold TaskExecutor.execute
  simp only [hc1, hrun, hend, hmsg, if_false, executeCatch_spec A T e _ hread2]

theorem execute_completed (A : Adapter) (js : JsEngine) (T : TaskRun) (code : String)
    (s : Store) (v : JsVal) (hread : A.ReadableTask s T.id)
    (hend : (js code .undefined).ending = .ok v) (hv : v ≠ .undefined) :
    TaskExecutor.execute js A.storage T code s
      = ((A.afterBody T (js code .undefined) s).mapTaskRuns
            (TaskRun.updated T.id "completed" (some (JSON.text v)) none),
          .ok (.success v)) := by
  obtain ⟨obj, hc, context1, hrun, hsd⟩ := execute_body A js T code s hread
  have hc1 : A.storage.createStackRun
      { task_run_id := T.id, operation := "task_init", status := "in_progress",
        input := T.input } s = _ := hc
  have hread2 := readableTask_congr A s _ T.id (afterBody_task_runs A T (js code .undefined) s)
    hread
  obtain ⟨obj2, hu⟩ := complete_spec A T v _ hread2 hv
  unfold TaskExecutor.execute
  simp only [hc1, hrun, hend, hu]

theorem execute_completed_void (A : Adapter) (js : JsEngine) (T : TaskRun) (code : String)
    (s : Store) (hread : A.ReadableTask s T.id)
    (hend : (js code .undefined).ending = .ok .undefined) :
    TaskExecutor.execute js A.storage T code s
      = ((A.afterBody T (js code .undefined) s).mapTaskRuns (A.completedWithoutResult T.id),
          .ok (.success .undefined)) := by
  obtain ⟨obj, hc, context1, hrun, hsd⟩ := execute_body A js T code s hread
  have hc1 : A.storage.createStackRun
      { task_run_id := T.id, operation := "task_init", status := "in_progress",
        input := T.input } s = _ := hc
  have hread2 := readableTask_congr A s _ T.id (afterBody_task_runs A T (js code .undefined) s)
    hread
  obtain ⟨obj2, hu⟩ := complete_void_spec A T _ hread2
  unfold TaskExecutor.execute
  simp only [hc1, hrun, hend, hu]

theorem resume_body (A : Adapter) (js : JsEngine) (T : TaskRun) (rp : JsVal) (code : String)
    (s : Store) (hread : A.ReadableTask s T.id) :
    ∃ context1, TaskExecutor._executeCode js A.storage code
          { taskRun := T, stackRun := none, suspended := false, suspensionData := none }
          rp s
        = (A.afterResumedBody T (js code rp) s, context1, (js code rp).ending)
      ∧ context1.suspensionData
          = lastSuspension T.id none s.nextStackRunId (js code rp).calls := by
  have hany := readableTask_any A s T.id hread
  have hrun := runProg_spec A (js code rp)
    { taskRun := T, stackRun := none, suspended := false, suspensionData := none } s hany
  refine ⟨{ taskRun := T, stackRun := none, suspended := false,
            suspensionData := lastSuspension T.id none s.nextStackRunId (js code rp).calls },
    ?_, rfl⟩
  unfold TaskExecutor._executeCode
  rw [hrun]
  simp only [Option.map_none', Adapter.afterResumedBody]

theorem resume_suspended (A : Adapter) (js : JsEngine) (T : TaskRun) (rp : JsVal)
    (code : String) (s : Store) (e : JsError) (hread : A.ReadableTask s T.id)
    (hend : (js code rp).ending = .error e) (hmsg : e.message = "TASK_SUSPENDED") :
    TaskExecutor.resume js A.storage T rp code s
      = (A.afterResumedBody T (js code rp) s,
          .ok (.suspended (lastSuspension T.id none s.nextStackRunId (js code rp).calls))) := by
  obtain ⟨context1, hrun, hsd⟩ := resume_body A js T rp code s hread
  unfold TaskExecutor.resume
  simp only [hrun, hend, hmsg, if_true, hsd]

theorem resume_failed (A : Adapter) (js : JsEngine) (T : TaskRun) (rp : JsVal)
    (code : String) (s : Store) (e : JsError) (hread : A.ReadableTask s T.id)
    (hend : (js code rp).ending = .error e) (hmsg : e.message ≠ "TASK_SUSPENDED") :
    TaskExecutor.resume js A.storage T rp code s
      = ((A.afterResumedBody T (js code rp) s).mapTaskRuns
            (TaskRun.updated T.id "failed" none (some (messageText e))), .error e) := by
  obtain ⟨context1, hrun, hsd⟩ := resume_body A js T rp code s hread
  have hread2 := readableTask_congr A s _ T.id (afterResumedBody_task_runs A T (js code rp) s)
    hread
  unfold TaskExecutor.resume
  simp only [hrun, hend, hmsg, if_false, resumeCatch_spec A T e _ hread2]

theorem resume_completed (A : Adapter) (js : JsEngine) (T : TaskRun) (rp : JsVal)
    (code : String) (s : Store) (v : JsVal) (hread : A.ReadableTask s T.id)
    (hend : (js code rp).ending = .ok v) (hv : v ≠ .undefined) :
    TaskExecutor.resume js A.storage T rp code s
      = ((A.afterResumedBody T (js code rp) s).mapTaskRuns
            (TaskRun.updated T.id "completed" (some (JSON.text v)) none),
          .ok (.success v)) := by
  obtain ⟨context1, hrun, hsd⟩ := resume_body A js T rp code s hread
  have hread2 := readableTask_congr A s _ T.id (afterResumedBody_task_runs A T (js code rp) s)
    hread
  obtain ⟨obj2, hu⟩ := complete_spec A T v _ hread2 hv
  unfold TaskExecutor.resume
  simp only [hrun, hend, hu]

/-! # The claims -/

/-! ## C1: a dispatched child and the resume value -/

/-- C1 (Scenario C of the spec), as the code runs it with either adapter. The pending
child `kv.get` is handed to `processStackRun` and the service client answers `hello`.
The child is stored as completed with result `"hello"`, but the parent is stored with
the resume payload `\x7b"result":null\x7d` and the task body is resumed with `null`: the
task code that returns its resume value leaves the task run completed with result
`null`, not `hello`. `_resumeParentTask` reads `childStackRun.result` from the object it
was handed, which was fetched before the call. -/
theorem C1_resume_gets_stale_child_result :
    Scenario.pendingView .sqlite (Scenario.afterExecute .sqlite Scenario.codeGet)
        = some [(2, "kv.get", "pending")]
    ∧ (Adapter.sqlite.storage.getPendingStackRuns
          (Scenario.afterExecute .sqlite Scenario.codeGet)).2 = .ok [Scenario.child]
    ∧ StackProcessor.resumePayloadOf Scenario.child = .ok .null
    ∧ Scenario.stackView (Scenario.afterDispatch .sqlite Scenario.codeGet
          Scenario.helloClient).store
        = [⟨1, none, "task_init", "suspended_waiting_child", .null, .null,
              .str "\x7b\"result\":null\x7d"⟩,
           ⟨2, some 1, "kv.get", "completed", .str "\"hello\"", .null, .null⟩]
    ∧ Scenario.taskView (Scenario.afterDispatch .sqlite Scenario.codeGet
          Scenario.helloClient).store
        = [⟨1, "completed", .str "null", .null⟩]
    ∧ (Adapter.supabase.storage.getPendingStackRuns
          (Scenario.afterExecute .supabase Scenario.codeGet)).2 = .ok [Scenario.child]
    ∧ Scenario.stackView (Scenario.afterDispatch .supabase Scenario.codeGet
          Scenario.helloClient).store
        = [⟨1, none, "task_init", "suspended_waiting_child", .null, .null,
              .str "\x7b\"result\":null\x7d"⟩,
           ⟨2, some 1, "kv.get", "completed", .str "\"hello\"", .null, .null⟩]
    ∧ Scenario.taskView (Scenario.afterDispatch .supabase Scenario.codeGet
          Scenario.helloClient).store
        = [⟨1, "completed", .str "null", .null⟩] := by
  decide

/-! ## C2: a host call that fails -/

/-- C2, counterexample (Scenario D of the spec). The service client fails for the
pending child of a task whose body throws whenever it is resumed. The child is stored
as failed with the error, and nothing else happens: the parent is still `in_progress`
with no resume payload, no stack run is created, and the task run is still `pending`,
not `failed`. The claim says the parent is resumed and the task run fails. -/
theorem C2_failed_call_does_not_resume :
    Scenario.stackView (Scenario.afterDispatch .sqlite Scenario.codeStrict
          Scenario.failingClient).store
        = [⟨1, none, "task_init", "in_progress", .null, .null, .null⟩,
           ⟨2, some 1, "kv.get", "failed", .null,
              .str (errorText ⟨"service down", "Error: service down"⟩), .null⟩]
    ∧ Scenario.taskView (Scenario.afterDispatch .sqlite Scenario.codeStrict
          Scenario.failingClient).store
        = [⟨1, "pending", .null, .null⟩]
    ∧ Scenario.taskView (Scenario.afterDispatch .supabase Scenario.codeStrict
          Scenario.failingClient).store
        = [⟨1, "pending", .null, .null⟩] := by
  decide

theorem updated_failed_after_in_progress (id : Nat) (t : String) (s : Store) :
    (s.mapStackRuns (StackRun.updated id "in_progress" none none none)).mapStackRuns
        (StackRun.updated id "failed" none (some t) none)
      = s.mapStackRuns (StackRun.updated id "failed" none (some t) none) := by
  simp only [Store.mapStackRuns, List.map_map]
  congr 1
  apply List.map_congr_left
  intro r _
  by_cases h : r.id = id
  · simp [StackRun.updated, h]
  · simp [StackRun.updated, h]

/-- C2, amended. For every pending stack run `c` that the adapter can read and whose
input names a host call, if the service client fails with the error `e`, then
`processStackRun(c)` makes that one call, stores `c` as failed with the message and the
stack of `e`, and returns normally. Nothing else is written: the parent stack run and
the other stack runs keep their rows, no stack run is created and the task runs are
untouched, so the parent task is not resumed. -/
theorem C2_failed_call_marks_only_the_child (A : Adapter) (js : JsEngine)
    (client : ServiceClient) (c : StackRun) (w : World) (serviceName methodPath args : JsVal)
    (e : JsError)
    (hstatus : c.status = "pending")
    (hread : A.ReadableStack w.store c.id)
    (hinput : StackProcessor.destructure c.input = .ok (serviceName, methodPath, args))
    (hfail : client serviceName methodPath args = .error (.err e)) :
    StackProcessor.processStackRun js A.storage client c w
      = ({ store := w.store.mapStackRuns
              (StackRun.updated c.id "failed" none (some (errorText e)) none),
           calls := w.calls ++ [⟨serviceName, methodPath, args⟩] }, .ok ()) := by
  obtain ⟨⟨obj1, h1⟩, hread1⟩ := updateStackRun_spec A w.store c.id "in_progress" none none none
    hread parseColumn_none parseColumn_none parseColumn_none
  have h1' : A.storage.updateStackRun c.id { status := some "in_progress" } w.store
      = (w.store.mapStackRuns (StackRun.updated c.id "in_progress" none none none), .ok obj1) :=
    h1
  obtain ⟨⟨obj2, h2⟩, -⟩ := updateStackRun_spec A _ c.id "failed" none (some (errorText e)) none
    hread1 parseColumn_none (parseColumn_some_text _) parseColumn_none
  have h2' : A.storage.updateStackRun c.id
        { status := some "failed", error := some (errorJSON e) }
        (w.store.mapStackRuns (StackRun.updated c.id "in_progress" none none none))
      = (w.store.mapStackRuns (StackRun.updated c.id "failed" none (some (errorText e)) none),
          .ok obj2) := by
    rw [← updated_failed_after_in_progress]
    exact h2
  have hs : (c.status == "in_progress") = false := by rw [hstatus]; decide
  simp only [StackProcessor.processStackRun, StackProcessor.processStackRunTry, hs, h1', hinput,
    hfail, Bool.false_eq_true, if_false, StackProcessor.thrownJSON, h2']

/-- C2, witness: the failing host call of the scenario, on the SQLite adapter. -/
theorem C2_failed_call_marks_only_the_child_witness :
    StackProcessor.processStackRun Scenario.js Adapter.sqlite.storage Scenario.failingClient
        Scenario.child ⟨Scenario.afterExecute .sqlite Scenario.codeStrict, []⟩
      = ({ store := (Scenario.afterExecute .sqlite Scenario.codeStrict).mapStackRuns
              (StackRun.updated 2 "failed" none
                (some (errorText ⟨"service down", "Error: service down"⟩)) none),
           calls := [⟨.str "kv", .str "get", .str "x"⟩] }, .ok ()) :=
  C2_failed_call_marks_only_the_child .sqlite Scenario.js Scenario.failingClient Scenario.child
    ⟨Scenario.afterExecute .sqlite Scenario.codeStrict, []⟩ (.str "kv") (.str "get") (.str "x")
    ⟨"service down", "Error: service down"⟩ (by decide) ⟨Scenario.child, by decide⟩ (by decide)
    (by decide)

/-! ## C3: what a dispatch pass picks up -/

/-- C3, at the store that Scenario C leaves behind. The root stack run is stored with
status `suspended_waiting_child`. `getPendingStackRuns` returns it, and `processPending`
processes it as a host call: it is marked `in_progress`, the service client is called
with the `serviceName`, `methodPath` and `args` read from the task input (all
`undefined`), and the root is stored as completed with the answer of the service. -/
theorem C3_waiting_parent_is_dispatched :
    Scenario.pendingView .sqlite
        (Scenario.afterDispatch .sqlite Scenario.codeGet Scenario.helloClient).store
      = some [(1, "task_init", "suspended_waiting_child")]
    ∧ (StackProcessor.processPending Scenario.js Adapter.sqlite.storage Scenario.helloClient
          ⟨(Scenario.afterDispatch .sqlite Scenario.codeGet Scenario.helloClient).store,
            []⟩).1.calls
        = [⟨.undefined, .undefined, .undefined⟩]
    ∧ Scenario.stackView (StackProcessor.processPending Scenario.js Adapter.sqlite.storage
          Scenario.helloClient
          ⟨(Scenario.afterDispatch .sqlite Scenario.codeGet Scenario.helloClient).store,
            []⟩).1.store
        = [⟨1, none, "task_init", "completed", .str "\"hello\"", .null,
              .str "\x7b\"result\":null\x7d"⟩,
           ⟨2, some 1, "kv.get", "completed", .str "\"hello\"", .null, .null⟩]
    ∧ Scenario.pendingView .supabase
        (Scenario.afterDispatch .supabase Scenario.codeGet Scenario.helloClient).store
      = some [(1, "task_init", "suspended_waiting_child")]
    ∧ (StackProcessor.processPending Scenario.js Adapter.supabase.storage
          Scenario.helloClient
          ⟨(Scenario.afterDispatch .supabase Scenario.codeGet Scenario.helloClient).store,
            []⟩).1.calls
        = [⟨.undefined, .undefined, .undefined⟩] := by
  decide

/-! ## C4: the first host call of a body -/

theorem nextStackRunId_ne_zero (s : Store) : (s.nextStackRunId != 0) = true := by
  simp [Store.nextStackRunId]

theorem insertedRow_child_parent (A : Adapter) (d : StackRunData) (id : Nat) (s : Store)
    (hd : d.parent_stack_run_id = some s.nextStackRunId) :
    (A.insertedRow d id).parent_stack_run_id = some s.nextStackRunId := by
  cases A
  · simp [Adapter.insertedRow, hd, Option.filter, nextStackRunId_ne_zero]
  · simp [Adapter.insertedRow, hd]

theorem insertedRow_status (A : Adapter) (d : StackRunData) (id : Nat) (hd : d.status ≠ "") :
    (A.insertedRow d id).status = d.status := by
  cases A
  · simp [Adapter.insertedRow, hd]
  · simp [Adapter.insertedRow]

/-- C4, counterexample. The task code `codeCatch` starts with a host call, catches the
error the call raises and returns 5. `execute` does not return a suspended outcome: it
returns success with 5, and the task run record is updated to `completed` with result
`5`, although the child stack run of the call was created as `pending`. -/
theorem C4_catching_body_is_not_suspended :
    (TaskExecutor.execute Scenario.js Adapter.sqlite.storage Scenario.taskRun
        Scenario.codeCatch (Scenario.store .sqlite Scenario.codeCatch)).2
      = .ok (.success (.num 5))
    ∧ Scenario.taskView (Scenario.afterExecute .sqlite Scenario.codeCatch)
      = [⟨1, "completed", .str "5", .null⟩]
    ∧ Scenario.stackView (Scenario.afterExecute .sqlite Scenario.codeCatch)
      = [⟨1, none, "task_init", "in_progress", .null, .null, .null⟩,
         ⟨2, some 1, "kv.get", "pending", .null, .null, .null⟩] := by
  decide

/-- C4, amended. For every task run `T` that the adapter can read and every body whose
first action is to invoke the host-call primitive with `(serviceName, methodPath, args)`
and that ends with the rejection of that call (it returns the promise of the call, does
not catch the rejection and starts nothing else), `execute(T, body)` returns a suspended
outcome. The store gains exactly two stack runs, the root created by this call
and one child: the child belongs to `T`, its parent is that root, its status is
`pending` and its input column holds `\x7bserviceName, methodPath, args\x7d` (as JSON text
with the SQLite adapter). The suspension data carries the id of the child and the same
service name, method path and arguments, and no task run row is changed. -/
theorem C4_first_host_call_suspends (A : Adapter) (js : JsEngine) (T : TaskRun)
    (code : String) (s : Store) (serviceName methodPath : String) (args : JsVal)
    (hread : A.ReadableTask s T.id)
    (hbody : js code .undefined = .callHostTool serviceName methodPath args Prog.throw) :
    TaskExecutor.execute js A.storage T code s
      = ((s.insert (A.insertedRow (rootData T) s.nextStackRunId)).insert
            (A.insertedRow
              (childData T.id (some s.nextStackRunId) serviceName methodPath args)
              (s.nextStackRunId + 1)),
          .ok (.suspended
            (some ⟨T.id, s.nextStackRunId + 1, serviceName, methodPath, args⟩)))
    ∧ (TaskExecutor.execute js A.storage T code s).1.stack_runs
      = s.stack_runs ++
          [A.insertedRow (rootData T) s.nextStackRunId,
           A.insertedRow (childData T.id (some s.nextStackRunId) serviceName methodPath args)
              (s.nextStackRunId + 1)]
    ∧ (TaskExecutor.execute js A.storage T code s).1.task_runs = s.task_runs
    ∧ (A.insertedRow (rootData T) s.nextStackRunId).id = s.nextStackRunId
    ∧ (A.insertedRow (rootData T) s.nextStackRunId).parent_stack_run_id = none
    ∧ (A.insertedRow (rootData T) s.nextStackRunId).operation = "task_init"
    ∧ (A.insertedRow (childData T.id (some s.nextStackRunId) serviceName methodPath args)
          (s.nextStackRunId + 1)).id = s.nextStackRunId + 1
    ∧ (A.insertedRow (childData T.id (some s.nextStackRunId) serviceName methodPath args)
          (s.nextStackRunId + 1)).task_run_id = T.id
    ∧ (A.insertedRow (childData T.id (some s.nextStackRunId) serviceName methodPath args)
          (s.nextStackRunId + 1)).parent_stack_run_id = some s.nextStackRunId
    ∧ (A.insertedRow (childData T.id (some s.nextStackRunId) serviceName methodPath args)
          (s.nextStackRunId + 1)).status = "pending"
    ∧ (A.insertedRow (childData T.id (some s.nextStackRunId) serviceName methodPath args)
          (s.nextStackRunId + 1)).input
        = A.column (.obj [("serviceName", .str serviceName), ("methodPath", .str methodPath),
                          ("args", args)]) := by
  have hend : (js code .undefined).ending = .error suspendedError := by rw [hbody]; rfl
  have hcalls : (js code .undefined).calls = [⟨serviceName, methodPath, args⟩] := by
    rw [hbody]; rfl
  have hexec := execute_suspended A js T code s suspendedError hread hend rfl
  have hfinal : TaskExecutor.execute js A.storage T code s
      = ((s.insert (A.insertedRow (rootData T) s.nextStackRunId)).insert
            (A.insertedRow
              (childData T.id (some s.nextStackRunId) serviceName methodPath args)
              (s.nextStackRunId + 1)),
          .ok (.suspended
            (some ⟨T.id, s.nextStackRunId + 1, serviceName, methodPath, args⟩))) := by
    rw [hexec]
    simp only [Adapter.afterBody, hcalls]
    rfl
  refine ⟨hfinal, ?_, ?_, rfl, ?_, rfl, rfl, rfl, ?_, ?_, rfl⟩
  · rw [hfinal]; simp [Store.insert]
  · rw [hfinal]; rfl
  · cases A <;> rfl
  · exact insertedRow_child_parent A _ _ s rfl
  · exact insertedRow_status A _ _ (by simp [childData])

/-- C4, witness: the task code `codeGet` of the scenario on the SQLite adapter. -/
theorem C4_first_host_call_suspends_witness :
    TaskExecutor.execute Scenario.js Adapter.sqlite.storage Scenario.taskRun Scenario.codeGet
        (Scenario.store .sqlite Scenario.codeGet)
      = (((Scenario.store .sqlite Scenario.codeGet).insert
            (Adapter.sqlite.insertedRow (rootData Scenario.taskRun) 1)).insert
            (Adapter.sqlite.insertedRow (childData 1 (some 1) "kv" "get" (.str "x")) 2),
          .ok (.suspended (some ⟨1, 2, "kv", "get", .str "x"⟩))) :=
  (C4_first_host_call_suspends .sqlite Scenario.js Scenario.taskRun Scenario.codeGet
    (Scenario.store .sqlite Scenario.codeGet) "kv" "get" (.str "x")
    ⟨Scenario.taskRun, by decide⟩ (by rfl)).1

/-! ## C5 and C6: a body that returns, a body that throws -/

theorem taskRun?_updated (s : Store) (id : Nat) (status : String) (result error : Option String)
    (row : TaskRun) (h : s.taskRun? id = some row) :
    (s.mapTaskRuns (TaskRun.updated id status result error)).taskRun? id
      = some { row with status := status,
                        result := (result.map JsVal.str).getD row.result,
                        error := (error.map JsVal.str).getD row.error } := by
  unfold Store.taskRun? at h ⊢
  have hid := List.find?_some h
  simp only [Store.mapTaskRuns, find?_map_taskRun _ (taskRun_updated_id id status result error),
    h, Option.map_some', TaskRun.updated, hid, if_true]

theorem afterBody_stack_runs (A : Adapter) (T : TaskRun) (p : Prog) (s : Store) :
    (A.afterBody T p s).stack_runs
      = s.stack_runs ++ A.insertedRow (rootData T) s.nextStackRunId
          :: A.childRows T.id (some s.nextStackRunId) (s.nextStackRunId + 1) p.calls := by
  unfold Adapter.afterBody
  rw [insertAll_stack_runs]
  simp [Store.insert]

theorem afterResumedBody_stack_runs (A : Adapter) (T : TaskRun) (p : Prog) (s : Store) :
    (A.afterResumedBody T p s).stack_runs
      = s.stack_runs ++ A.childRows T.id none s.nextStackRunId p.calls := by
  unfold Adapter.afterResumedBody
  rw [insertAll_stack_runs]

theorem rootRow_status (A : Adapter) (T : TaskRun) (id : Nat) :
    (A.insertedRow (rootData T) id).status = "in_progress" :=
  insertedRow_status A _ _ (by simp [rootData])

set_option maxRecDepth 100000 in
/-- C5, counterexample (Scenario A of the spec). The task code `codeDone` returns a
literal without a host call: `execute` yields success and the task run is stored as
completed, but the root stack run created for it is stored with status `in_progress`,
not `completed`. The task code `codeVoid` returns `undefined`: `execute` yields success
and the task run is stored as completed, and its `result` column is `NULL`. -/
theorem C5_root_stays_in_progress :
    (TaskExecutor.execute Scenario.js Adapter.sqlite.storage Scenario.taskRun
        Scenario.codeDone (Scenario.store .sqlite Scenario.codeDone)).2
      = .ok (.success (.str "done"))
    ∧ Scenario.taskView (Scenario.afterExecute .sqlite Scenario.codeDone)
      = [⟨1, "completed", .str "\"done\"", .null⟩]
    ∧ Scenario.stackView (Scenario.afterExecute .sqlite Scenario.codeDone)
      = [⟨1, none, "task_init", "in_progress", .null, .null, .null⟩]
    ∧ Scenario.stackView (Scenario.afterExecute .supabase Scenario.codeDone)
      = [⟨1, none, "task_init", "in_progress", .null, .null, .null⟩]
    ∧ (TaskExecutor.execute Scenario.js Adapter.sqlite.storage Scenario.taskRun
        Scenario.codeVoid (Scenario.store .sqlite Scenario.codeVoid)).2
      = .ok (.success .undefined)
    ∧ Scenario.taskView (Scenario.afterExecute .sqlite Scenario.codeVoid)
      = [⟨1, "completed", .null, .null⟩]
    ∧ Scenario.stackView (Scenario.afterExecute .sqlite Scenario.codeVoid)
      = [⟨1, none, "task_init", "in_progress", .null, .null, .null⟩] := by
  decide

/-- C5, amended. For every task run `T` that the adapter can read and every body that
returns a value `v` without invoking the host-call primitive, `execute(T, body)` yields
the success outcome carrying `v` and the row of `T` is stored with status `completed`.
When `v` is not `undefined`, the row takes the JSON text of `v` as result. When `v` is
`undefined` there is no JSON text: the SQLite adapter stores `NULL` as result and the
Supabase adapter leaves the result as it was. The root stack run created for `T` is the
only new stack run; it is stored with status `in_progress` and `execute` does not update
it. -/
theorem C5_returning_body_completes_task (A : Adapter) (js : JsEngine) (T : TaskRun)
    (code : String) (s : Store) (v : JsVal) (row : TaskRun)
    (hread : A.ReadableTask s T.id)
    (hrow : s.taskRun? T.id = some row)
    (hbody : js code .undefined = .ret v) :
    (TaskExecutor.execute js A.storage T code s).2 = .ok (.success v)
    ∧ (v ≠ .undefined →
        (TaskExecutor.execute js A.storage T code s).1.taskRun? T.id
          = some { row with status := "completed", result := .str (JSON.text v) })
    ∧ (v ≠ .undefined →
        (TaskExecutor.execute js A.storage T code s).1.task_runs
          = s.task_runs.map (TaskRun.updated T.id "completed" (some (JSON.text v)) none))
    ∧ (v = .undefined →
        (TaskExecutor.execute js A.storage T code s).1.taskRun? T.id
          = some (A.completedWithoutResult T.id row))
    ∧ (v = .undefined →
        (TaskExecutor.execute js A.storage T code s).1.task_runs
          = s.task_runs.map (A.completedWithoutResult T.id))
    ∧ (TaskExecutor.execute js A.storage T code s).1.stack_runs
        = s.stack_runs ++ [A.insertedRow (rootData T) s.nextStackRunId]
    ∧ (A.insertedRow (rootData T) s.nextStackRunId).status = "in_progress" := by
  have hend : (js code .undefined).ending = .ok v := by rw [hbody]; rfl
  have hcalls : (js code .undefined).calls = [] := by rw [hbody]; rfl
  have hrow2 : (A.afterBody T (js code .undefined) s).taskRun? T.id = some row := by
    unfold Store.taskRun?
    rw [afterBody_task_runs]
    exact hrow
  by_cases hv : v = .undefined
  · subst hv
    have hexec := execute_completed_void A js T code s hread hend
    have hid : ∀ r, (A.completedWithoutResult T.id r).id = r.id := by
      intro r; cases A <;> (unfold Adapter.completedWithoutResult; split <;> rfl)
    refine ⟨by rw [hexec], fun h => absurd rfl h, fun h => absurd rfl h, fun _ => ?_,
      fun _ => ?_, ?_, rootRow_status A T _⟩
    · rw [hexec]
      unfold Store.taskRun? at hrow2 ⊢
      simp only [Store.mapTaskRuns, find?_map_taskRun _ hid, hrow2, Option.map_some']
    · rw [hexec]
      simp only [Store.mapTaskRuns, afterBody_task_runs]
    · rw [hexec]
      simp only [Store.mapTaskRuns, afterBody_stack_runs, hcalls, Adapter.childRows]
  · have hexec := execute_completed A js T code s v hread hend hv
    refine ⟨by rw [hexec], fun _ => ?_, fun _ => ?_, fun h => absurd h hv,
      fun h => absurd h hv, ?_, rootRow_status A T _⟩
    · rw [hexec]
      exact taskRun?_updated _ _ _ _ _ _ hrow2
    · rw [hexec]
      simp only [Store.mapTaskRuns, afterBody_task_runs]
    · rw [hexec]
      simp only [Store.mapTaskRuns, afterBody_stack_runs, hcalls, Adapter.childRows]

/-- C5, witness: the task code `codeDone` of the scenario on the SQLite adapter. -/
theorem C5_returning_body_completes_task_witness :
    (TaskExecutor.execute Scenario.js Adapter.sqlite.storage Scenario.taskRun
        Scenario.codeDone (Scenario.store .sqlite Scenario.codeDone)).2
      = .ok (.success (.str "done")) :=
  (C5_returning_body_completes_task .sqlite Scenario.js Scenario.taskRun Scenario.codeDone
    (Scenario.store .sqlite Scenario.codeDone) (.str "done")
    { Scenario.taskRun with input := Adapter.sqlite.column Scenario.input }
    ⟨Scenario.taskRun, by decide⟩ (by decide) (by rfl)).1

/-- C6, counterexample. The task code `codeBoom` throws an error that is not the
suspension signal: `execute` throws it and the task run is stored as failed with the
error, but the root stack run of the task run is stored with status `in_progress`, not
`failed`, and carries no error. -/
theorem C6_root_is_not_failed :
    (TaskExecutor.execute Scenario.js Adapter.sqlite.storage Scenario.taskRun
        Scenario.codeBoom (Scenario.store .sqlite Scenario.codeBoom)).2
      = .error ⟨"boom", "Error: boom"⟩
    ∧ Scenario.taskView (Scenario.afterExecute .sqlite Scenario.codeBoom)
      = [⟨1, "failed", .null, .str (errorText ⟨"boom", "Error: boom"⟩)⟩]
    ∧ Scenario.stackView (Scenario.afterExecute .sqlite Scenario.codeBoom)
      = [⟨1, none, "task_init", "in_progress", .null, .null, .null⟩]
    ∧ Scenario.stackView (Scenario.afterExecute .supabase Scenario.codeBoom)
      = [⟨1, none, "task_init", "in_progress", .null, .null, .null⟩] := by
  decide

/-- C6, amended. For every task run `T` that the adapter can read and every body that
ends by throwing an error `e` other than the suspension signal, `execute` and `resume`
both throw `e` to the caller and store the row of `T` with status `failed` and an error
text that carries the message of `e`: `\x7bmessage, stack\x7d` in `execute`, `\x7bmessage\x7d`
in `resume`. No stack run is updated: the stack runs of the store keep their rows, and
the root stack run that `execute` creates is stored with status `in_progress`; the new
stack runs are that root and the children of the host calls the body made. -/
theorem C6_throwing_body_fails_task (A : Adapter) (js : JsEngine) (T : TaskRun)
    (code : String) (s : Store) (resumePayload : JsVal) (e : JsError) (row : TaskRun)
    (hread : A.ReadableTask s T.id)
    (hrow : s.taskRun? T.id = some row)
    (hexecute : (js code .undefined).ending = .error e)
    (hresume : (js code resumePayload).ending = .error e)
    (hmsg : e.message ≠ "TASK_SUSPENDED") :
    ((TaskExecutor.execute js A.storage T code s).2 = .error e
      ∧ (TaskExecutor.execute js A.storage T code s).1.taskRun? T.id
          = some { row with status := "failed", error := .str (errorText e) }
      ∧ (TaskExecutor.execute js A.storage T code s).1.stack_runs
          = s.stack_runs ++ A.insertedRow (rootData T) s.nextStackRunId
              :: A.childRows T.id (some s.nextStackRunId) (s.nextStackRunId + 1)
                  (js code .undefined).calls
      ∧ (A.insertedRow (rootData T) s.nextStackRunId).status = "in_progress")
    ∧ ((TaskExecutor.resume js A.storage T resumePayload code s).2 = .error e
      ∧ (TaskExecutor.resume js A.storage T resumePayload code s).1.taskRun? T.id
          = some { row with status := "failed", error := .str (messageText e) }
      ∧ (TaskExecutor.resume js A.storage T resumePayload code s).1.stack_runs
          = s.stack_runs ++ A.childRows T.id none s.nextStackRunId
              (js code resumePayload).calls) := by
  have h1 := execute_failed A js T code s e hread hexecute hmsg
  have h2 := resume_failed A js T resumePayload code s e hread hresume hmsg
  have hrow1 : (A.afterBody T (js code .undefined) s).taskRun? T.id = some row := by
    unfold Store.taskRun?
    rw [afterBody_task_runs]
    exact hrow
  have hrow2 : (A.afterResumedBody T (js code resumePayload) s).taskRun? T.id = some row := by
    unfold Store.taskRun?
    rw [afterResumedBody_task_runs]
    exact hrow
  refine ⟨⟨by rw [h1], ?_, ?_, rootRow_status A T _⟩, ⟨by rw [h2], ?_, ?_⟩⟩
  · rw [h1]
    exact taskRun?_updated _ _ _ _ _ _ hrow1
  · rw [h1]
    simp only [Store.mapTaskRuns, afterBody_stack_runs]
  · rw [h2]
    exact taskRun?_updated _ _ _ _ _ _ hrow2
  · rw [h2]
    simp only [Store.mapTaskRuns, afterResumedBody_stack_runs]

/-- C6, witness: the task code `codeBoom` of the scenario on the SQLite adapter. -/
theorem C6_throwing_body_fails_task_witness :
    (TaskExecutor.execute Scenario.js Adapter.sqlite.storage Scenario.taskRun
        Scenario.codeBoom (Scenario.store .sqlite Scenario.codeBoom)).2
      = .error ⟨"boom", "Error: boom"⟩
    ∧ (TaskExecutor.resume Scenario.js Adapter.sqlite.storage Scenario.taskRun .null
        Scenario.codeBoom (Scenario.store .sqlite Scenario.codeBoom)).2
      = .error ⟨"boom", "Error: boom"⟩ :=
  have h := C6_throwing_body_fails_task .sqlite Scenario.js Scenario.taskRun Scenario.codeBoom
    (Scenario.store .sqlite Scenario.codeBoom) .null ⟨"boom", "Error: boom"⟩
    { Scenario.taskRun with input := Adapter.sqlite.column Scenario.input }
    ⟨Scenario.taskRun, by decide⟩ (by decide) (by decide) (by decide) (by decide)
  ⟨h.1.1, h.2.1⟩

/-! ## Outcomes and stack runs of `execute` and `resume`, for every body -/

theorem updateTaskRun_stack_runs (A : Adapter) (id : Nat) (u : TaskRunUpdates) (s : Store) :
    (A.storage.updateTaskRun id u s).1.stack_runs = s.stack_runs := by
  cases A
  · simp only [Adapter.storage, SQLiteAdapter.storage, SQLiteAdapter.updateTaskRun]
    cases SQLiteAdapter.bindUpdate u.result with
    | error e => rfl
    | ok r =>
      cases SQLiteAdapter.bindUpdate u.error with
      | error e => rfl
      | ok e2 => rfl
  · simp only [Adapter.storage, SupabaseAdapter.storage, SupabaseAdapter.updateTaskRun]
    split <;> rfl

theorem executeCatch_stack_runs (A : Adapter) (T : TaskRun) (e : JsError) (s : Store) :
    (TaskExecutor.executeCatch A.storage T e s).1.stack_runs = s.stack_runs := by
  have h := updateTaskRun_stack_runs A T.id
    { status := some "failed", error := some (errorJSON e) } s
  unfold TaskExecutor.executeCatch
  split
  · rename_i s1 e1 heq
    rw [heq] at h
    exact h
  · rename_i s1 o heq
    rw [heq] at h
    exact h

theorem resumeCatch_stack_runs (A : Adapter) (T : TaskRun) (e : JsError) (s : Store) :
    (TaskExecutor.resumeCatch A.storage T e s).1.stack_runs = s.stack_runs := by
  have h := updateTaskRun_stack_runs A T.id
    { status := some "failed", error := some (messageJSON e) } s
  unfold TaskExecutor.resumeCatch
  split
  · rename_i s1 e1 heq
    rw [heq] at h
    exact h
  · rename_i s1 o heq
    rw [heq] at h
    exact h

theorem executeCatch_throws (A : Adapter) (T : TaskRun) (e : JsError) (s : Store) :
    ∃ e1, (TaskExecutor.executeCatch A.storage T e s).2 = .error e1 := by
  unfold TaskExecutor.executeCatch
  split
  · rename_i s1 e1 heq
    exact ⟨e1, rfl⟩
  · exact ⟨e, rfl⟩

theorem resumeCatch_throws (A : Adapter) (T : TaskRun) (e : JsError) (s : Store) :
    ∃ e1, (TaskExecutor.resumeCatch A.storage T e s).2 = .error e1 := by
  unfold TaskExecutor.resumeCatch
  split
  · rename_i s1 e1 heq
    exact ⟨e1, rfl⟩
  · exact ⟨e, rfl⟩

theorem execute_outcome (A : Adapter) (js : JsEngine) (T : TaskRun) (code : String)
    (s : Store) (hread : A.ReadableTask s T.id) :
    (TaskExecutor.execute js A.storage T code s).1.stack_runs
        = (A.afterBody T (js code .undefined) s).stack_runs
    ∧ ∀ x, (TaskExecutor.execute js A.storage T code s).2 = .ok (.suspended x) →
        x = lastSuspension T.id none (s.nextStackRunId + 1) (js code .undefined).calls := by
  cases hend : (js code .undefined).ending with
  | error e =>
    by_cases hmsg : e.message = "TASK_SUSPENDED"
    · rw [execute_suspended A js T code s e hread hend hmsg]
      refine ⟨rfl, fun x hx => ?_⟩
      simp only [Except.ok.injEq, ExecResult.suspended.injEq] at hx
      exact hx.symm
    · rw [execute_failed A js T code s e hread hend hmsg]
      exact ⟨rfl, fun x hx => by cases hx⟩
  | ok v =>
    by_cases hv : v = .undefined
    · obtain ⟨obj, hc, context1, hrun, hsd⟩ := execute_body A js T code s hread
      have hc1 : A.storage.createStackRun
          { task_run_id := T.id, operation := "task_init", status := "in_progress",
            input := T.input } s = _ := hc
      have hu := updateTaskRun_stack_runs A T.id
        { status := some "completed", result := some (JSON.stringifyVal v) }
        (A.afterBody T (js code .undefined) s)
      unfold TaskExecutor.execute
      simp only [hc1, hrun, hend]
      split
      · rename_i s3 e3 heq
        rw [heq] at hu
        obtain ⟨e1, he1⟩ := executeCatch_throws A T e3 s3
        refine ⟨by rw [executeCatch_stack_runs]; exact hu, fun x hx => ?_⟩
        rw [he1] at hx
        cases hx
      · rename_i s3 o heq
        rw [heq] at hu
        exact ⟨hu, fun x hx => by cases hx⟩
    · rw [execute_completed A js T code s v hread hend hv]
      exact ⟨rfl, fun x hx => by cases hx⟩

theorem resume_outcome (A : Adapter) (js : JsEngine) (T : TaskRun) (rp : JsVal)
    (code : String) (s : Store) (hread : A.ReadableTask s T.id) :
    (TaskExecutor.resume js A.storage T rp code s).1.stack_runs
        = (A.afterResumedBody T (js code rp) s).stack_runs
    ∧ ∀ x, (TaskExecutor.resume js A.storage T rp code s).2 = .ok (.suspended x) →
        x = lastSuspension T.id none s.nextStackRunId (js code rp).calls := by
  cases hend : (js code rp).ending with
  | error e =>
    by_cases hmsg : e.message = "TASK_SUSPENDED"
    · rw [resume_suspended A js T rp code s e hread hend hmsg]
      refine ⟨rfl, fun x hx => ?_⟩
      simp only [Except.ok.injEq, ExecResult.suspended.injEq] at hx
      exact hx.symm
    · rw [resume_failed A js T rp code s e hread hend hmsg]
      exact ⟨rfl, fun x hx => by cases hx⟩
  | ok v =>
    by_cases hv : v = .undefined
    · obtain ⟨context1, hrun, hsd⟩ := resume_body A js T rp code s hread
      have hu := updateTaskRun_stack_runs A T.id
        { status := some "completed", result := some (JSON.stringifyVal v) }
        (A.afterResumedBody T (js code rp) s)
      unfold TaskExecutor.resume
      simp only [hrun, hend]
      split
      · rename_i s3 e3 heq
        rw [heq] at hu
        obtain ⟨e1, he1⟩ := resumeCatch_throws A T e3 s3
        refine ⟨by rw [resumeCatch_stack_runs]; exact hu, fun x hx => ?_⟩
        rw [he1] at hx
        cases hx
      · rename_i s3 o heq
        rw [heq] at hu
        exact ⟨hu, fun x hx => by cases hx⟩
    · rw [resume_completed A js T rp code s v hread hend hv]
      exact ⟨rfl, fun x hx => by cases hx⟩

theorem endsAtFirstCall_calls (p : Prog) (h : p.EndsAtFirstCall) : p.calls = p.firstCall := by
  cases p with
  | ret v => rfl
  | throw e => rfl
  | callHostTool sn mp args k =>
    have hk : k suspendedError = .throw suspendedError := h suspendedError
    simp only [Prog.calls, Prog.firstCall, hk]

theorem endsAtFirstCall_ending (p : Prog) (h : p.EndsAtFirstCall) (hc : p.calls ≠ []) :
    p.ending = .error suspendedError := by
  cases p with
  | ret v => exact absurd rfl hc
  | throw e => exact absurd rfl hc
  | callHostTool sn mp args k =>
    have hk : k suspendedError = .throw suspendedError := h suspendedError
    simp only [Prog.ending, hk]

theorem firstCall_length (p : Prog) : p.firstCall.length ≤ 1 := by
  cases p <;> simp [Prog.firstCall]

/-! ## C7: the parent of a child created while resuming -/

/-- C7, at the task code `codeAlways`, which makes a host call on every run. `execute`
creates the root 1 and the child 2 with parent 1. When the child is dispatched the body
is resumed through `resume`, makes its host call again, and the child 3 is created with
no parent: `resume` builds its context without `stackRun`, so `context.stackRun?.id` is
`undefined`. The task run then has two stack runs without a parent, the root and a host
call. The same holds for `resume` called directly. -/
theorem C7_child_created_by_resume_has_no_parent :
    Scenario.stackView
        (Scenario.afterDispatch .sqlite Scenario.codeAlways Scenario.helloClient).store
      = [⟨1, none, "task_init", "suspended_waiting_child", .null, .null,
            .str "\x7b\"result\":null\x7d"⟩,
         ⟨2, some 1, "kv.get", "completed", .str "\"hello\"", .null, .null⟩,
         ⟨3, none, "kv.get", "pending", .null, .null, .null⟩]
    ∧ (Scenario.afterDispatch .sqlite Scenario.codeAlways
          Scenario.helloClient).store.stack_runs.map (fun r => (r.id, r.task_run_id))
      = [(1, 1), (2, 1), (3, 1)]
    ∧ Scenario.stackView
        (Scenario.afterDispatch .supabase Scenario.codeAlways Scenario.helloClient).store
      = [⟨1, none, "task_init", "suspended_waiting_child", .null, .null,
            .str "\x7b\"result\":null\x7d"⟩,
         ⟨2, some 1, "kv.get", "completed", .str "\"hello\"", .null, .null⟩,
         ⟨3, none, "kv.get", "pending", .null, .null, .null⟩]
    ∧ Scenario.stackView
        (TaskExecutor.resume Scenario.js Adapter.sqlite.storage Scenario.taskRun
          (.str "hello") Scenario.codeAlways
          (Scenario.afterExecute .sqlite Scenario.codeAlways)).1
      = [⟨1, none, "task_init", "in_progress", .null, .null, .null⟩,
         ⟨2, some 1, "kv.get", "pending", .null, .null, .null⟩,
         ⟨3, none, "kv.get", "pending", .null, .null, .null⟩] := by
  decide

/-! ## C8: how many children one invocation creates -/

/-- C8, counterexample. The task code `codeTwice` catches the error of its first host
call and makes a second one. One call of `execute` creates two child stack runs,
`kv.get` and `kv.put`, and the suspension data it returns names the second. -/
theorem C8_catching_body_creates_two_children :
    Scenario.stackView (Scenario.afterExecute .sqlite Scenario.codeTwice)
      = [⟨1, none, "task_init", "in_progress", .null, .null, .null⟩,
         ⟨2, some 1, "kv.get", "pending", .null, .null, .null⟩,
         ⟨3, some 1, "kv.put", "pending", .null, .null, .null⟩]
    ∧ (TaskExecutor.execute Scenario.js Adapter.sqlite.storage Scenario.taskRun
        Scenario.codeTwice (Scenario.store .sqlite Scenario.codeTwice)).2
      = .ok (.suspended (some ⟨1, 3, "kv", "put", .str "y"⟩))
    ∧ Scenario.stackView (Scenario.afterExecute .supabase Scenario.codeTwice)
      = [⟨1, none, "task_init", "in_progress", .null, .null, .null⟩,
         ⟨2, some 1, "kv.get", "pending", .null, .null, .null⟩,
         ⟨3, some 1, "kv.put", "pending", .null, .null, .null⟩] := by
  decide

/-- C8, amended. For every task run that the adapter can read and every body, one call
of `execute` or `resume` creates one child stack run for each host call the body
reaches, in the order of the calls (and `execute` its root before them); no other stack
run is created or changed. For a body that makes no host call, or that ends with the
rejection of its first host call (it returns the promise of the call, does not catch
the rejection and starts nothing else), that is at most one child, and it describes the
first host call the body reached. -/
theorem C8_one_child_per_host_call (A : Adapter) (js : JsEngine) (T : TaskRun)
    (code : String) (s : Store) (resumePayload : JsVal)
    (hread : A.ReadableTask s T.id) :
    (TaskExecutor.execute js A.storage T code s).1.stack_runs
        = s.stack_runs ++ A.insertedRow (rootData T) s.nextStackRunId
            :: A.childRows T.id (some s.nextStackRunId) (s.nextStackRunId + 1)
                (js code .undefined).calls
    ∧ (TaskExecutor.resume js A.storage T resumePayload code s).1.stack_runs
        = s.stack_runs ++ A.childRows T.id none s.nextStackRunId (js code resumePayload).calls
    ∧ ((js code .undefined).EndsAtFirstCall →
        (TaskExecutor.execute js A.storage T code s).1.stack_runs
          = s.stack_runs ++ A.insertedRow (rootData T) s.nextStackRunId
              :: A.childRows T.id (some s.nextStackRunId) (s.nextStackRunId + 1)
                  (js code .undefined).firstCall)
    ∧ ((js code resumePayload).EndsAtFirstCall →
        (TaskExecutor.resume js A.storage T resumePayload code s).1.stack_runs
          = s.stack_runs ++ A.childRows T.id none s.nextStackRunId
              (js code resumePayload).firstCall)
    ∧ (A.childRows T.id (some s.nextStackRunId) (s.nextStackRunId + 1)
          (js code .undefined).firstCall).length ≤ 1
    ∧ (A.childRows T.id none s.nextStackRunId (js code resumePayload).firstCall).length
        ≤ 1 := by
  have h1 := (execute_outcome A js T code s hread).1
  have h2 := (resume_outcome A js T resumePayload code s hread).1
  rw [afterBody_stack_runs] at h1
  rw [afterResumedBody_stack_runs] at h2
  refine ⟨h1, h2, fun hU => ?_, fun hU => ?_, ?_, ?_⟩
  · rw [h1, endsAtFirstCall_calls _ hU]
  · rw [h2, endsAtFirstCall_calls _ hU]
  · rw [childRows_length]; exact firstCall_length _
  · rw [childRows_length]; exact firstCall_length _

/-- C8, witness: the task code `codeGet` of the scenario on the SQLite adapter. -/
theorem C8_one_child_per_host_call_witness :
    (TaskExecutor.execute Scenario.js Adapter.sqlite.storage Scenario.taskRun
        Scenario.codeGet (Scenario.store .sqlite Scenario.codeGet)).1.stack_runs
      = [Adapter.sqlite.insertedRow (rootData Scenario.taskRun) 1,
         Adapter.sqlite.insertedRow (childData 1 (some 1) "kv" "get" (.str "x")) 2] :=
  (C8_one_child_per_host_call .sqlite Scenario.js Scenario.taskRun Scenario.codeGet
    (Scenario.store .sqlite Scenario.codeGet) .null ⟨Scenario.taskRun, by decide⟩).1

/-! ## C9: the suspended outcome -/

theorem lastSuspension_last (A : Adapter) (taskRunId : Nat) (parent : Option Nat) :
    ∀ (cs : List Call) (m : Nat) (init : Option SuspensionData), cs ≠ [] →
    ∃ c, cs.getLast? = some c
      ∧ lastSuspension taskRunId init m cs
          = some ⟨taskRunId, m + cs.length - 1, c.serviceName, c.methodPath, c.args⟩
      ∧ A.insertedRow (childData taskRunId parent c.serviceName c.methodPath c.args)
            (m + cs.length - 1) ∈ A.childRows taskRunId parent m cs := by
  intro cs
  induction cs with
  | nil => intro m init h; exact absurd rfl h
  | cons c rest ih =>
    intro m init _
    cases rest with
    | nil =>
      refine ⟨c, rfl, ?_, ?_⟩
      · simp [lastSuspension]
      · simp [Adapter.childRows]
    | cons c2 rest2 =>
      obtain ⟨c3, h1, h2, h3⟩ := ih (m + 1)
        (some ⟨taskRunId, m, c.serviceName, c.methodPath, c.args⟩) (by simp)
      have hlen : m + 1 + (c2 :: rest2).length - 1 = m + (c :: c2 :: rest2).length - 1 := by
        simp only [List.length_cons]; omega
      rw [hlen] at h2 h3
      refine ⟨c3, ?_, ?_, ?_⟩
      · rw [List.getLast?_cons_cons]; exact h1
      · rw [lastSuspension]; exact h2
      · rw [Adapter.childRows]
        exact List.mem_cons_of_mem _ h3

theorem lastSuspension_nil (taskRunId : Nat) (init : Option SuspensionData) (m : Nat) :
    lastSuspension taskRunId init m [] = init := rfl

/-- C9, counterexample. The task code `codeFake` throws its own error with the message
`TASK_SUSPENDED` and never invokes the host-call primitive: `execute` returns a
suspended outcome whose `suspensionData` is `null`, and no child stack run exists. The
task code `codeCatch` invokes the primitive and catches its error: the outcome is
success, not suspended. -/
theorem C9_suspended_without_host_call :
    (TaskExecutor.execute Scenario.js Adapter.sqlite.storage Scenario.taskRun
        Scenario.codeFake (Scenario.store .sqlite Scenario.codeFake)).2
      = .ok (.suspended none)
    ∧ (Scenario.js Scenario.codeFake .undefined).calls = []
    ∧ Scenario.stackView (Scenario.afterExecute .sqlite Scenario.codeFake)
      = [⟨1, none, "task_init", "in_progress", .null, .null, .null⟩]
    ∧ (Scenario.js Scenario.codeCatch .undefined).calls = [⟨"kv", "get", .str "x"⟩]
    ∧ (TaskExecutor.execute Scenario.js Adapter.sqlite.storage Scenario.taskRun
        Scenario.codeCatch (Scenario.store .sqlite Scenario.codeCatch)).2
      = .ok (.success (.num 5))
    ∧ (TaskExecutor.resume Scenario.js Adapter.supabase.storage Scenario.taskRun .null
        Scenario.codeFake (Scenario.store .supabase Scenario.codeFake)).2
      = .ok (.suspended none) := by
  decide

/-- C9, amended. For every task run that the adapter can read and every body: whenever
`execute` or `resume` returns a suspended outcome whose `suspensionData` is not `null`,
the body invoked the host-call primitive during that invocation, and the data carries
the task run id, the id of the child stack run created in the store for the last host
call of the body, and that call's service name, method path and arguments. Conversely,
whenever the body invoked the primitive and ends with the rejection of that first call
(it returns the promise of the call, does not catch the rejection and starts nothing
else), the outcome is suspended with such data. (A suspended outcome with `null` data,
and the outcome of a body that catches the rejection or goes on without waiting for the
promise, are left out.) -/
theorem C9_suspension_data_names_last_child (A : Adapter) (js : JsEngine) (T : TaskRun)
    (code : String) (s : Store) (resumePayload : JsVal)
    (hread : A.ReadableTask s T.id) :
    (∀ d, (TaskExecutor.execute js A.storage T code s).2 = .ok (.suspended (some d)) →
      ∃ c, (js code .undefined).calls.getLast? = some c
        ∧ d = ⟨T.id, s.nextStackRunId + (js code .undefined).calls.length, c.serviceName,
                c.methodPath, c.args⟩
        ∧ A.insertedRow (childData T.id (some s.nextStackRunId) c.serviceName c.methodPath
              c.args) d.childStackRunId
            ∈ (TaskExecutor.execute js A.storage T code s).1.stack_runs)
    ∧ ((js code .undefined).EndsAtFirstCall → (js code .undefined).calls ≠ [] →
        ∃ d, (TaskExecutor.execute js A.storage T code s).2 = .ok (.suspended (some d)))
    ∧ (∀ d, (TaskExecutor.resume js A.storage T resumePayload code s).2
          = .ok (.suspended (some d)) →
      ∃ c, (js code resumePayload).calls.getLast? = some c
        ∧ d = ⟨T.id, s.nextStackRunId + (js code resumePayload).calls.length - 1,
                c.serviceName, c.methodPath, c.args⟩
        ∧ A.insertedRow (childData T.id none c.serviceName c.methodPath c.args)
              d.childStackRunId
            ∈ (TaskExecutor.resume js A.storage T resumePayload code s).1.stack_runs)
    ∧ ((js code resumePayload).EndsAtFirstCall → (js code resumePayload).calls ≠ [] →
        ∃ d, (TaskExecutor.resume js A.storage T resumePayload code s).2
          = .ok (.suspended (some d))) := by
  obtain ⟨hs1, ho1⟩ := execute_outcome A js T code s hread
  obtain ⟨hs2, ho2⟩ := resume_outcome A js T resumePayload code s hread
  rw [afterBody_stack_runs] at hs1
  rw [afterResumedBody_stack_runs] at hs2
  refine ⟨fun d hd => ?_, fun hU hc => ?_, fun d hd => ?_, fun hU hc => ?_⟩
  · have hx := ho1 _ hd
    by_cases hc : (js code .undefined).calls = []
    · rw [hc, lastSuspension_nil] at hx
      cases hx
    · obtain ⟨c, h1, h2, h3⟩ := lastSuspension_last A T.id (some s.nextStackRunId)
        (js code .undefined).calls (s.nextStackRunId + 1) none hc
      rw [h2] at hx
      injection hx with hx
      have hidx : s.nextStackRunId + 1 + (js code .undefined).calls.length - 1
          = s.nextStackRunId + (js code .undefined).calls.length := by omega
      rw [hidx] at h3
      refine ⟨c, h1, ?_, ?_⟩
      · rw [hx, hidx]
      · rw [hs1, hx, hidx]
        exact List.mem_append_right _ (List.mem_cons_of_mem _ h3)
  · have hend := endsAtFirstCall_ending _ hU hc
    obtain ⟨c, -, h2, -⟩ := lastSuspension_last A T.id (some s.nextStackRunId)
      (js code .undefined).calls (s.nextStackRunId + 1) none hc
    exact ⟨_, by rw [execute_suspended A js T code s suspendedError hread hend rfl, h2]⟩
  · have hx := ho2 _ hd
    by_cases hc : (js code resumePayload).calls = []
    · rw [hc, lastSuspension_nil] at hx
      cases hx
    · obtain ⟨c, h1, h2, h3⟩ := lastSuspension_last A T.id none
        (js code resumePayload).calls s.nextStackRunId none hc
      rw [h2] at hx
      injection hx with hx
      refine ⟨c, h1, hx, ?_⟩
      rw [hs2, hx]
      exact List.mem_append_right _ h3
  · have hend := endsAtFirstCall_ending _ hU hc
    obtain ⟨c, -, h2, -⟩ := lastSuspension_last A T.id none
      (js code resumePayload).calls s.nextStackRunId none hc
    exact ⟨_, by rw [resume_suspended A js T resumePayload code s suspendedError hread hend rfl,
      h2]⟩

/-- C9, witness: the task code `codeGet` of the scenario on the SQLite adapter is
suspended with the data of its host call. -/
theorem C9_suspension_data_names_last_child_witness :
    ∃ d, (TaskExecutor.execute Scenario.js Adapter.sqlite.storage Scenario.taskRun
        Scenario.codeGet (Scenario.store .sqlite Scenario.codeGet)).2
      = .ok (.suspended (some d)) :=
  (C9_suspension_data_names_last_child .sqlite Scenario.js Scenario.taskRun Scenario.codeGet
    (Scenario.store .sqlite Scenario.codeGet) .null ⟨Scenario.taskRun, by decide⟩).2.1
    (by intro e; rfl) (by decide)

/-! ## C10: result and error of a task run in a terminal status -/

/-- C10, counterexample. With the Supabase adapter the task code `codeVoid`, which
returns `undefined`, is run for a task run that has neither result nor error: `execute`
yields success and the task run is stored with status `completed`, and neither `result`
nor `error` is set. `JSON.stringify(undefined)` is `undefined`, and a property whose
value is `undefined` is not sent with the update. -/
theorem C10_completed_without_result :
    (TaskExecutor.execute Scenario.js Adapter.supabase.storage Scenario.taskRun
        Scenario.codeVoid (Scenario.store .supabase Scenario.codeVoid)).2
      = .ok (.success .undefined)
    ∧ Scenario.taskView (Scenario.store .supabase Scenario.codeVoid)
      = [⟨1, "pending", .null, .null⟩]
    ∧ Scenario.taskView (Scenario.afterExecute .supabase Scenario.codeVoid)
      = [⟨1, "completed", .null, .null⟩]
    ∧ Scenario.taskView
        (TaskExecutor.resume Scenario.js Adapter.supabase.storage Scenario.taskRun .null
          Scenario.codeVoid (Scenario.store .supabase Scenario.codeVoid)).1
      = [⟨1, "completed", .null, .null⟩] := by
  decide

theorem exactlyOneSet_of_ending (out : Store × Except JsError ExecResult) (s0 : Store)
    (id : Nat) (row : TaskRun) (ending : Except JsError JsVal) (x : Option SuspensionData)
    (errText : JsError → String)
    (hrow : s0.taskRun? id = some row) (hres : row.result = .null) (herr : row.error = .null)
    (hjson : ending ≠ .ok .undefined)
    (h1 : ∀ e, ending = .error e → e.message = "TASK_SUSPENDED" →
      out = (s0, .ok (.suspended x)))
    (h2 : ∀ e, ending = .error e → e.message ≠ "TASK_SUSPENDED" →
      out = (s0.mapTaskRuns (TaskRun.updated id "failed" none (some (errText e))),
              .error e))
    (h3 : ∀ v, ending = .ok v → v ≠ .undefined →
      out = (s0.mapTaskRuns (TaskRun.updated id "completed" (some (JSON.text v)) none),
              .ok (.success v))) :
    ExactlyOneSet out id row := by
  cases hend : ending with
  | error e =>
    by_cases hmsg : e.message = "TASK_SUSPENDED"
    · rw [h1 e hend hmsg]
      exact hrow
    · rw [h2 e hend hmsg]
      refine ⟨_, taskRun?_updated _ _ _ _ _ _ hrow, rfl, ?_, ?_⟩
      · simp
      · simpa using hres
  | ok v =>
    have hv : v ≠ .undefined := fun h => hjson (by rw [hend, h])
    rw [h3 v hend hv]
    refine ⟨_, taskRun?_updated _ _ _ _ _ _ hrow, rfl, ?_, ?_⟩
    · simp
    · simpa using herr

/-- C10, amended. For every task run that the adapter can read and that starts with
neither result nor error set, and every body that does not end by returning `undefined`:
after `execute` or `resume` has moved the task run to a terminal status, exactly one of
result and error is set on its row. When the call returns success the row has status
`completed`, a result and no error; when the call throws the row has status `failed`, an
error and no result; when the call suspends the row is unchanged. A column is set when
it is not `NULL`. -/
theorem C10_exactly_one_of_result_and_error (A : Adapter) (js : JsEngine) (T : TaskRun)
    (code : String) (s : Store) (resumePayload : JsVal) (row : TaskRun)
    (hread : A.ReadableTask s T.id)
    (hrow : s.taskRun? T.id = some row)
    (hres : row.result = .null)
    (herr : row.error = .null)
    (hexecute : (js code .undefined).ending ≠ .ok .undefined)
    (hresume : (js code resumePayload).ending ≠ .ok .undefined) :
    ExactlyOneSet (TaskExecutor.execute js A.storage T code s) T.id row
    ∧ ExactlyOneSet (TaskExecutor.resume js A.storage T resumePayload code s) T.id row := by
  have hrow1 : (A.afterBody T (js code .undefined) s).taskRun? T.id = some row := by
    unfold Store.taskRun?
    rw [afterBody_task_runs]
    exact hrow
  have hrow2 : (A.afterResumedBody T (js code resumePayload) s).taskRun? T.id = some row := by
    unfold Store.taskRun?
    rw [afterResumedBody_task_runs]
    exact hrow
  constructor
  · exact exactlyOneSet_of_ending _ _ T.id row (js code .undefined).ending _ errorText hrow1
      hres herr hexecute
      (fun e he hm => execute_suspended A js T code s e hread he hm)
      (fun e he hm => execute_failed A js T code s e hread he hm)
      (fun v he hv => execute_completed A js T code s v hread he hv)
  · exact exactlyOneSet_of_ending _ _ T.id row (js code resumePayload).ending _ messageText
      hrow2 hres herr hresume
      (fun e he hm => resume_suspended A js T resumePayload code s e hread he hm)
      (fun e he hm => resume_failed A js T resumePayload code s e hread he hm)
      (fun v he hv => resume_completed A js T resumePayload code s v hread he hv)

/-- C10, witness: the task code `codeDone` of the scenario on the Supabase adapter. -/
theorem C10_exactly_one_of_result_and_error_witness :
    ExactlyOneSet
        (TaskExecutor.execute Scenario.js Adapter.supabase.storage Scenario.taskRun
          Scenario.codeDone (Scenario.store .supabase Scenario.codeDone)) 1
        { Scenario.taskRun with input := Adapter.supabase.column Scenario.input }
    ∧ ExactlyOneSet
        (TaskExecutor.resume Scenario.js Adapter.supabase.storage Scenario.taskRun .null
          Scenario.codeDone (Scenario.store .supabase Scenario.codeDone)) 1
        { Scenario.taskRun with input := Adapter.supabase.column Scenario.input } :=
  C10_exactly_one_of_result_and_error .supabase Scenario.js Scenario.taskRun Scenario.codeDone
    (Scenario.store .supabase Scenario.codeDone) .null
    { Scenario.taskRun with input := Adapter.supabase.column Scenario.input }
    ⟨{ Scenario.taskRun with input := Adapter.supabase.column Scenario.input }, by decide⟩
    (by decide) (by decide) (by decide) (by decide) (by decide)

/-! ## Stack runs stay readable through a dispatch pass -/

theorem readableStack_iff (A : Adapter) (s : Store) (id : Nat) :
    A.ReadableStack s id ↔ ∃ row, s.stackRun? id = some row ∧ A.Parses row := by
  cases A
  · exact readableStack_sqlite s id
  · rw [readableStack_supabase]
    exact ⟨fun ⟨row, h⟩ => ⟨row, h, trivial⟩, fun ⟨row, h, _⟩ => ⟨row, h⟩⟩

theorem step_refl (A : Adapter) (ids : List Nat) (s : Store) : A.Step ids s s :=
  ⟨id, [], by simp, fun _ => rfl, fun _ h => h, fun _ _ => rfl⟩

theorem step_of_eq (A : Adapter) (ids : List Nat) (s s1 : Store)
    (h : s1.stack_runs = s.stack_runs) : A.Step ids s s1 :=
  ⟨id, [], by simp [h], fun _ => rfl, fun _ h => h, fun _ _ => rfl⟩

theorem step_trans (A : Adapter) (ids1 ids2 ids : List Nat) (s s1 s2 : Store)
    (h1 : A.Step ids1 s s1) (h2 : A.Step ids2 s1 s2)
    (hs1 : ∀ i ∈ ids1, i ∈ ids) (hs2 : ∀ i ∈ ids2, i ∈ ids) : A.Step ids s s2 := by
  obtain ⟨f, e1, hf, hid1, hp1, ho1⟩ := h1
  obtain ⟨g, e2, hg, hid2, hp2, ho2⟩ := h2
  refine ⟨g ∘ f, e1.map g ++ e2, ?_, ?_, ?_, ?_⟩
  · rw [hg, hf]; simp
  · intro r; simp only [Function.comp]; rw [hid2, hid1]
  · intro r hr; exact hp2 _ (hp1 _ hr)
  · intro r hr
    have hr1 : r.id ∉ ids1 := fun h => hr (hs1 _ h)
    have hr2 : r.id ∉ ids2 := fun h => hr (hs2 _ h)
    simp only [Function.comp]
    rw [ho1 r hr1, ho2 r hr2]

theorem step_find (A : Adapter) (ids : List Nat) (s s1 : Store) (h : A.Step ids s s1)
    (id : Nat) (row : StackRun) (hrow : s.stackRun? id = some row) :
    ∃ row1, s1.stackRun? id = some row1 ∧ (A.Parses row → A.Parses row1)
      ∧ (id ∉ ids → row1 = row) := by
  obtain ⟨f, e1, hf, hid, hp, ho⟩ := h
  refine ⟨f row, ?_, hp row, ?_⟩
  · unfold Store.stackRun? at hrow ⊢
    rw [hf, List.find?_append, find?_map_stackRun f hid, hrow]
    rfl
  · intro hn
    have : row.id = id := by
      have := List.find?_some hrow
      simpa using this
    exact ho row (by rw [this]; exact hn)

theorem step_readable (A : Adapter) (ids : List Nat) (s s1 : Store) (h : A.Step ids s s1)
    (id : Nat) (hr : A.ReadableStack s id) : A.ReadableStack s1 id := by
  obtain ⟨row, hrow, hp⟩ := (readableStack_iff A s id).mp hr
  obtain ⟨row1, h1, hp1, -⟩ := step_find A ids s s1 h id row hrow
  exact (readableStack_iff A s1 id).mpr ⟨row1, h1, hp1 hp⟩

theorem step_keeps (A : Adapter) (ids : List Nat) (s s1 : Store) (h : A.Step ids s s1)
    (id : Nat) (row : StackRun) (hid : id ∉ ids) (hrow : s.stackRun? id = some row) :
    s1.stackRun? id = some row := by
  obtain ⟨row1, h1, -, he⟩ := step_find A ids s s1 h id row hrow
  rw [h1, he hid]

theorem stringifyVal_cases (v : JsVal) :
    JSON.stringifyVal v = .undefined ∨ JSON.stringifyVal v = .str (JSON.text v) := by
  by_cases hv : v = .undefined
  · left; subst hv; rfl
  · right; exact SQLiteAdapter.stringifyVal_eq v hv

theorem sqlite_bindUpdate_json (x : Option JsVal) :
    ∃ b : Option JsVal, SQLiteAdapter.bindUpdate (x.map JSON.stringifyVal) = .ok b
      ∧ ∀ u, b = some u → u = .null ∨ ∃ v, u = .str (JSON.text v) := by
  cases x with
  | none => exact ⟨none, rfl, fun u hu => by cases hu⟩
  | some v =>
    rcases stringifyVal_cases v with h | h
    · refine ⟨some .null, ?_, fun u hu => Or.inl (by injection hu with hu; exact hu.symm)⟩
      simp only [Option.map_some', h]; rfl
    · refine ⟨some (.str (JSON.text v)), ?_,
        fun u hu => Or.inr ⟨v, by injection hu with hu; exact hu.symm⟩⟩
      simp only [Option.map_some', h]; rfl

theorem parseColumn_bound (b : Option JsVal) (old : JsVal)
    (hb : ∀ u, b = some u → u = .null ∨ ∃ v, u = .str (JSON.text v))
    (hold : ∃ w, SQLiteAdapter.parseColumn old = .ok w) :
    ∃ w, SQLiteAdapter.parseColumn (b.getD old) = .ok w := by
  cases b with
  | none => exact hold
  | some u =>
    rcases hb u rfl with h | ⟨v, h⟩
    · subst h; exact ⟨.null, rfl⟩
    · subst h; exact SQLiteAdapter.parseColumn_text v

theorem parses_sqlite_set (id : Nat) (st : String) (r e p : Option JsVal)
    (hr : ∀ u, r = some u → u = .null ∨ ∃ v, u = .str (JSON.text v))
    (he : ∀ u, e = some u → u = .null ∨ ∃ v, u = .str (JSON.text v))
    (hp : ∀ u, p = some u → u = .null ∨ ∃ v, u = .str (JSON.text v)) (row : StackRun)
    (h : Adapter.sqlite.Parses row) :
    Adapter.sqlite.Parses (SQLiteAdapter.setStackRun id (some st) r e p row) := by
  obtain ⟨t, ht⟩ := h
  obtain ⟨p1, p2, p3, p4⟩ := SQLiteAdapter._parseStackRun_inv row t ht
  unfold SQLiteAdapter.setStackRun
  split
  · obtain ⟨t2, ht2, -⟩ := SQLiteAdapter._parseStackRun_ok
      { row with status := (some st).getD row.status, result := r.getD row.result,
                 error := e.getD row.error,
                 resume_payload := p.getD row.resume_payload }
      p1 (parseColumn_bound r _ hr p2) (parseColumn_bound e _ he p3)
      (parseColumn_bound p _ hp p4)
    exact ⟨t2, ht2⟩
  · exact ⟨t, ht⟩

theorem updateStackRun_step (A : Adapter) (id : Nat) (st : String) (r e p : Option JsVal)
    (s : Store) :
    A.Step [id] s (A.storage.updateStackRun id
      { status := some st, result := r.map JSON.stringifyVal,
        error := e.map JSON.stringifyVal, resume_payload := p.map JSON.stringifyVal } s).1 := by
  cases A
  · simp only [Adapter.storage, SQLiteAdapter.storage, SQLiteAdapter.updateStackRun]
    obtain ⟨br, h1, hbr⟩ := sqlite_bindUpdate_json r
    obtain ⟨be, h2, hbe⟩ := sqlite_bindUpdate_json e
    obtain ⟨bp, h3, hbp⟩ := sqlite_bindUpdate_json p
    simp only [h1, h2, h3]
    refine ⟨SQLiteAdapter.setStackRun id (some st) br be bp, [], by simp, ?_,
      parses_sqlite_set id st br be bp hbr hbe hbp, ?_⟩
    · intro row; unfold SQLiteAdapter.setStackRun; split <;> rfl
    · intro row hrow
      have : row.id ≠ id := by simpa using hrow
      simp [SQLiteAdapter.setStackRun, this]
  · simp only [Adapter.storage, SupabaseAdapter.storage, SupabaseAdapter.updateStackRun]
    have hs : ∀ u : StackRunUpdates, Adapter.supabase.Step [id] s
        { s with stack_runs := s.stack_runs.map (SupabaseAdapter.setStackRun id u) } := by
      intro u
      refine ⟨SupabaseAdapter.setStackRun id u, [], by simp, ?_, fun _ _ => trivial, ?_⟩
      · intro row; unfold SupabaseAdapter.setStackRun; split <;> rfl
      · intro row hrow
        have : row.id ≠ id := by simpa using hrow
        simp [SupabaseAdapter.setStackRun, this]
    split
    · exact hs _
    · exact hs _

theorem createStackRun_step (A : Adapter) (d : StackRunData) (s : Store) :
    A.Step [] s (A.storage.createStackRun d s).1 := by
  have happ : ∀ (row : StackRun) (q : Nat), A.Step []
      s { s with stack_runs := s.stack_runs ++ [row], stack_seq := q } :=
    fun row q => ⟨id, [row], by simp, fun _ => rfl, fun _ h => h, fun _ _ => rfl⟩
  cases A
  · simp only [Adapter.storage, SQLiteAdapter.storage, SQLiteAdapter.createStackRun]
    split
    · exact step_refl _ _ _
    split
    · exact step_refl _ _ _
    split
    · exact step_refl _ _ _
    split
    · exact happ _ _
    · exact step_refl _ _ _
  · simp only [Adapter.storage, SupabaseAdapter.storage, SupabaseAdapter.createStackRun]
    split
    · exact happ _ _
    · exact step_refl _ _ _

theorem runProg_step (A : Adapter) (p : Prog) : ∀ (context : Context) (s : Store),
    A.Step [] s (TaskExecutor.runProg A.storage p context s).1 := by
  induction p with
  | ret v => intro context s; exact step_refl _ _ _
  | throw e => intro context s; exact step_refl _ _ _
  | callHostTool serviceName methodPath args k ih =>
    intro context s
    have hc := createStackRun_step A
      { task_run_id := context.taskRun.id,
        parent_stack_run_id := context.stackRun.map (fun r => r.id),
        operation := serviceName ++ "." ++ methodPath,
        status := "pending",
        input := .obj [("serviceName", .str serviceName), ("methodPath", .str methodPath),
                       ("args", args)] } s
    rw [TaskExecutor.runProg]
    split
    · rename_i s1 e heq
      rw [heq] at hc
      exact step_trans A [] [] [] _ _ _ hc (ih e context s1) (fun _ h => h) (fun _ h => h)
    · rename_i s1 obj heq
      rw [heq] at hc
      exact step_trans A [] [] [] _ _ _ hc (ih suspendedError _ s1) (fun _ h => h) (fun _ h => h)

theorem resume_step (A : Adapter) (js : JsEngine) (T : TaskRun) (rp : JsVal) (code : String)
    (s : Store) : A.Step [] s (TaskExecutor.resume js A.storage T rp code s).1 := by
  have hrun := runProg_step A (js code rp)
    { taskRun := T, stackRun := none, suspended := false, suspensionData := none } s
  rcases hx : TaskExecutor.runProg A.storage (js code rp)
    { taskRun := T, stackRun := none, suspended := false, suspensionData := none } s
    with ⟨s2, context1, res⟩
  rw [hx] at hrun
  simp only [TaskExecutor.resume, TaskExecutor._executeCode, hx]
  cases res with
  | error error =>
    simp only []
    split
    · exact hrun
    · exact step_trans A [] [] [] _ _ _ hrun
        (step_of_eq A [] _ _ (resumeCatch_stack_runs A T error s2)) (fun _ h => h) (fun _ h => h)
  | ok result =>
    simp only []
    have hu := updateTaskRun_stack_runs A T.id
      { status := some "completed", result := some (JSON.stringifyVal result) } s2
    split
    · rename_i s3 e3 heq3
      rw [heq3] at hu
      refine step_trans A [] [] [] _ _ _ hrun (step_of_eq A [] _ _ ?_) (fun _ h => h) (fun _ h => h)
      rw [resumeCatch_stack_runs]; exact hu
    · rename_i s3 o heq3
      rw [heq3] at hu
      exact step_trans A [] [] [] _ _ _ hrun (step_of_eq A [] _ _ hu) (fun _ h => h) (fun _ h => h)

theorem _parseStackRun_fields (row t : StackRun) (h : SQLiteAdapter._parseStackRun row = .ok t) :
    t.id = row.id ∧ t.status = row.status
      ∧ t.parent_stack_run_id = row.parent_stack_run_id := by
  obtain ⟨p1, p2, p3, p4⟩ := SQLiteAdapter._parseStackRun_inv row t h
  obtain ⟨a, ha⟩ := p1
  obtain ⟨b, hb⟩ := p2
  obtain ⟨c, hc⟩ := p3
  obtain ⟨d, hd⟩ := p4
  simp only [SQLiteAdapter._parseStackRun, ha, hb, hc, hd, Except.ok.injEq] at h
  subst h
  exact ⟨rfl, rfl, rfl⟩

theorem getStackRun_fst (A : Adapter) (id : Nat) (s : Store) :
    (A.storage.getStackRun id s).1 = s := by
  cases A <;> rfl

theorem getTaskRun_fst (A : Adapter) (id : Nat) (s : Store) :
    (A.storage.getTaskRun id s).1 = s := by
  cases A <;> rfl

theorem getTaskFunction_fst (A : Adapter) (identifier : String) (s : Store) :
    (A.storage.getTaskFunction identifier s).1 = s := by
  cases A
  · simp only [Adapter.storage, SQLiteAdapter.storage, SQLiteAdapter.getTaskFunction]
    split
    · rfl
    · split <;> rfl
  · rfl

theorem getStackRun_id (A : Adapter) (id : Nat) (s : Store) (obj : StackRun)
    (h : (A.storage.getStackRun id s).2 = .ok (some obj)) : obj.id = id := by
  cases A
  · simp only [Adapter.storage, SQLiteAdapter.storage, SQLiteAdapter.getStackRun,
      SQLiteAdapter._getStackRunById] at h
    cases hf : s.stack_runs.find? (fun r => r.id == id) with
    | none => simp [hf] at h
    | some row =>
      simp only [hf] at h
      cases hp : SQLiteAdapter._parseStackRun row with
      | error e => simp [hp, Except.map] at h
      | ok t =>
        simp only [hp, Except.map, Except.ok.injEq, Option.some.injEq] at h
        subst h
        rw [(_parseStackRun_fields row t hp).1]
        simpa using List.find?_some hf
  · simp only [Adapter.storage, SupabaseAdapter.storage, SupabaseAdapter.getStackRun,
      Except.ok.injEq] at h
    simpa using List.find?_some h

theorem _resumeParentTask_step (A : Adapter) (js : JsEngine) (c : StackRun) (s : Store) :
    A.Step c.parent_stack_run_id.toList s (StackProcessor._resumeParentTask js A.storage c s).1 := by
  unfold StackProcessor._resumeParentTask
  cases hpar : c.parent_stack_run_id with
  | none => exact step_refl _ _ _
  | some pid =>
    simp only [Option.toList]
    rcases hg : A.storage.getStackRun pid s with ⟨s1, r1⟩
    have hs1 : s1 = s := by have := getStackRun_fst A pid s; rw [hg] at this; exact this
    subst hs1
    rcases r1 with e | _ | parent
    · exact step_refl _ _ _
    · exact step_refl _ _ _
    have hpid : parent.id = pid := getStackRun_id A pid s1 parent (by rw [hg])
    simp only []
    rcases ht : A.storage.getTaskRun c.task_run_id s1 with ⟨s2, r2⟩
    have hs2 : s2 = s1 := by have := getTaskRun_fst A c.task_run_id s1; rw [ht] at this; exact this
    subst hs2
    rcases r2 with e | _ | taskRun
    · exact step_refl _ _ _
    · exact step_refl _ _ _
    simp only []
    have hu := updateStackRun_step A parent.id "suspended_waiting_child" none none
      (some (.obj [("result", c.result)])) s2
    rw [hpid] at hu
    rcases hupd : A.storage.updateStackRun parent.id
        { status := some "suspended_waiting_child",
          resume_payload := some (JSON.stringifyVal (.obj [("result", c.result)])) } s2
      with ⟨s3, r3⟩
    have hu3 : A.Step [pid] s2 s3 := by
      have h2 : (A.storage.updateStackRun parent.id
        { status := some "suspended_waiting_child",
          resume_payload := some (JSON.stringifyVal (.obj [("result", c.result)])) } s2).1 = s3 := by
        rw [hupd]
      rw [← h2, hpid]; exact hu
    rcases r3 with e | o
    · exact hu3
    simp only []
    rcases hf : A.storage.getTaskFunction taskRun.task_identifier s3 with ⟨s4, r4⟩
    have hs4 : s4 = s3 := by
      have := getTaskFunction_fst A taskRun.task_identifier s3; rw [hf] at this; exact this
    subst hs4
    rcases r4 with e | _ | taskFunction
    · exact hu3
    · exact hu3
    simp only []
    cases hrp : StackProcessor.resumePayloadOf c with
    | error e => exact hu3
    | ok resumePayload =>
      simp only []
      have hr := resume_step A js taskRun resumePayload taskFunction.code s4
      rcases hres : TaskExecutor.resume js A.storage taskRun resumePayload taskFunction.code s4
        with ⟨s5, r5⟩
      rw [hres] at hr
      have h5 : A.Step [pid] s2 s5 :=
        step_trans A [pid] [] [pid] _ _ _ hu3 hr (fun _ h => h) (fun _ h => by cases h)
      cases r5 <;> exact h5

theorem destructure_ok (input a b c : JsVal)
    (h : StackProcessor.destructure input = .ok (a, b, c)) :
    a = input.get "serviceName" ∧ b = input.get "methodPath" ∧ c = input.get "args" := by
  cases input <;> simp [StackProcessor.destructure] at h <;>
    exact ⟨h.1.symm, h.2.1.symm, h.2.2.symm⟩

theorem processStackRunTry_step (A : Adapter) (js : JsEngine) (client : ServiceClient)
    (r : StackRun) (w : World) :
    A.Step (r.id :: r.parent_stack_run_id.toList) w.store
        (StackProcessor.processStackRunTry js A.storage client r w).1.store
      ∧ ((StackProcessor.processStackRunTry js A.storage client r w).1.calls = w.calls
          ∨ (StackProcessor.processStackRunTry js A.storage client r w).1.calls
              = w.calls ++ [StackProcessor.hostCallOf r]) := by
  unfold StackProcessor.processStackRunTry
  split
  · exact ⟨step_refl _ _ _, Or.inl rfl⟩
  have hu1 := updateStackRun_step A r.id "in_progress" none none none w.store
  rcases h1 : A.storage.updateStackRun r.id { status := some "in_progress" } w.store
    with ⟨s1, r1⟩
  have hs1 : A.Step [r.id] w.store s1 := by
    have : (A.storage.updateStackRun r.id { status := some "in_progress" } w.store).1 = s1 := by
      rw [h1]
    rw [← this]; exact hu1
  have hs1' : A.Step (r.id :: r.parent_stack_run_id.toList) w.store s1 :=
    step_trans A [r.id] [] _ _ _ _ hs1 (step_refl _ _ _) (fun i h => by simp at h; simp [h])
      (fun _ h => by cases h)
  rcases r1 with e | o
  · exact ⟨hs1', Or.inl rfl⟩
  simp only []
  cases hd : StackProcessor.destructure r.input with
  | error e => exact ⟨hs1', Or.inl rfl⟩
  | ok t =>
    obtain ⟨serviceName, methodPath, args⟩ := t
    obtain ⟨e1, e2, e3⟩ := destructure_ok _ _ _ _ hd
    have hcall : ({ serviceName := serviceName, methodPath := methodPath, args := args }
        : HostCall) = StackProcessor.hostCallOf r := by
      rw [e1, e2, e3]; rfl
    simp only [hcall]
    cases hc : client serviceName methodPath args with
    | error e => exact ⟨hs1', Or.inr rfl⟩
    | ok result =>
      simp only []
      have hu2 := updateStackRun_step A r.id "completed" (some result) none none s1
      rcases h2 : A.storage.updateStackRun r.id
          { status := some "completed", result := some (JSON.stringifyVal result) } s1
        with ⟨s2, r2⟩
      have hs2 : A.Step [r.id] s1 s2 := by
        have : (A.storage.updateStackRun r.id
          { status := some "completed", result := some (JSON.stringifyVal result) } s1).1 = s2 := by
          rw [h2]
        rw [← this]; exact hu2
      have hs2' : A.Step (r.id :: r.parent_stack_run_id.toList) w.store s2 :=
        step_trans A [r.id] [r.id] _ _ _ _ hs1 hs2 (fun i h => by simp at h; simp [h])
          (fun i h => by simp at h; simp [h])
      rcases r2 with e | o2
      · exact ⟨hs2', Or.inr rfl⟩
      simp only []
      split
      · have hp := _resumeParentTask_step A js r s2
        rcases h3 : StackProcessor._resumeParentTask js A.storage r s2 with ⟨s3, r3⟩
        rw [h3] at hp
        refine ⟨?_, Or.inr rfl⟩
        exact step_trans A _ _ _ _ _ _ hs2' hp (fun _ h => h) (fun i h => by simp [h])
      · exact ⟨hs2', Or.inr rfl⟩

theorem thrownJSON_ok (t : Thrown) (h1 : t ≠ .val .null) (h2 : t ≠ .val .undefined) :
    StackProcessor.thrownJSON t = .ok (.str (thrownText t)) := by
  cases t with
  | err e => rfl
  | val v => cases v <;> first | exact absurd rfl h1 | exact absurd rfl h2 | rfl

theorem thrownJSON_cases (t : Thrown) :
    StackProcessor.thrownJSON t = .error StackProcessor.nullPropertyError ∨ ∃ v, StackProcessor.thrownJSON t = .ok (JSON.stringifyVal v) := by
  cases t with
  | err e => exact Or.inr ⟨_, rfl⟩
  | val v => cases v <;> first | exact Or.inl rfl | exact Or.inr ⟨_, rfl⟩

theorem processStackRunTry_thrown (js : JsEngine) (storage : StorageAdapter)
    (client : ServiceClient) (r : StackRun) (w w2 : World) (v : JsVal)
    (h : StackProcessor.processStackRunTry js storage client r w = (w2, .error (.val v))) :
    ∃ a b c, client a b c = .error (.val v) := by
  unfold StackProcessor.processStackRunTry at h
  split at h
  · cases h
  rcases h1 : storage.updateStackRun r.id { status := some "in_progress" } w.store with ⟨s1, r1⟩
  simp only [h1] at h
  rcases r1 with e | o
  · simp at h
  simp only [] at h
  cases hd : StackProcessor.destructure r.input with
  | error e => simp [hd] at h
  | ok t =>
    obtain ⟨serviceName, methodPath, args⟩ := t
    simp only [hd] at h
    cases hc : client serviceName methodPath args with
    | error thrown =>
      simp only [hc, Prod.mk.injEq, Except.error.injEq] at h
      exact ⟨serviceName, methodPath, args, by rw [hc, h.2]⟩
    | ok result =>
      simp only [hc] at h
      rcases h2 : storage.updateStackRun r.id
          { status := some "completed", result := some (JSON.stringifyVal result) } s1
        with ⟨s2, r2⟩
      simp only [h2] at h
      rcases r2 with e | o2
      · simp at h
      simp only [] at h
      split at h
      · rcases h3 : StackProcessor._resumeParentTask js storage r s2 with ⟨s3, r3⟩
        simp only [h3] at h
        cases r3 <;> simp [Except.mapError] at h
      · simp at h

theorem processStackRun_ok (A : Adapter) (js : JsEngine) (client : ServiceClient)
    (r : StackRun) (w : World) (hread : A.ReadableStack w.store r.id)
    (hclient : ∀ a b c, client a b c ≠ .error (.val .null)
      ∧ client a b c ≠ .error (.val .undefined)) :
    (StackProcessor.processStackRun js A.storage client r w).2 = .ok ()
      ∧ ∀ w2 t, StackProcessor.processStackRunTry js A.storage client r w = (w2, .error t) →
          StackProcessor.processStackRun js A.storage client r w
            = ({ store := w2.store.mapStackRuns
                  (StackRun.updated r.id "failed" none (some (thrownText t)) none),
                 calls := w2.calls }, .ok ()) := by
  have hstep := (processStackRunTry_step A js client r w).1
  rcases htry : StackProcessor.processStackRunTry js A.storage client r w with ⟨w2, res⟩
  rw [htry] at hstep
  cases res with
  | ok u =>
    refine ⟨by simp only [StackProcessor.processStackRun, htry], fun w3 t h => by cases h⟩
  | error t =>
    have ht1 : t ≠ .val .null := by
      intro ht; subst ht
      obtain ⟨a, b, c, hc⟩ := processStackRunTry_thrown js A.storage client r w w2 _ htry
      exact (hclient a b c).1 hc
    have ht2 : t ≠ .val .undefined := by
      intro ht; subst ht
      obtain ⟨a, b, c, hc⟩ := processStackRunTry_thrown js A.storage client r w w2 _ htry
      exact (hclient a b c).2 hc
    have hread2 := step_readable A _ _ _ hstep r.id hread
    have htext : ∃ v, thrownText t = JSON.text v := by
      cases t with
      | err e => exact ⟨_, rfl⟩
      | val v => exact ⟨_, rfl⟩
    obtain ⟨v, hv⟩ := htext
    obtain ⟨⟨obj2, h2⟩, -⟩ := updateStackRun_spec A w2.store r.id "failed" none
      (some (thrownText t)) none hread2 parseColumn_none
      (by rw [hv]; exact parseColumn_some_text _) parseColumn_none
    have h2' : A.storage.updateStackRun r.id
          { status := some "failed", error := some (.str (thrownText t)) } w2.store
        = (w2.store.mapStackRuns (StackRun.updated r.id "failed" none (some (thrownText t)) none),
            .ok obj2) := h2
    have hfinal : StackProcessor.processStackRun js A.storage client r w
        = ({ store := w2.store.mapStackRuns
              (StackRun.updated r.id "failed" none (some (thrownText t)) none),
             calls := w2.calls }, .ok ()) := by
      simp only [StackProcessor.processStackRun, htry, thrownJSON_ok t ht1 ht2, h2']
    refine ⟨by rw [hfinal], fun w3 t3 h => ?_⟩
    simp only [Prod.mk.injEq, Except.error.injEq] at h
    obtain ⟨hw, he⟩ := h
    subst hw; subst he
    exact hfinal

theorem processStackRun_step (A : Adapter) (js : JsEngine) (client : ServiceClient)
    (r : StackRun) (w : World) :
    A.Step (r.id :: r.parent_stack_run_id.toList) w.store
        (StackProcessor.processStackRun js A.storage client r w).1.store
      ∧ ((StackProcessor.processStackRun js A.storage client r w).1.calls = w.calls
          ∨ (StackProcessor.processStackRun js A.storage client r w).1.calls
              = w.calls ++ [StackProcessor.hostCallOf r]) := by
  have hstep := processStackRunTry_step A js client r w
  unfold StackProcessor.processStackRun
  rcases htry : StackProcessor.processStackRunTry js A.storage client r w with ⟨w2, res⟩
  rw [htry] at hstep
  cases res with
  | ok u => exact hstep
  | error t =>
    simp only []
    rcases thrownJSON_cases t with hj | ⟨v, hj⟩
    · rw [hj]; exact hstep
    rw [hj]
    simp only []
    have hu := updateStackRun_step A r.id "failed" none (some v) none w2.store
    rcases h2 : A.storage.updateStackRun r.id
        { status := some "failed", error := some (JSON.stringifyVal v) } w2.store with ⟨s3, r3⟩
    have hs3 : A.Step [r.id] w2.store s3 := by
      have : (A.storage.updateStackRun r.id
          { status := some "failed", error := some (JSON.stringifyVal v) } w2.store).1 = s3 := by
        rw [h2]
      rw [← this]; exact hu
    have hfin : A.Step (r.id :: r.parent_stack_run_id.toList) w.store s3 :=
      step_trans A _ [r.id] _ _ _ _ hstep.1 hs3 (fun _ h => h) (fun i h => by simp at h; simp [h])
    cases r3 <;> exact ⟨hfin, hstep.2⟩

theorem getPendingStackRuns_fst (A : Adapter) (s : Store) :
    (A.storage.getPendingStackRuns s).1 = s := by
  cases A <;> rfl

theorem parseStackRuns_mem : ∀ (rows rs : List StackRun),
    SQLiteAdapter.parseStackRuns rows = .ok rs →
    ∀ r ∈ rs, ∃ row ∈ rows, SQLiteAdapter._parseStackRun row = .ok r
  | [], rs, h, r, hr => by
    simp only [SQLiteAdapter.parseStackRuns, Except.ok.injEq] at h
    subst h
    cases hr
  | row :: rows, rs, h, r, hr => by
    cases hp : SQLiteAdapter._parseStackRun row with
    | error e => simp [SQLiteAdapter.parseStackRuns, hp] at h
    | ok t =>
      cases hq : SQLiteAdapter.parseStackRuns rows with
      | error e => simp [SQLiteAdapter.parseStackRuns, hp, hq] at h
      | ok ts =>
        simp only [SQLiteAdapter.parseStackRuns, hp, hq, Except.ok.injEq] at h
        subst h
        rcases List.mem_cons.mp hr with h1 | h1
        · subst h1
          exact ⟨row, List.mem_cons_self _ _, hp⟩
        · obtain ⟨row1, hm, h2⟩ := parseStackRuns_mem rows ts hq r h1
          exact ⟨row1, List.mem_cons_of_mem _ hm, h2⟩

theorem find?_of_nodup : ∀ (l : List StackRun), (l.map (fun r => r.id)).Nodup →
    ∀ row ∈ l, l.find? (fun r => r.id == row.id) = some row
  | [], _, row, h => by cases h
  | x :: xs, hn, row, h => by
    simp only [List.map_cons, List.nodup_cons] at hn
    rcases List.mem_cons.mp h with h1 | h1
    · subst h1
      simp [List.find?]
    · have hne : x.id ≠ row.id := by
        intro he
        exact hn.1 (he ▸ List.mem_map_of_mem (fun r => r.id) h1)
      have hb : (x.id == row.id) = false := by simpa using hne
      simp only [List.find?, hb]
      exact find?_of_nodup xs hn.2 row h1

theorem pending_rows (A : Adapter) (s : Store) (pending : List StackRun)
    (hpend : (A.storage.getPendingStackRuns s).2 = .ok pending) :
    ∀ r ∈ pending, ∃ row ∈ s.stack_runs, row.id = r.id
      ∧ (row.status = "pending" ∨ row.status = "suspended_waiting_child") ∧ A.Parses row := by
  intro r hr
  cases A
  · simp only [Adapter.storage, SQLiteAdapter.storage, SQLiteAdapter.getPendingStackRuns] at hpend
    obtain ⟨row, hm, hp⟩ := parseStackRuns_mem _ _ hpend r hr
    obtain ⟨hm1, hm2⟩ := List.mem_filter.mp hm
    refine ⟨row, hm1, (_parseStackRun_fields row r hp).1.symm, ?_, ⟨r, hp⟩⟩
    simpa using hm2
  · simp only [Adapter.storage, SupabaseAdapter.storage, SupabaseAdapter.getPendingStackRuns,
      Except.ok.injEq] at hpend
    subst hpend
    obtain ⟨hm1, hm2⟩ := List.mem_filter.mp hr
    exact ⟨r, hm1, rfl, by simpa using hm2, trivial⟩

theorem pending_readable (A : Adapter) (s : Store) (pending : List StackRun)
    (hkey : (s.stack_runs.map (fun r => r.id)).Nodup)
    (hpend : (A.storage.getPendingStackRuns s).2 = .ok pending) :
    ∀ r ∈ pending, A.ReadableStack s r.id := by
  intro r hr
  obtain ⟨row, hm, hid, -, hp⟩ := pending_rows A s pending hpend r hr
  refine (readableStack_iff A s r.id).mpr ⟨row, ?_, hp⟩
  rw [← hid]
  exact find?_of_nodup _ hkey row hm

theorem afterEach_cons (js : JsEngine) (storage : StorageAdapter) (client : ServiceClient)
    (r : StackRun) (rs : List StackRun) (w : World) :
    StackProcessor.afterEach js storage client (r :: rs) w
      = StackProcessor.afterEach js storage client rs
          (StackProcessor.processStackRun js storage client r w).1 := rfl

theorem afterEach_append (js : JsEngine) (storage : StorageAdapter) (client : ServiceClient)
    (l1 l2 : List StackRun) (w : World) :
    StackProcessor.afterEach js storage client (l1 ++ l2) w
      = StackProcessor.afterEach js storage client l2
          (StackProcessor.afterEach js storage client l1 w) := by
  simp [StackProcessor.afterEach, List.foldl_append]

theorem afterEach_readable (A : Adapter) (js : JsEngine) (client : ServiceClient) :
    ∀ (l : List StackRun) (w : World) (id : Nat), A.ReadableStack w.store id →
      A.ReadableStack (StackProcessor.afterEach js A.storage client l w).store id
  | [], _, _, h => h
  | r :: rs, w, id, h => by
    rw [afterEach_cons]
    exact afterEach_readable A js client rs _ id
      (step_readable A _ _ _ (processStackRun_step A js client r w).1 id h)

theorem processAll_spec (A : Adapter) (js : JsEngine) (client : ServiceClient)
    (hclient : ∀ a b c, client a b c ≠ .error (.val .null)
      ∧ client a b c ≠ .error (.val .undefined)) :
    ∀ (l : List StackRun) (w : World), (∀ r ∈ l, A.ReadableStack w.store r.id) →
      StackProcessor.processAll js A.storage client l w
        = (StackProcessor.afterEach js A.storage client l w, .ok ())
  | [], _, _ => rfl
  | r :: rs, w, h => by
    have hok := (processStackRun_ok A js client r w (h r (List.mem_cons_self _ _)) hclient).1
    have hstep := (processStackRun_step A js client r w).1
    rw [StackProcessor.processAll, afterEach_cons]
    rcases hp : StackProcessor.processStackRun js A.storage client r w with ⟨w1, res⟩
    rw [hp] at hok hstep
    simp only at hok
    subst hok
    simp only []
    exact processAll_spec A js client hclient rs w1
      (fun r1 h1 => step_readable A _ _ _ hstep r1.id (h r1 (List.mem_cons_of_mem _ h1)))

/-! ## C11: a dispatch pass goes through the whole list -/

/-- C11, counterexample (with either adapter). The task code `codeTwice` leaves two
pending stack runs, and the service client rejects every call with `null`. In the
`catch` of `processStackRun` the expression `error.message` then throws a `TypeError`:
`processStackRun` throws it for the first stack run and `processPending` throws it in
turn. The first stack run is left `in_progress` with no error stored, and the second is
never processed: it is still `pending` and no call was made for it. -/
theorem C11_null_rejection_stops_the_pass :
    (Adapter.sqlite.storage.getPendingStackRuns
        (Scenario.afterExecute .sqlite Scenario.codeTwice)).2
      = .ok [Scenario.child, Scenario.secondChild]
    ∧ (StackProcessor.processPending Scenario.js Adapter.sqlite.storage Scenario.nullClient
        ⟨Scenario.afterExecute .sqlite Scenario.codeTwice, []⟩).2
      = .error StackProcessor.nullPropertyError
    ∧ (StackProcessor.processPending Scenario.js Adapter.sqlite.storage Scenario.nullClient
        ⟨Scenario.afterExecute .sqlite Scenario.codeTwice, []⟩).1.calls
      = [⟨.str "kv", .str "get", .str "x"⟩]
    ∧ Scenario.stackView
        (StackProcessor.processPending Scenario.js Adapter.sqlite.storage Scenario.nullClient
          ⟨Scenario.afterExecute .sqlite Scenario.codeTwice, []⟩).1.store
      = [⟨1, none, "task_init", "in_progress", .null, .null, .null⟩,
         ⟨2, some 1, "kv.get", "in_progress", .null, .null, .null⟩,
         ⟨3, some 1, "kv.put", "pending", .null, .null, .null⟩]
    ∧ (StackProcessor.processPending Scenario.js Adapter.supabase.storage Scenario.nullClient
        ⟨Scenario.afterExecute .supabase Scenario.codeTwice, []⟩).2
      = .error StackProcessor.nullPropertyError
    ∧ Scenario.stackView
        (StackProcessor.processPending Scenario.js Adapter.supabase.storage Scenario.nullClient
          ⟨Scenario.afterExecute .supabase Scenario.codeTwice, []⟩).1.store
      = [⟨1, none, "task_init", "in_progress", .null, .null, .null⟩,
         ⟨2, some 1, "kv.get", "in_progress", .null, .null, .null⟩,
         ⟨3, some 1, "kv.put", "pending", .null, .null, .null⟩] := by
  decide

/-- C11, amended. Let the ids of the stored stack runs be distinct (the primary key),
let `getPendingStackRuns` return the list `pending`, and let the service client never
reject a call with `null` or `undefined`: it returns a result or rejects with an `Error`
or with another value of the model (a boolean, a number, a string, an array, a plain
object). Then, for every such service client and every task code, `processPending`
returns normally, and the world it leaves is the one reached
by `processStackRun` on every listed stack run, one after the other in list order. At
each stack run of the list, a value thrown inside the `try` block of `processStackRun`
(an error of the store, an error or another value the service client rejects with, the
error of the resumed task body) is stored on that stack run, as status `failed` with
the `message` and `stack` of the value, and `processStackRun` returns normally, so the
stack runs after it are processed. -/
theorem C11_pass_processes_every_listed_run (A : Adapter) (js : JsEngine)
    (client : ServiceClient) (w : World) (pending : List StackRun)
    (hkey : (w.store.stack_runs.map (fun r => r.id)).Nodup)
    (hpend : (A.storage.getPendingStackRuns w.store).2 = .ok pending)
    (hclient : ∀ a b c, client a b c ≠ .error (.val .null)
      ∧ client a b c ≠ .error (.val .undefined)) :
    StackProcessor.processPending js A.storage client w
        = (StackProcessor.afterEach js A.storage client pending w, .ok ())
    ∧ ∀ (before after : List StackRun) (r : StackRun), pending = before ++ r :: after →
        ∀ (w2 : World) (t : Thrown),
          StackProcessor.processStackRunTry js A.storage client r
              (StackProcessor.afterEach js A.storage client before w) = (w2, .error t) →
          StackProcessor.processStackRun js A.storage client r
              (StackProcessor.afterEach js A.storage client before w)
            = ({ store := w2.store.mapStackRuns
                  (StackRun.updated r.id "failed" none (some (thrownText t)) none),
                 calls := w2.calls }, .ok ()) := by
  have hread := pending_readable A w.store pending hkey hpend
  constructor
  · have h1 := getPendingStackRuns_fst A w.store
    rcases hg : A.storage.getPendingStackRuns w.store with ⟨s1, res⟩
    rw [hg] at h1 hpend
    simp only at h1 hpend
    subst h1; subst hpend
    simp only [StackProcessor.processPending, hg]
    exact processAll_spec A js client hclient pending w hread
  · intro before after r hsplit w2 t htry
    have hr : A.ReadableStack w.store r.id := hread r (by rw [hsplit]; simp)
    exact (processStackRun_ok A js client r _
      (afterEach_readable A js client before w r.id hr) hclient).2 w2 t htry

/-- C11, witness: the two pending children of the task code `codeTwice` on the SQLite
adapter, with a service client whose every call fails with an `Error`. -/
theorem C11_pass_processes_every_listed_run_witness :
    StackProcessor.processPending Scenario.js Adapter.sqlite.storage Scenario.failingClient
        ⟨Scenario.afterExecute .sqlite Scenario.codeTwice, []⟩
      = (StackProcessor.afterEach Scenario.js Adapter.sqlite.storage Scenario.failingClient
          [Scenario.child, Scenario.secondChild]
          ⟨Scenario.afterExecute .sqlite Scenario.codeTwice, []⟩, .ok ()) :=
  (C11_pass_processes_every_listed_run .sqlite Scenario.js Scenario.failingClient
    ⟨Scenario.afterExecute .sqlite Scenario.codeTwice, []⟩
    [Scenario.child, Scenario.secondChild] (by decide) (by decide)
    (fun _ _ _ => ⟨fun h => (by cases h), fun h => (by cases h)⟩)).1

/-! ## C12: two passes that hold the same pending stack run -/

theorem processStackRun_calls_eq (js : JsEngine) (storage : StorageAdapter)
    (client : ServiceClient) (r : StackRun) (w : World) :
    (StackProcessor.processStackRun js storage client r w).1.calls
      = (StackProcessor.processStackRunTry js storage client r w).1.calls := by
  unfold StackProcessor.processStackRun
  rcases StackProcessor.processStackRunTry js storage client r w with ⟨w2, res⟩
  cases res with
  | ok u => rfl
  | error t =>
    simp only []
    cases StackProcessor.thrownJSON t with
    | error e => rfl
    | ok text =>
      simp only []
      rcases storage.updateStackRun r.id
        { status := some "failed", error := some text } w2.store with ⟨s3, r3⟩
      cases r3 <;> rfl

theorem processStackRun_calls (A : Adapter) (js : JsEngine) (client : ServiceClient)
    (c : StackRun) (w : World) (serviceName methodPath args : JsVal)
    (hstatus : c.status ≠ "in_progress")
    (hread : A.ReadableStack w.store c.id)
    (hinput : StackProcessor.destructure c.input = .ok (serviceName, methodPath, args)) :
    (StackProcessor.processStackRun js A.storage client c w).1.calls
      = w.calls ++ [⟨serviceName, methodPath, args⟩] := by
  rw [processStackRun_calls_eq]
  obtain ⟨⟨obj1, h1⟩, -⟩ := updateStackRun_spec A w.store c.id "in_progress" none none none
    hread parseColumn_none parseColumn_none parseColumn_none
  have h1' : A.storage.updateStackRun c.id { status := some "in_progress" } w.store
      = (w.store.mapStackRuns (StackRun.updated c.id "in_progress" none none none), .ok obj1) :=
    h1
  have hs : (c.status == "in_progress") = false := by simpa using hstatus
  simp only [StackProcessor.processStackRunTry, hs, h1', hinput, Bool.false_eq_true, if_false]
  cases client serviceName methodPath args with
  | error e => rfl
  | ok result =>
    simp only []
    rcases A.storage.updateStackRun c.id
      { status := some "completed", result := some (JSON.stringifyVal result) }
      (w.store.mapStackRuns (StackRun.updated c.id "in_progress" none none none)) with ⟨s2, r2⟩
    cases r2 with
    | error e => rfl
    | ok o =>
      simp only []
      split
      · rfl
      · rfl

theorem pending_status (A : Adapter) (s : Store) (pending : List StackRun)
    (hpend : (A.storage.getPendingStackRuns s).2 = .ok pending) :
    ∀ r ∈ pending, r.status = "pending" ∨ r.status = "suspended_waiting_child" := by
  intro r hr
  cases A
  · simp only [Adapter.storage, SQLiteAdapter.storage, SQLiteAdapter.getPendingStackRuns] at hpend
    obtain ⟨row, hm, hp⟩ := parseStackRuns_mem _ _ hpend r hr
    have hst := (List.mem_filter.mp hm).2
    rw [(_parseStackRun_fields row r hp).2.1]
    simpa using hst
  · simp only [Adapter.storage, SupabaseAdapter.storage, SupabaseAdapter.getPendingStackRuns,
      Except.ok.injEq] at hpend
    subst hpend
    have hst := (List.mem_filter.mp hr).2
    simpa using hst

/-- C12. Two dispatch passes hold the same stack run object `c`, fetched while it was
pending, and call `processStackRun(c)` one after the other. When the adapter can read
the row of `c` and the input of `c` names a host call, each of the two calls of
`processStackRun` calls the service client: the calls made are the one host call, twice.
`processStackRun` skips only when the `status` property of the object it is handed is
`in_progress`; it does not read the stored status, and the object of the second pass
still says `pending`. No stack run that `getPendingStackRuns` returns has the status
`in_progress`, so the test never skips a stack run of a dispatch pass. -/
theorem C12_stale_status_repeats_host_call (A : Adapter) (js : JsEngine)
    (client : ServiceClient) (c : StackRun) (w : World) (serviceName methodPath args : JsVal)
    (hstatus : c.status = "pending")
    (hread : A.ReadableStack w.store c.id)
    (hinput : StackProcessor.destructure c.input = .ok (serviceName, methodPath, args)) :
    (StackProcessor.processStackRun js A.storage client c
        (StackProcessor.processStackRun js A.storage client c w).1).1.calls
      = w.calls ++ [⟨serviceName, methodPath, args⟩, ⟨serviceName, methodPath, args⟩]
    ∧ (∀ (r : StackRun) (w1 : World), r.status = "in_progress" →
        StackProcessor.processStackRun js A.storage client r w1 = (w1, .ok ()))
    ∧ ∀ (s : Store) (pending : List StackRun),
        (A.storage.getPendingStackRuns s).2 = .ok pending →
        ∀ r ∈ pending, r.status ≠ "in_progress" := by
  have hne : c.status ≠ "in_progress" := by rw [hstatus]; decide
  refine ⟨?_, ?_, ?_⟩
  · have hread1 := step_readable A _ _ _ (processStackRun_step A js client c w).1 c.id hread
    rw [processStackRun_calls A js client c _ serviceName methodPath args hne hread1 hinput,
      processStackRun_calls A js client c w serviceName methodPath args hne hread hinput]
    simp
  · intro r w1 hr
    simp [StackProcessor.processStackRun, StackProcessor.processStackRunTry, hr]
  · intro s pending hpend r hr
    rcases pending_status A s pending hpend r hr with h | h <;> rw [h] <;> decide

/-- C12, witness: the pending child of Scenario C on the SQLite adapter, dispatched
twice from the object fetched before the first dispatch. -/
theorem C12_stale_status_repeats_host_call_witness :
    (StackProcessor.processStackRun Scenario.js Adapter.sqlite.storage Scenario.helloClient
        Scenario.child
        (StackProcessor.processStackRun Scenario.js Adapter.sqlite.storage Scenario.helloClient
          Scenario.child ⟨Scenario.afterExecute .sqlite Scenario.codeGet, []⟩).1).1.calls
      = [⟨.str "kv", .str "get", .str "x"⟩, ⟨.str "kv", .str "get", .str "x"⟩] :=
  (C12_stale_status_repeats_host_call .sqlite Scenario.js Scenario.helloClient Scenario.child
    ⟨Scenario.afterExecute .sqlite Scenario.codeGet, []⟩ (.str "kv") (.str "get") (.str "x")
    (by decide) ⟨Scenario.child, by decide⟩ (by decide)).1

/-! ## C13: what a dispatch pass leaves alone -/

set_option maxRecDepth 100000 in
/-- C13, counterexample, with either adapter. The task code `codeTwice` is executed
(root stack run 1, pending children 2 and 3), child 2 is dispatched, and the root, which
`getPendingStackRuns` then returns, is dispatched as well: stack run 1 is stored as
`completed` while its child 3 is pending. `processPending` on that store dispatches
child 3 and, to resume the parent, rewrites stack run 1: its stored status goes from
`completed` to `suspended_waiting_child`. -/
theorem C13_completed_parent_is_rewritten :
    (Adapter.sqlite.storage.getPendingStackRuns
        (Scenario.afterDispatch .sqlite Scenario.codeTwice Scenario.helloClient).store).2.map
          List.head? = .ok (some (Scenario.waitingRoot .sqlite))
    ∧ Scenario.statusOf (Scenario.parentDone .sqlite).store 1 = some "completed"
    ∧ Scenario.pendingView .sqlite (Scenario.parentDone .sqlite).store
        = some [(3, "kv.put", "pending"), (4, "kv.get", "pending"), (5, "kv.put", "pending")]
    ∧ Scenario.statusOf (StackProcessor.processPending Scenario.js Adapter.sqlite.storage
          Scenario.helloClient (Scenario.parentDone .sqlite)).1.store 1
        = some "suspended_waiting_child"
    ∧ (Adapter.supabase.storage.getPendingStackRuns
        (Scenario.afterDispatch .supabase Scenario.codeTwice Scenario.helloClient).store).2.map
          List.head? = .ok (some (Scenario.waitingRoot .supabase))
    ∧ Scenario.statusOf (Scenario.parentDone .supabase).store 1 = some "completed"
    ∧ Scenario.pendingView .supabase (Scenario.parentDone .supabase).store
        = some [(3, "kv.put", "pending"), (4, "kv.get", "pending"), (5, "kv.put", "pending")]
    ∧ Scenario.statusOf (StackProcessor.processPending Scenario.js Adapter.supabase.storage
          Scenario.helloClient (Scenario.parentDone .supabase)).1.store 1
        = some "suspended_waiting_child" := by
  decide!

theorem step_mono (A : Adapter) (ids1 ids : List Nat) (s s1 : Store) (h : A.Step ids1 s s1)
    (hs : ∀ i ∈ ids1, i ∈ ids) : A.Step ids s s1 :=
  step_trans A ids1 [] ids s s1 s1 h (step_refl A [] s1) hs (fun _ h => by cases h)

theorem processAll_step (A : Adapter) (js : JsEngine) (client : ServiceClient) :
    ∀ (l : List StackRun) (w : World),
      A.Step (l.flatMap (fun r => r.id :: r.parent_stack_run_id.toList)) w.store
          (StackProcessor.processAll js A.storage client l w).1.store
        ∧ ∃ done : List StackRun, done.Sublist l
            ∧ (StackProcessor.processAll js A.storage client l w).1.calls
                = w.calls ++ done.map StackProcessor.hostCallOf
  | [], w => ⟨step_refl _ _ _, [], List.Sublist.refl _, by simp [StackProcessor.processAll]⟩
  | r :: rs, w => by
    obtain ⟨hstep, hcalls⟩ := processStackRun_step A js client r w
    rw [StackProcessor.processAll]
    rcases hp : StackProcessor.processStackRun js A.storage client r w with ⟨w1, res⟩
    rw [hp] at hstep hcalls
    simp only at hstep hcalls
    have hstep1 : A.Step ((r :: rs).flatMap (fun r => r.id :: r.parent_stack_run_id.toList))
        w.store w1.store :=
      step_mono A _ _ _ _ hstep (fun i hi => by
        simp only [List.flatMap_cons, List.mem_append]; exact Or.inl hi)
    have hdone1 : ∃ d1 : List StackRun, d1.Sublist [r]
        ∧ w1.calls = w.calls ++ d1.map StackProcessor.hostCallOf := by
      rcases hcalls with h | h
      · exact ⟨[], by simp, by simp [h]⟩
      · exact ⟨[r], List.Sublist.refl _, by simp [h]⟩
    obtain ⟨d1, hd1, hc1⟩ := hdone1
    cases res with
    | error e =>
      refine ⟨hstep1, d1, ?_, hc1⟩
      exact hd1.trans (by simp)
    | ok u =>
      simp only []
      obtain ⟨hstep2, d2, hd2, hc2⟩ := processAll_step A js client rs w1
      refine ⟨?_, d1 ++ d2, ?_, ?_⟩
      · exact step_trans A _ _ _ _ _ _ hstep hstep2
          (fun i hi => by simp only [List.flatMap_cons, List.mem_append]; exact Or.inl hi)
          (fun i hi => by simp only [List.flatMap_cons, List.mem_append]; exact Or.inr hi)
      · have := List.Sublist.append hd1 hd2
        simpa using this
      · rw [hc2, hc1]; simp

theorem getPendingStackRuns_terminal (A : Adapter) (s : Store)
    (h : ∀ row ∈ s.stack_runs, row.status = "completed" ∨ row.status = "failed") :
    A.storage.getPendingStackRuns s = (s, .ok []) := by
  have hf : s.stack_runs.filter
      (fun r => r.status == "pending" || r.status == "suspended_waiting_child") = [] := by
    rw [List.filter_eq_nil_iff]
    intro row hrow
    rcases h row hrow with h1 | h1 <;> rw [h1] <;> decide
  cases A
  · simp only [Adapter.storage, SQLiteAdapter.storage, SQLiteAdapter.getPendingStackRuns, hf]
    rfl
  · simp only [Adapter.storage, SupabaseAdapter.storage, SupabaseAdapter.getPendingStackRuns, hf]

/-- C13, amended. Let `getPendingStackRuns` return the list `pending`. Every listed
stack run is stored with status `pending` or `suspended_waiting_child`, so a stack run
stored as `completed` or `failed` is not listed. The host calls that `processPending`
makes are calls for listed stack runs, in list order and at most one for each. A stored
stack run that is neither listed nor the parent of a listed stack run keeps its row.
And on a store whose stack runs are all `completed` or `failed`, `processPending` makes
no host call, leaves the store as it is and returns normally. -/
theorem C13_pass_touches_listed_runs_and_parents (A : Adapter) (js : JsEngine)
    (client : ServiceClient) (w : World) (pending : List StackRun)
    (hpend : (A.storage.getPendingStackRuns w.store).2 = .ok pending) :
    (∀ r ∈ pending, ∃ row ∈ w.store.stack_runs, row.id = r.id
        ∧ (row.status = "pending" ∨ row.status = "suspended_waiting_child"))
    ∧ (∃ done : List StackRun, done.Sublist pending
        ∧ (StackProcessor.processPending js A.storage client w).1.calls
            = w.calls ++ done.map StackProcessor.hostCallOf)
    ∧ (∀ (id : Nat) (row : StackRun), w.store.stackRun? id = some row →
        (∀ r ∈ pending, r.id ≠ id ∧ r.parent_stack_run_id ≠ some id) →
        (StackProcessor.processPending js A.storage client w).1.store.stackRun? id = some row)
    ∧ ((∀ row ∈ w.store.stack_runs, row.status = "completed" ∨ row.status = "failed") →
        StackProcessor.processPending js A.storage client w = (w, .ok ())) := by
  have hpp : StackProcessor.processPending js A.storage client w
      = StackProcessor.processAll js A.storage client pending w := by
    have h1 := getPendingStackRuns_fst A w.store
    rcases hg : A.storage.getPendingStackRuns w.store with ⟨s1, res⟩
    rw [hg] at h1 hpend
    simp only at h1 hpend
    subst h1; subst hpend
    simp only [StackProcessor.processPending, hg]
  obtain ⟨hstep, hdone⟩ := processAll_step A js client pending w
  refine ⟨?_, ?_, ?_, ?_⟩
  · intro r hr
    obtain ⟨row, hm, hid, hst, -⟩ := pending_rows A w.store pending hpend r hr
    exact ⟨row, hm, hid, hst⟩
  · rw [hpp]; exact hdone
  · intro id row hrow hother
    rw [hpp]
    refine step_keeps A _ _ _ hstep id row ?_ hrow
    intro hmem
    obtain ⟨r, hr, hin⟩ := List.mem_flatMap.mp hmem
    obtain ⟨h1, h2⟩ := hother r hr
    rcases List.mem_cons.mp hin with h | h
    · exact h1 h.symm
    · apply h2
      cases hp : r.parent_stack_run_id with
      | none => rw [hp] at h; cases h
      | some p =>
        rw [hp] at h
        simp only [Option.toList, List.mem_singleton] at h
        rw [h]
  · intro hterm
    simp only [StackProcessor.processPending, getPendingStackRuns_terminal A w.store hterm]
    rfl

/-- C13, witness: the pending child of Scenario C on the SQLite adapter. -/
theorem C13_pass_touches_listed_runs_and_parents_witness :
    ∃ done : List StackRun, done.Sublist [Scenario.child]
      ∧ (StackProcessor.processPending Scenario.js Adapter.sqlite.storage Scenario.helloClient
            ⟨Scenario.afterExecute .sqlite Scenario.codeGet, []⟩).1.calls
          = [] ++ done.map StackProcessor.hostCallOf :=
  (C13_pass_touches_listed_runs_and_parents .sqlite Scenario.js Scenario.helloClient
    ⟨Scenario.afterExecute .sqlite Scenario.codeGet, []⟩ [Scenario.child] (by decide)).2.1

/-! ## C14: the child when the resumed task fails -/

set_option maxRecDepth 100000 in
/-- C14, counterexample (with either adapter). The pending child `kv.get` of a task
whose code throws whenever it is resumed is dispatched, and the service client answers
`hello`. `resume` stores the task run as failed and throws the error of the body again;
the `catch` of `processStackRun` then stores the child as `failed` with that error. The
child ends with status `failed`, the result `"hello"` and the error of the task body. -/
theorem C14_child_is_failed_by_the_resumed_body :
    Scenario.stackView (Scenario.afterDispatch .sqlite Scenario.codeStrict
          Scenario.helloClient).store
        = [⟨1, none, "task_init", "suspended_waiting_child", .null, .null,
              .str "\x7b\"result\":null\x7d"⟩,
           ⟨2, some 1, "kv.get", "failed", .str "\"hello\"",
              .str (errorText ⟨"resumed", "Error: resumed"⟩), .null⟩]
    ∧ Scenario.taskView (Scenario.afterDispatch .sqlite Scenario.codeStrict
          Scenario.helloClient).store
        = [⟨1, "failed", .null, .str (messageText ⟨"resumed", "Error: resumed"⟩)⟩]
    ∧ Scenario.stackView (Scenario.afterDispatch .supabase Scenario.codeStrict
          Scenario.helloClient).store
        = [⟨1, none, "task_init", "suspended_waiting_child", .null, .null,
              .str "\x7b\"result\":null\x7d"⟩,
           ⟨2, some 1, "kv.get", "failed", .str "\"hello\"",
              .str (errorText ⟨"resumed", "Error: resumed"⟩), .null⟩] := by
  decide

theorem updated_after_in_progress (id : Nat) (st : String) (r e p : Option String) (s : Store) :
    (s.mapStackRuns (StackRun.updated id "in_progress" none none none)).mapStackRuns
        (StackRun.updated id st r e p)
      = s.mapStackRuns (StackRun.updated id st r e p) := by
  simp only [Store.mapStackRuns, List.map_map]
  congr 1
  apply List.map_congr_left
  intro row _
  by_cases h : row.id = id
  · simp [StackRun.updated, h]
  · simp [StackRun.updated, h]

theorem stackRun?_mapStackRuns (s : Store) (id : Nat) (f : StackRun → StackRun)
    (hf : ∀ r, (f r).id = r.id) :
    (s.mapStackRuns f).stackRun? id = (s.stackRun? id).map f :=
  find?_map_stackRun f hf s.stack_runs id

/-- C14, amended. Let `c` be a pending stack run that the adapter can read, whose input
names a host call that the service client answers with a result `r` (not `undefined`),
and that is not its own parent. The `try` block of `processStackRun(c)` then ends the way
the resumption of the parent ends (normally when `c` has no parent). When it ends
normally, the stored row of `c` is the row from before with status `completed` and the
JSON text of `r` as result. When resuming the parent throws an error `e` (an error of
the store, or the error of the task body that `resume` throws again), the stored row of
`c` is the row from before with status `failed`, the JSON text of `r` as result and the
message and stack of `e` as error. -/
theorem C14_child_completed_unless_resuming_throws (A : Adapter) (js : JsEngine)
    (client : ServiceClient) (c : StackRun) (w : World) (serviceName methodPath args r : JsVal)
    (hstatus : c.status = "pending")
    (hread : A.ReadableStack w.store c.id)
    (hinput : StackProcessor.destructure c.input = .ok (serviceName, methodPath, args))
    (hcall : client serviceName methodPath args = .ok r)
    (hr : r ≠ .undefined)
    (hself : c.parent_stack_run_id ≠ some c.id) :
    (StackProcessor.processStackRunTry js A.storage client c w).2
        = (if StackProcessor.hasParent c then
            ((StackProcessor._resumeParentTask js A.storage c
              (w.store.mapStackRuns
                (StackRun.updated c.id "completed" (some (JSON.text r)) none none))).2).mapError
              Thrown.err
          else .ok ())
    ∧ ((StackProcessor.processStackRunTry js A.storage client c w).2 = .ok () →
        (StackProcessor.processStackRun js A.storage client c w).1.store.stackRun? c.id
          = (w.store.stackRun? c.id).map
              (fun row => { row with status := "completed", result := .str (JSON.text r) }))
    ∧ ∀ e, (StackProcessor.processStackRunTry js A.storage client c w).2 = .error (.err e) →
        (StackProcessor.processStackRun js A.storage client c w).1.store.stackRun? c.id
          = (w.store.stackRun? c.id).map
              (fun row => { row with status := "failed", result := .str (JSON.text r),
                                     error := .str (errorText e) }) := by
  obtain ⟨row, hrow, -⟩ := (readableStack_iff A w.store c.id).mp hread
  have hrid : row.id = c.id := by
    have hfound := List.find?_some hrow
    simpa using hfound
  obtain ⟨⟨obj1, h1⟩, hread1⟩ := updateStackRun_spec A w.store c.id "in_progress" none none none
    hread parseColumn_none parseColumn_none parseColumn_none
  have h1' : A.storage.updateStackRun c.id { status := some "in_progress" } w.store
      = (w.store.mapStackRuns (StackRun.updated c.id "in_progress" none none none), .ok obj1) :=
    h1
  obtain ⟨⟨obj2, h2⟩, hread2⟩ := updateStackRun_spec A _ c.id "completed"
    (some (JSON.text r)) none none hread1 (parseColumn_some_text _) parseColumn_none
    parseColumn_none
  rw [updated_after_in_progress] at h2 hread2
  have h2' : A.storage.updateStackRun c.id
        { status := some "completed", result := some (JSON.stringifyVal r) }
        (w.store.mapStackRuns (StackRun.updated c.id "in_progress" none none none))
      = (w.store.mapStackRuns
          (StackRun.updated c.id "completed" (some (JSON.text r)) none none), .ok obj2) := by
    rw [SQLiteAdapter.stringifyVal_eq r hr]
    exact h2
  have hs : (c.status == "in_progress") = false := by rw [hstatus]; decide
  have hrow2 : (w.store.mapStackRuns
      (StackRun.updated c.id "completed" (some (JSON.text r)) none none)).stackRun? c.id
      = some { row with status := "completed", result := .str (JSON.text r) } := by
    rw [stackRun?_mapStackRuns _ _ _ (stackRun_updated_id _ _ _ _ _), hrow]
    simp [StackRun.updated, hrid]
  have htry : StackProcessor.processStackRunTry js A.storage client c w
      = (if StackProcessor.hasParent c then
          (match StackProcessor._resumeParentTask js A.storage c
              (w.store.mapStackRuns
                (StackRun.updated c.id "completed" (some (JSON.text r)) none none)) with
            | (s3, res) =>
              ({ store := s3, calls := w.calls ++ [⟨serviceName, methodPath, args⟩] },
                res.mapError Thrown.err))
        else
          ({ store := w.store.mapStackRuns
                (StackRun.updated c.id "completed" (some (JSON.text r)) none none),
             calls := w.calls ++ [⟨serviceName, methodPath, args⟩] }, .ok ())) := by
    simp only [StackProcessor.processStackRunTry, hs, h1', hinput, hcall, h2',
      Bool.false_eq_true, if_false]
  by_cases hpar : StackProcessor.hasParent c = true
  · have hstep := _resumeParentTask_step A js c
      (w.store.mapStackRuns (StackRun.updated c.id "completed" (some (JSON.text r)) none none))
    rcases hres : StackProcessor._resumeParentTask js A.storage c
      (w.store.mapStackRuns (StackRun.updated c.id "completed" (some (JSON.text r)) none none))
      with ⟨s3, res⟩
    rw [hres] at hstep
    simp only [hpar, if_true, hres] at htry
    have hnot : c.id ∉ c.parent_stack_run_id.toList := by
      intro hm
      apply hself
      cases hp : c.parent_stack_run_id with
      | none => rw [hp] at hm; cases hm
      | some p =>
        rw [hp] at hm
        simp only [Option.toList, List.mem_singleton] at hm
        rw [hm]
    have hrow3 := step_keeps A _ _ _ hstep c.id _ hnot hrow2
    have hread3 := step_readable A _ _ _ hstep c.id hread2
    simp only at hrow3 hread3
    cases res with
    | ok u =>
      simp only [Except.mapError] at htry
      refine ⟨by rw [htry]; simp [hpar, hres, Except.mapError], fun _ => ?_, fun e he => ?_⟩
      · simp only [StackProcessor.processStackRun, htry, hrow3, hrow, Option.map_some']
      · rw [htry] at he; cases he
    | error e0 =>
      simp only [Except.mapError] at htry
      obtain ⟨⟨obj3, h3⟩, -⟩ := updateStackRun_spec A s3 c.id "failed" none
        (some (errorText e0)) none hread3 parseColumn_none (parseColumn_some_text _)
        parseColumn_none
      have h3' : A.storage.updateStackRun c.id
            { status := some "failed", error := some (errorJSON e0) } s3
          = (s3.mapStackRuns (StackRun.updated c.id "failed" none (some (errorText e0)) none),
              .ok obj3) := h3
      refine ⟨by rw [htry]; simp [hpar, hres, Except.mapError], fun h => ?_, fun e he => ?_⟩
      · rw [htry] at h; cases h
      · rw [htry] at he
        simp only [Except.error.injEq, Thrown.err.injEq] at he
        subst he
        simp only [StackProcessor.processStackRun, htry, StackProcessor.thrownJSON, h3']
        rw [stackRun?_mapStackRuns _ _ _ (stackRun_updated_id _ _ _ _ _), hrow3, hrow]
        simp [StackRun.updated, hrid]
  · have hpar' : StackProcessor.hasParent c = false := by simpa using hpar
    simp only [hpar', Bool.false_eq_true, if_false] at htry
    refine ⟨by rw [htry]; simp [hpar'], fun _ => ?_, fun e he => ?_⟩
    · simp only [StackProcessor.processStackRun, htry, hrow2, hrow, Option.map_some']
    · rw [htry] at he; cases he

set_option maxRecDepth 100000 in
/-- C14, witness: the pending child of a task whose code throws when it is resumed, on
the SQLite adapter; the service client answers `hello`. -/
theorem C14_child_completed_unless_resuming_throws_witness :
    (StackProcessor.processStackRun Scenario.js Adapter.sqlite.storage Scenario.helloClient
        Scenario.child ⟨Scenario.afterExecute .sqlite Scenario.codeStrict, []⟩).1.store.stackRun?
        Scenario.child.id
      = ((Scenario.afterExecute .sqlite Scenario.codeStrict).stackRun? Scenario.child.id).map
          (fun row => { row with status := "failed", result := .str (JSON.text (.str "hello")),
                                 error := .str (errorText ⟨"resumed", "Error: resumed"⟩) }) :=
  (C14_child_completed_unless_resuming_throws .sqlite Scenario.js Scenario.helloClient
    Scenario.child ⟨Scenario.afterExecute .sqlite Scenario.codeStrict, []⟩
    (.str "kv") (.str "get") (.str "x") (.str "hello")
    (by decide) ⟨Scenario.child, by decide⟩ (by decide) (by decide) (by decide)
    (by decide)).2.2 ⟨"resumed", "Error: resumed"⟩ (by decide)

/-! ## `JSON.parse` gives back a representable value -/

namespace JSON

theorem representable_ne_undefined (v : JsVal) (h : v.representable = true) :
    v ≠ .undefined := by
  intro hv; subst hv; simp [JsVal.representable] at h

theorem representableElems_cons (x : JsVal) (xs : List JsVal)
    (h : JsVal.representableElems (x :: xs) = true) :
    x.representable = true ∧ JsVal.representableElems xs = true := by
  rw [JsVal.representableElems] at h
  simpa using h

theorem representableMembers_cons (k : String) (v : JsVal) (fs : List (String × JsVal))
    (h : JsVal.representableMembers ((k, v) :: fs) = true) :
    v.representable = true ∧ (∀ m ∈ fs, m.1 ≠ k) ∧ JsVal.representableMembers fs = true := by
  rw [JsVal.representableMembers] at h
  simp only [Bool.and_eq_true, Bool.not_eq_true', List.any_eq_false, beq_iff_eq] at h
  exact ⟨h.1.1.1, fun m hm => h.1.1.2 m hm, h.2⟩

theorem setProp_fresh (acc : List (String × JsVal)) (k : String) (v : JsVal)
    (h : ∀ m ∈ acc, m.1 ≠ k) : setProp acc k v = acc ++ [(k, v)] := by
  have : acc.any (fun kv => kv.1 == k) = false := by
    simp only [List.any_eq_false, beq_iff_eq]
    exact fun m hm => h m hm
  simp [setProp, this]

theorem serMembers_representable_ne_nil (k : String) (v : JsVal) (fs : List (String × JsVal))
    (hv : v ≠ .undefined) : serMembers false ((k, v) :: fs) ≠ [] := by
  rw [serMembers_cons_defined _ _ _ _ hv]
  simp [quote]

mutual
theorem parseValue_ser_eq : (v : JsVal) → v.representable = true →
    ∀ (f : Nat) (rest : List Char),
    2 * (ser v).length ≤ f → Sep rest → parseValue f (ser v ++ rest) = some (v, rest)
  | .undefined, hr, _, _, _, _ => by simp [JsVal.representable] at hr
  | .null, _, f, rest, hf, _ => by
    obtain ⟨f', rfl⟩ : ∃ f', f = f' + 1 :=
      ⟨f - 1, by have := ser_length_pos .null; omega⟩
    exact parseValue_null f' rest
  | .bool b, _, f, rest, hf, _ => by
    obtain ⟨f', rfl⟩ : ∃ f', f = f' + 1 :=
      ⟨f - 1, by have := ser_length_pos (.bool b); omega⟩
    cases b
    · exact parseValue_false f' rest
    · exact parseValue_true f' rest
  | .num n, _, f, rest, hf, hs => by
    obtain ⟨f', rfl⟩ : ∃ f', f = f' + 1 :=
      ⟨f - 1, by have := ser_length_pos (.num n); omega⟩
    rw [ser]; exact parseValue_number f' n rest hs
  | .str s, _, f, rest, hf, _ => by
    obtain ⟨f', rfl⟩ : ∃ f', f = f' + 1 :=
      ⟨f - 1, by have := ser_length_pos (.str s); omega⟩
    rw [ser]; exact parseValue_string f' s rest
  | .arr xs, hr, f, rest, hf, _ => by
    obtain ⟨f', rfl⟩ : ∃ f', f = f' + 1 :=
      ⟨f - 1, by have := ser_length_pos (.arr xs); omega⟩
    rw [JsVal.representable] at hr
    rw [ser] at hf ⊢
    by_cases hxs : xs = []
    · subst hxs
      exact parseValue_array_empty f' rest
    · have hws := parseElements_ser_eq xs hxs hr f' rest (by
        simp only [List.length_cons, List.length_append, List.length_nil] at hf
        omega)
      obtain ⟨x, xs', rfl⟩ := List.exists_cons_of_ne_nil hxs
      obtain ⟨c, tl, h1, h2, h3, -⟩ := ser_head x
      have hshape : ∃ tl', serElems (x :: xs') = c :: tl' := by
        cases xs' with
        | nil => exact ⟨tl, by rw [serElems_single, h1]⟩
        | cons y ys => exact ⟨_, by rw [serElems_cons_cons, h1]; rfl⟩
      obtain ⟨tl', h4⟩ := hshape
      have : '[' :: (serElems (x :: xs') ++ [']']) ++ rest
          = '[' :: c :: (tl' ++ ']' :: rest) := by
        rw [h4]; simp
      rw [this, parseValue_array_cons _ _ _ h2 h3]
      have h5 : c :: (tl' ++ ']' :: rest) = serElems (x :: xs') ++ ']' :: rest := by
        rw [h4]; simp
      rw [h5, hws]
      rfl
  | .obj fs, hr, f, rest, hf, _ => by
    obtain ⟨f', rfl⟩ : ∃ f', f = f' + 1 :=
      ⟨f - 1, by have := ser_length_pos (.obj fs); omega⟩
    rw [JsVal.representable] at hr
    rw [ser] at hf ⊢
    cases fs with
    | nil =>
      have : serMembers false [] = [] := by rw [serMembers]
      rw [this]
      exact parseValue_object_empty f' rest
    | cons kv fs' =>
      obtain ⟨k, v⟩ := kv
      have hvr := (representableMembers_cons k v fs' hr).1
      have hfs := serMembers_representable_ne_nil k v fs' (representable_ne_undefined v hvr)
      have hout := parseMembers_ser_eq ((k, v) :: fs') hr f' [] rest (by
        simp only [List.length_cons, List.length_append, List.length_nil] at hf
        omega) (by intro m _ a ha; cases ha) (by simp)
      obtain ⟨c, tl, h4⟩ := List.exists_cons_of_ne_nil hfs
      have hc : c = dquote := by
        obtain ⟨tl2, h6⟩ := serMembers_false_head _ hfs
        rw [h6] at h4
        injection h4 with h7 _
        exact h7.symm
      subst hc
      have : '{' :: (serMembers false ((k, v) :: fs') ++ ['}']) ++ rest
          = '{' :: dquote :: (tl ++ '}' :: rest) := by
        rw [h4]; simp
      rw [this, parseValue_object_cons _ _ _ (by decide) (by decide)]
      have h5 : dquote :: (tl ++ '}' :: rest)
          = serMembers false ((k, v) :: fs') ++ '}' :: rest := by
        rw [h4]; simp
      rw [h5, hout]
      rfl
theorem parseElements_ser_eq : (xs : List JsVal) → xs ≠ [] →
    JsVal.representableElems xs = true → ∀ (f : Nat) (rest : List Char),
    2 * (serElems xs).length + 1 ≤ f →
    parseElements f (serElems xs ++ ']' :: rest) = some (xs, rest)
  | [], h, _, _, _, _ => absurd rfl h
  | [x], _, hr, f, rest, hf => by
    obtain ⟨f', rfl⟩ : ∃ f', f = f' + 1 := ⟨f - 1, by omega⟩
    rw [serElems_single] at hf ⊢
    have hw := parseValue_ser_eq x (representableElems_cons x [] hr).1 f' (']' :: rest)
      (by omega) (sep_cons_bracket rest)
    exact parseElements_last _ _ _ _ hw
  | x :: y :: ys, _, hr, f, rest, hf => by
    obtain ⟨f', rfl⟩ : ∃ f', f = f' + 1 := ⟨f - 1, by omega⟩
    rw [serElems_cons_cons] at hf ⊢
    simp only [List.length_cons, List.length_append] at hf
    obtain ⟨hx, hrest⟩ := representableElems_cons x (y :: ys) hr
    have hw := parseValue_ser_eq x hx f' (',' :: (serElems (y :: ys) ++ ']' :: rest))
      (by omega) (sep_cons_comma _)
    have hws := parseElements_ser_eq (y :: ys) (by simp) hrest f' rest (by omega)
    have : (ser x ++ ',' :: serElems (y :: ys)) ++ ']' :: rest
        = ser x ++ ',' :: (serElems (y :: ys) ++ ']' :: rest) := by simp
    rw [this, parseElements_more _ _ _ _ hw, hws]
    rfl
theorem parseMembers_ser_eq : (fs : List (String × JsVal)) →
    JsVal.representableMembers fs = true →
    ∀ (f : Nat) (acc : List (String × JsVal)) (rest : List Char),
    2 * (serMembers false fs).length + 1 ≤ f →
    (∀ m ∈ fs, ∀ a ∈ acc, a.1 ≠ m.1) → fs ≠ [] →
    parseMembers f (serMembers false fs ++ '}' :: rest) acc = some (acc ++ fs, rest)
  | [], _, _, _, _, _, _, h => absurd rfl h
  | (k, v) :: fs, hr, f, acc, rest, hf, hacc, _ => by
    obtain ⟨hvr, hk, hrest⟩ := representableMembers_cons k v fs hr
    have hv := representable_ne_undefined v hvr
    obtain ⟨f', rfl⟩ : ∃ f', f = f' + 1 := ⟨f - 1, by omega⟩
    have hset : setProp acc k v = acc ++ [(k, v)] :=
      setProp_fresh acc k v (fun a ha => hacc (k, v) (List.mem_cons_self _ _) a ha)
    rw [serMembers_cons_defined _ _ _ _ hv] at hf ⊢
    simp only [Bool.false_eq_true, if_false, List.nil_append, List.length_cons,
      List.length_append] at hf ⊢
    rw [serMembers_true] at hf ⊢
    cases fs with
    | nil =>
      have hnil : serMembers false [] = [] := by rw [serMembers]
      simp only [hnil, if_true, List.append_nil, List.length_nil] at hf ⊢
      have hw := parseValue_ser_eq v hvr f' ('}' :: rest) (by omega) (sep_cons_brace rest)
      have : (quote k ++ ':' :: ser v) ++ '}' :: rest
          = quote k ++ ':' :: (ser v ++ '}' :: rest) := by simp
      rw [this, parseMembers_last _ _ _ _ _ _ hw, hset]
    | cons kv2 fs2 =>
      obtain ⟨k2, v2⟩ := kv2
      have hv2 := representable_ne_undefined v2 (representableMembers_cons k2 v2 fs2 hrest).1
      have hfs := serMembers_representable_ne_nil k2 v2 fs2 hv2
      simp only [hfs, if_false, List.length_cons] at hf ⊢
      have hw := parseValue_ser_eq v hvr f'
        (',' :: (serMembers false ((k2, v2) :: fs2) ++ '}' :: rest))
        (by omega) (sep_cons_comma _)
      have hout := parseMembers_ser_eq ((k2, v2) :: fs2) hrest f' (acc ++ [(k, v)]) rest
        (by omega)
        (by
          intro m hm a ha
          rcases List.mem_append.mp ha with h1 | h1
          · exact hacc m (List.mem_cons_of_mem _ hm) a h1
          · simp only [List.mem_singleton] at h1
            subst h1
            exact fun he => hk m hm he.symm)
        (by simp)
      have : (quote k ++ ':' :: (ser v ++ ',' :: serMembers false ((k2, v2) :: fs2)))
            ++ '}' :: rest
          = quote k ++ ':' :: (ser v ++ ',' ::
              (serMembers false ((k2, v2) :: fs2) ++ '}' :: rest)) := by
        simp
      rw [this, parseMembers_more _ _ _ _ _ _ hw, hset, hout]
      simp
end

theorem parse_text_eq (v : JsVal) (h : v.representable = true) :
    parse (JSON.text v) = .ok v := by
  have hw := parseValue_ser_eq v h (2 * (ser v).length + 2) [] (by omega) sep_nil
  unfold parse JSON.text
  simp only [String.length, String.toList, List.append_nil] at hw ⊢
  rw [hw]
  simp [skipWs]

end JSON

/-! ## C15: the keystore -/

/-- C15, counterexample, with either adapter and an empty keystore. The string `123` is
stored as the text `123`, and `getKeystore` parses what it reads: it returns the number
123. In the same way the string `true` comes back as the boolean `true` and the string
`null` as `null`. -/
theorem C15_string_of_json_text_comes_back_parsed :
    (Adapter.sqlite.getKeystore "k" (Adapter.sqlite.setKeystore "k" (.str "123") []).1).2
        = .ok (.num 123)
    ∧ (Adapter.sqlite.getKeystore "k" (Adapter.sqlite.setKeystore "k" (.str "true") []).1).2
        = .ok (.bool true)
    ∧ (Adapter.sqlite.getKeystore "k" (Adapter.sqlite.setKeystore "k" (.str "null") []).1).2
        = .ok .null
    ∧ (Adapter.supabase.getKeystore "k" (Adapter.supabase.setKeystore "k" (.str "123") []).1).2
        = .ok (.num 123)
    ∧ (Adapter.supabase.getKeystore "k" (Adapter.supabase.setKeystore "k" (.str "true") []).1).2
        = .ok (.bool true)
    ∧ (Adapter.supabase.getKeystore "k" (Adapter.supabase.setKeystore "k" (.str "null") []).1).2
        = .ok .null := by
  decide

theorem toJSString_str (s : String) : (JsVal.str s).toJSString = s := rfl

theorem keystoreText_representable (v : JsVal) (hv : v.representable = true) :
    ∃ t, keystoreText v = .str t
      ∧ ((∃ s, v = .str s ∧ t = s) ∨ ((∀ s, v ≠ .str s) ∧ t = JSON.text v)) := by
  cases v with
  | undefined => simp [JsVal.representable] at hv
  | str s => exact ⟨s, rfl, Or.inl ⟨s, rfl, rfl⟩⟩
  | null => exact ⟨_, rfl, Or.inr ⟨fun s h => (by cases h), rfl⟩⟩
  | bool b => exact ⟨_, rfl, Or.inr ⟨fun s h => (by cases h), rfl⟩⟩
  | num n => exact ⟨_, rfl, Or.inr ⟨fun s h => (by cases h), rfl⟩⟩
  | arr xs => exact ⟨_, rfl, Or.inr ⟨fun s h => (by cases h), rfl⟩⟩
  | obj fs => exact ⟨_, rfl, Or.inr ⟨fun s h => (by cases h), rfl⟩⟩

theorem keystoreValue_text (v : JsVal) (hv : v.representable = true)
    (hstr : ∀ s, v = .str s → ∃ e, JSON.parse s = .error e) :
    ∃ t, keystoreText v = .str t ∧ keystoreValue (.str t) = v := by
  obtain ⟨t, ht, h⟩ := keystoreText_representable v hv
  refine ⟨t, ht, ?_⟩
  rcases h with ⟨s, hs, hts⟩ | ⟨-, hts⟩
  · obtain ⟨e, he⟩ := hstr s hs
    subst hts; subst hs
    simp only [keystoreValue, toJSString_str, he]
  · subst hts
    simp only [keystoreValue, toJSString_str, JSON.parse_text_eq v hv]

theorem find?_filter_key (key : String) (tbl : Keystore) :
    (tbl.filter (fun r => r.key != key)).find? (fun r => r.key == key) = none := by
  rw [List.find?_eq_none]
  intro r hr
  have := (List.mem_filter.mp hr).2
  simpa using this

theorem find?_map_key (key : String) (f : KeystoreRow → KeystoreRow)
    (hf : ∀ r, (f r).key = r.key) (tbl : Keystore) :
    (tbl.map f).find? (fun r => r.key == key) = (tbl.find? (fun r => r.key == key)).map f := by
  induction tbl with
  | nil => rfl
  | cons x xs ih =>
    by_cases hx : x.key = key
    · simp [List.find?, hf, hx]
    · have hb : (x.key == key) = false := by simpa using hx
      simp [List.find?, hf, hb, ih]

theorem setKeystore_find (A : Adapter) (key : String) (v : JsVal) (t : String)
    (tbl : Keystore) (ht : keystoreText v = .str t) :
    (A.setKeystore key v tbl).2 = .ok ()
      ∧ ∃ row, (A.setKeystore key v tbl).1.find? (fun r => r.key == key) = some row
          ∧ row.value = .str t := by
  cases A
  · have hset : Adapter.sqlite.setKeystore key v tbl
        = (tbl.filter (fun r => r.key != key) ++ [⟨key, .str t⟩], .ok ()) := by
      simp only [Adapter.setKeystore, SQLiteAdapter.setKeystore, ht, SQLiteAdapter.bind]
    rw [hset]
    refine ⟨rfl, ⟨key, .str t⟩, ?_, rfl⟩
    show List.find? _ (tbl.filter (fun r => r.key != key) ++ [⟨key, .str t⟩]) = _
    rw [List.find?_append, find?_filter_key]
    simp [List.find?]
  · by_cases hany : tbl.any (fun r => r.key == key) = true
    · have hset : Adapter.supabase.setKeystore key v tbl
          = (tbl.map (fun r =>
              if r.key == key then { r with value := SupabaseAdapter.sent r.value (.str t) }
              else r), .ok ()) := by
        simp only [Adapter.setKeystore, SupabaseAdapter.setKeystore, ht, hany, if_true]
      rw [hset]
      obtain ⟨row0, hm, hk⟩ := List.any_eq_true.mp hany
      cases hfind : tbl.find? (fun r => r.key == key) with
      | none =>
        rw [List.find?_eq_none] at hfind
        exact absurd hk (hfind row0 hm)
      | some row =>
        have hrk : row.key = key := by
          have hfound := List.find?_some hfind
          simpa using hfound
        refine ⟨rfl, { row with value := .str t }, ?_, rfl⟩
        show List.find? _ (tbl.map _) = _
        rw [find?_map_key key _ (by intro r; split <;> rfl), hfind]
        simp [hrk, SupabaseAdapter.sent, JsVal.wire]
    · have hany1 : tbl.any (fun r => r.key == key) = false := by simpa using hany
      have hset : Adapter.supabase.setKeystore key v tbl
          = (tbl ++ [⟨key, .str t⟩], .ok ()) := by
        simp only [Adapter.setKeystore, SupabaseAdapter.setKeystore, ht, hany1,
          Bool.false_eq_true, if_false]
        rfl
      rw [hset]
      have hnone : tbl.find? (fun r => r.key == key) = none := by
        rw [List.find?_eq_none]
        intro r hr
        have := List.any_eq_false.mp hany1 r hr
        simpa using this
      refine ⟨rfl, ⟨key, .str t⟩, ?_, rfl⟩
      show List.find? _ (tbl ++ [⟨key, .str t⟩]) = _
      rw [List.find?_append, hnone]
      simp [List.find?]

theorem getKeystore_find (A : Adapter) (key : String) (tbl : Keystore) :
    (A.getKeystore key tbl).2
      = .ok (match tbl.find? (fun r => r.key == key) with
              | none => .null
              | some row => keystoreValue row.value) := by
  cases A
  · simp only [Adapter.getKeystore, SQLiteAdapter.getKeystore]
    cases tbl.find? (fun r => r.key == key) <;> rfl
  · simp only [Adapter.getKeystore, SupabaseAdapter.getKeystore]
    cases tbl.find? (fun r => r.key == key) <;> rfl

/-- C15, amended. For every key, every keystore and either adapter: when `v` is a
representable value that is not a string, or a string that `JSON.parse` refuses,
`setKeystore(k, v)` returns normally and `getKeystore(k)` after it returns `v`.
`getKeystore(k)` returns `null` after `deleteKeystore(k)`, and for a key that no row of
the keystore has. Representable values have integers that JavaScript represents exactly
for numbers and no property name that begins with a digit, and the strings are those on
which the modelled `JSON.parse` decides as the engine does (`JSON.modelled`): strings
that hold a numeral with a fraction or an exponent, or a u-escape, behind a first
character that can begin a JSON value are left out. -/
theorem C15_keystore_round_trip (A : Adapter) (key : String) (v : JsVal) (tbl : Keystore)
    (hv : v.representable = true)
    (hstr : ∀ s, v = .str s → JSON.modelled s = true ∧ ∃ e, JSON.parse s = .error e) :
    (A.setKeystore key v tbl).2 = .ok ()
    ∧ (A.getKeystore key (A.setKeystore key v tbl).1).2 = .ok v
    ∧ (A.getKeystore key (A.deleteKeystore key tbl).1).2 = .ok .null
    ∧ (tbl.any (fun r => r.key == key) = false → (A.getKeystore key tbl).2 = .ok .null) := by
  have hstr1 : ∀ s, v = .str s → ∃ e, JSON.parse s = .error e := fun s hs => (hstr s hs).2
  refine ⟨?_, ?_, ?_, ?_⟩
  · obtain ⟨t, ht, -⟩ := keystoreValue_text v hv hstr1
    exact (setKeystore_find A key v t tbl ht).1
  · obtain ⟨t, ht, hval⟩ := keystoreValue_text v hv hstr1
    obtain ⟨-, row, hfind, hrow⟩ := setKeystore_find A key v t tbl ht
    rw [getKeystore_find, hfind]
    simp only [hrow, hval]
  · rw [getKeystore_find]
    have : (A.deleteKeystore key tbl).1 = tbl.filter (fun r => r.key != key) := by
      cases A <;> rfl
    rw [this, find?_filter_key]
  · intro hany
    rw [getKeystore_find]
    have hnone : tbl.find? (fun r => r.key == key) = none := by
      rw [List.find?_eq_none]
      intro r hr
      have := List.any_eq_false.mp hany r hr
      simpa using this
    rw [hnone]

/-- C15, witness: the string `hello` on the SQLite adapter, in a keystore that already
has the key. -/
theorem C15_keystore_round_trip_witness :
    (Adapter.sqlite.getKeystore "k"
        (Adapter.sqlite.setKeystore "k" (.str "hello") [⟨"k", .str "old"⟩]).1).2
      = .ok (.str "hello") :=
  (C15_keystore_round_trip .sqlite "k" (.str "hello") [⟨"k", .str "old"⟩] (by decide)
    (fun s h => by cases h; exact ⟨by decide, JSON.syntaxError, by decide⟩)).2.1
